import Mathlib

/-!
Verification of gmp: compile-time type lists and preprocessor macros.

A shallow embedding of `include/gmp/meta/type_list.hpp` and of the macros of
`include/gmp/macro/macro.hpp`.

Type lists.
A C++ type is an element of an arbitrary carrier `α` with decidable equality
(`std::same_as`), and `type_list<Ts...>` is the `List α` of its arguments.
Naming a template specialisation either yields its member (`some _`) or is
ill-formed (`none`): an unsatisfied `requires`-clause, an incomplete primary
template, or an ambiguous choice of partial specialisation.  Non-type
arguments of type `std::size_t` are natural numbers, and `N - 1` computed in
`std::size_t` is `size_t_dec N`.  A partial specialisation that is chosen for
`Idx > 0` only is written with the pattern `Idx + 1`, its `Idx-1` being `Idx`.

Macros.
A macro is a function on preprocessing-token sequences.  Every function takes
its arguments after their own macro expansion (the preprocessor expands an
argument before substituting it) and returns the completely expanded result,
or `none` when the invocation is ill-formed.  The numbered tables of macros
(`_GMP_INC_0` to `_GMP_INC_255` and the like) are read off the spelling of the
name.  A deferred invocation, left by `GMP_DEFER`, is expanded by the next
scan; `GMP_EVAL` is its 364 scans.
-/

namespace gmp

/-! ### `std::size_t` -/

/-- The largest value of `std::size_t` (64-bit targets). -/
def SIZE_MAX : Nat := 2 ^ 64 - 1

/-- The value of `N - 1` computed in `std::size_t`: it wraps to `SIZE_MAX` at `N = 0`. -/
def size_t_dec (N : Nat) : Nat := if N = 0 then SIZE_MAX else N - 1

section TypeList

variable {α : Type}

/-! ### `type_list_size`, `type_list_element` (type_list.hpp 28-56) -/

/-- Template `type_list_size_v<type_list<Types...>>` is `sizeof...(Types)`. -/
def type_list_size_v (T : List α) : Nat := T.length

/-- Template `type_list_element<Idx, T>::type`.

The primary template carries `requires (Idx < type_list_size_v<T>)` and is only
declared.  `<0, type_list<Head, Types...>>` is more specialised than
`<Idx, type_list<Head, Types...>>`, so the latter is chosen for `Idx > 0` only,
where it names `type_list_element<Idx-1, type_list<Types...>>`. -/
def type_list_element : Nat → List α → Option α
  | _, [] => none
  | 0, Head :: _ => some Head
  | Idx + 1, Head :: Types =>
    if Idx + 1 < type_list_size_v (Head :: Types) then type_list_element Idx Types else none

/-- The concept `type_list_like<T>` for `T = type_list<...>`: `T` is not a
reference, `type_list_size<T>` derives from the matching `integral_constant`,
and the fold over `std::make_index_sequence<type_list_size_v<T>>` asks that
`type_list_element_t<Is, T>` be a type for every `Is`.

Every `type_list<...>` satisfies the concept (`type_list_like_holds` below), and
a template parameter constrained by it is a `List α` here, so the operations
below do not test it again. -/
def type_list_like (T : List α) : Bool :=
  (List.range (type_list_size_v T)).all fun Is => (type_list_element Is T).isSome

/-- Template `type_list_head<T>` is `type_list_element_t<0, T>`. -/
def type_list_head (T : List α) : Option α :=
  type_list_element 0 T

/-- Template `type_list_last<T>` is `type_list_element_t<type_list_size_v<T> - 1, T>`. -/
def type_list_last (T : List α) : Option α :=
  type_list_element (size_t_dec (type_list_size_v T)) T

/-- Template `type_list_tail_t<T>`: the primary template requires
`type_list_like<T> && (type_list_size_v<T> > 0)` and has no member `type`; the
partial specialisation for `type_list<Head, Types...>` has. -/
def type_list_tail_t (T : List α) : Option (List α) :=
  if type_list_size_v T > 0 then
    match T with
    | _ :: Types => some Types
    | [] => none
  else none

/-! ### `type_list_concat` (type_list.hpp 100-116) -/

/-- Template `type_list_concat_t<TypeLists...>`.

The primary template takes `TypeList1, TypeList2, RestTypeLists...`, so fewer
than two lists do not match it.  Exactly two lists select the partial
specialisation, whose member is `type_list<LTypes..., RTypes...>`; with more,
the first two are concatenated and the result is concatenated with the rest. -/
def type_list_concat_t : List (List α) → Option (List α)
  | [] => none
  | [_] => none
  | [LTypes, RTypes] => some (LTypes ++ RTypes)
  | TypeList1 :: TypeList2 :: Rest1 :: RestTypeLists =>
    match type_list_concat_t [TypeList1, TypeList2] with
    | some T12 => type_list_concat_t (T12 :: Rest1 :: RestTypeLists)
    | none => none
termination_by L => L.length
decreasing_by all_goals simp_wf

/-! ### `type_list_contains` (type_list.hpp 134-144) -/

/-- Template `type_list_contains_v<U, type_list<Types...>>` is the fold
`(std::same_as<Types, U> || ...)`, `false` for the empty pack. -/
def type_list_contains_v [DecidableEq α] (U : α) (T : List α) : Bool :=
  T.foldr (fun Types rest => decide (Types = U) || rest) false

/-! ### `type_list_remove` (type_list.hpp 119-131, 158-170, 273-282) -/

/-- Template `detail::type_list_remove_impl<Idx, type_list<...>, type_list<Heads...>>::type`.
Both partial specialisations need a non-empty second argument; the one for
`Idx = 0` is the more specialised. -/
def type_list_remove_impl : Nat → List α → List α → Option (List α)
  | _, [], _ => none
  | 0, _ :: Types, Heads => type_list_concat_t [Heads, Types]
  | Idx + 1, Head :: Types, Heads => type_list_remove_impl Idx Types (Heads ++ [Head])

/-- Template `type_list_remove_t<Idx, T>`; the primary template requires
`Idx < type_list_size_v<T>`. -/
def type_list_remove_t (Idx : Nat) (T : List α) : Option (List α) :=
  if Idx < type_list_size_v T then
    match Idx, T with
    | _, [] => none
    | 0, _ :: Types => some Types
    | Idx + 1, Head :: Types => type_list_remove_impl Idx Types [Head]
  else none

/-- Template `type_list_pop_front<T>` is `type_list_remove_t<0, T>`. -/
def type_list_pop_front (T : List α) : Option (List α) :=
  type_list_remove_t 0 T

/-- Template `type_list_pop_back<T>` is `type_list_remove_t<type_list_size_v<T> - 1, T>`. -/
def type_list_pop_back (T : List α) : Option (List α) :=
  type_list_remove_t (size_t_dec (type_list_size_v T)) T

/-! ### `type_list_insert` (type_list.hpp 173-186, 285-308) -/

/-- Template `detail::type_list_insert_impl<Idx, NewType, type_list<Heads...>, type_list<...>>::type`.
The stepping specialisation requires `Idx > 0` and a non-empty last argument. -/
def type_list_insert_impl : Nat → α → List α → List α → Option (List α)
  | 0, NewType, Heads, Types => some (Heads ++ NewType :: Types)
  | _ + 1, _, _, [] => none
  | Idx + 1, NewType, Heads, Head :: Types =>
    type_list_insert_impl Idx NewType (Heads ++ [Head]) Types

/-- Template `type_list_insert_t<Idx, NewType, T>`; the primary template requires
`Idx <= type_list_size_v<T>`. -/
def type_list_insert_t (Idx : Nat) (NewType : α) (T : List α) : Option (List α) :=
  if Idx ≤ type_list_size_v T then
    match Idx, T with
    | 0, Types => some (NewType :: Types)
    | _ + 1, [] => none
    | Idx + 1, Head :: Types => type_list_insert_impl Idx NewType [Head] Types
  else none

/-- Template `type_list_push_front<NewType, T>` is `type_list_insert_t<0, NewType, T>`. -/
def type_list_push_front (NewType : α) (T : List α) : Option (List α) :=
  type_list_insert_t 0 NewType T

/-- Template `type_list_push_back<NewType, T>` is
`type_list_insert_t<type_list_size_v<T>, NewType, T>`. -/
def type_list_push_back (NewType : α) (T : List α) : Option (List α) :=
  type_list_insert_t (type_list_size_v T) NewType T

/-! ### `type_list_reverse` (type_list.hpp 189-203, 316-333) -/

set_option linter.unusedVariables false in
/-- Template `detail::type_list_reverse_impl<Idx, type_list<NewTypes...>, type_list<Types...>>::type`.

`<0, type_list<NewTypes...>, type_list<>>` is the more specialised of the two
partial specialisations and ends the recursion.  Everywhere else the general
one applies: it needs `type_list_last` and `type_list_pop_back` of `Types`
and continues with `Idx-1`, computed in `std::size_t`. -/
def type_list_reverse_impl : Nat → List α → List α → Option (List α)
  | 0, NewTypes, [] => some NewTypes
  | Idx, NewTypes, Types =>
    match type_list_last Types, h : type_list_pop_back Types with
    | some Last, some Rest =>
      type_list_reverse_impl (size_t_dec Idx) (NewTypes ++ [Last]) Rest
    | _, _ => none
termination_by _ _ Types => Types.length
decreasing_by
  have impl_length : ∀ (Ts Heads R : List α) (Idx : Nat),
      type_list_remove_impl Idx Ts Heads = some R →
        R.length + 1 = Heads.length + Ts.length := by
    intro Ts
    induction Ts with
    | nil => intro Heads R Idx hR; cases Idx <;> simp [type_list_remove_impl] at hR
    | cons Head Ts ih =>
      intro Heads R Idx hR
      cases Idx with
      | zero =>
        simp only [type_list_remove_impl, type_list_concat_t, Option.some.injEq] at hR
        subst hR
        simp [Nat.add_assoc]
      | succ Idx =>
        simp only [type_list_remove_impl] at hR
        have := ih (Heads ++ [Head]) R Idx hR
        simp at this ⊢
        omega
  unfold type_list_pop_back type_list_remove_t at h
  split at h
  · split at h
    · simp at h
    · simp only [Option.some.injEq] at h
      subst h
      simp
    · have := impl_length _ _ _ _ h
      simp at this ⊢
      omega
  · simp at h

/-- Template `type_list_reverse_t<T>`: the explicit specialisation for `type_list<>`,
and `type_list_reverse_impl` started at `type_list_size_v<T> - 1` with the last
type moved over for every other list. -/
def type_list_reverse_t (T : List α) : Option (List α) :=
  match T with
  | [] => some []
  | Types =>
    match type_list_last Types, type_list_pop_back Types with
    | some Last, some Rest =>
      type_list_reverse_impl (size_t_dec (type_list_size_v Types)) [Last] Rest
    | _, _ => none

/-! ### `type_list_unique` (type_list.hpp 206-232, 336-352) -/

/-- Template `detail::type_list_unique_impl<Idx, type_list<NewTypes...>, type_list<...>, CompType, B>::type`.

The stepping specialisations match `Idx` against anything and need a non-empty
third argument `type_list<Head, Types...>`; the final ones fix `Idx = 0` and
take any third argument.  With `Idx = 0` and a non-empty third argument both
kinds match and neither is more specialised than the other, so the choice is
ambiguous; with `Idx > 0` and `type_list<>` nothing matches. -/
def type_list_unique_impl [DecidableEq α] : Nat → List α → List α → α → Bool → Option (List α)
  | 0, NewTypes, [], _, true => some (NewTypes ++ [])
  | 0, NewTypes, [], CompType, false => some (NewTypes ++ CompType :: [])
  | 0, _, _ :: _, _, _ => none
  | _ + 1, _, [], _, _ => none
  | Idx + 1, NewTypes, Head :: Types, _, true =>
    type_list_unique_impl Idx NewTypes Types Head (type_list_contains_v Head NewTypes)
  | Idx + 1, NewTypes, Head :: Types, CompType, false =>
    type_list_unique_impl Idx (NewTypes ++ [CompType]) Types Head
      (type_list_contains_v Head (NewTypes ++ [CompType]))

/-- Template `type_list_unique_t<T>`. -/
def type_list_unique_t [DecidableEq α] (T : List α) : Option (List α) :=
  match T with
  | [] => some []
  | Head :: Types =>
    type_list_unique_impl (size_t_dec (type_list_size_v (Head :: Types))) [] Types Head false

/-! ### `type_list_filter` (type_list.hpp 235-267, 355-374) -/

/-- Template `detail::type_list_filter_impl<Idx, type_list<Heads...>, type_list<...>, Pred, CompType, B>::type`,
with the same shape of partial specialisations as `type_list_unique_impl`. -/
def type_list_filter_impl :
    Nat → List α → List α → (α → Bool) → α → Bool → Option (List α)
  | 0, Heads, [], _, CompType, true => some (Heads ++ CompType :: [])
  | 0, Heads, [], _, _, false => some (Heads ++ [])
  | 0, _, _ :: _, _, _, _ => none
  | _ + 1, _, [], _, _, _ => none
  | Idx + 1, Heads, Head :: Types, Pred, CompType, true =>
    type_list_filter_impl Idx (Heads ++ [CompType]) Types Pred Head (Pred Head)
  | Idx + 1, Heads, Head :: Types, Pred, _, false =>
    type_list_filter_impl Idx Heads Types Pred Head (Pred Head)

/-- Template `type_list_filter_t<T, Pred>`.  A predicate is a class template whose
member `value` is a `bool` at every type, which is what the `requires`-clause
of the primary template asks of `Pred<void>`. -/
def type_list_filter_t (T : List α) (Pred : α → Bool) : Option (List α) :=
  match T with
  | [] => some []
  | Head :: Types =>
    type_list_filter_impl (size_t_dec (type_list_size_v (Head :: Types))) [] Types Pred Head
      (Pred Head)

end TypeList

/-! ## Preprocessing tokens -/

/-- A preprocessing token.  Identifiers and pp-numbers carry their spelling;
`other` is any token that is neither of these nor one of `,` `(` `)`
(a character or string literal, an operator). -/
inductive Tok where
  | ident (s : String)
  | num (s : String)
  | other (s : String)
  | comma
  | lparen
  | rparen
deriving DecidableEq

/-- A sequence of preprocessing tokens. -/
abbrev Toks := List Tok

/-- The pp-number that spells the natural number `n` in decimal. -/
def Tok.nat (n : Nat) : Tok := Tok.num (toString n)

/-- Every macro of `macro.hpp` is named `GMP_...`, `_GMP_...` or
`_TRIGGER_PARENTHESIS`. -/
def isMacroName (s : String) : Bool :=
  "GMP_".data.isPrefixOf s.data || "_GMP_".data.isPrefixOf s.data
    || s = "_TRIGGER_PARENTHESIS"

/-- A plain token: one that is not `,` `(` `)` and does not name a macro, so
that macro expansion leaves it as it is. -/
def Tok.plain : Tok → Bool
  | Tok.ident s => !isMacroName s
  | Tok.num _ => true
  | Tok.other _ => true
  | Tok.comma => false
  | Tok.lparen => false
  | Tok.rparen => false

/-- The tokens of an argument list: the arguments separated by commas. -/
def argList : List Toks → Toks
  | [] => []
  | [a] => a
  | a :: b :: rest => a ++ Tok.comma :: argList (b :: rest)

/-- Collects the arguments of an invocation from the tokens between its
parentheses: `d` is the nesting depth of inner parentheses and `cur` the
argument read so far; a comma separates arguments at depth 0 only. -/
def splitArgsAux : Nat → Toks → Toks → List Toks
  | _, cur, [] => [cur]
  | 0, cur, Tok.comma :: rest => cur :: splitArgsAux 0 [] rest
  | d, cur, Tok.lparen :: rest => splitArgsAux (d + 1) (cur ++ [Tok.lparen]) rest
  | d, cur, Tok.rparen :: rest => splitArgsAux (d - 1) (cur ++ [Tok.rparen]) rest
  | d, cur, t :: rest => splitArgsAux d (cur ++ [t]) rest

/-- The arguments of an invocation whose parentheses enclose `ts`. -/
def splitArgs (ts : Toks) : List Toks := splitArgsAux 0 [] ts

/-- The token made by `##` from two tokens, where both are identifiers or
pp-numbers (the only pastings `macro.hpp` performs on well-formed input); any
other pair is reported as not forming a token. -/
def pasteTok : Tok → Tok → Option Tok
  | Tok.ident a, Tok.ident b => some (Tok.ident (a ++ b))
  | Tok.ident a, Tok.num b =>
    if b.data.all (fun c => c.isAlphanum || c = '_') then some (Tok.ident (a ++ b)) else none
  | Tok.num a, Tok.ident b => some (Tok.num (a ++ b))
  | Tok.num a, Tok.num b => some (Tok.num (a ++ b))
  | _, _ => none

/-- The operator `lhs ## rhs` on two arguments: the last token of `lhs` is
pasted to the first token of `rhs`; an empty argument is a placemarker. -/
def paste (lhs rhs : Toks) : Option Toks :=
  match lhs.getLast?, rhs with
  | none, _ => some rhs
  | some _, [] => some lhs
  | some l, r :: rs => (pasteTok l r).map fun t => lhs.dropLast ++ t :: rs

/-! ## The macros of `macro.hpp`, lines 26-234 -/

/-- The value of a decimal digit character. -/
def digitValue? (c : Char) : Option Nat :=
  if '0' ≤ c ∧ c ≤ '9' then some (c.toNat - '0'.toNat) else none

/-- The number spelled by decimal digits, read from the left after `acc`. -/
def decimalValue : List Char → Nat → Option Nat
  | [], acc => some acc
  | c :: cs, acc =>
    match digitValue? c with
    | some d => decimalValue cs (10 * acc + d)
    | none => none

/-- The number whose decimal spelling, without leading zeros, is `s`. -/
def decimal? (s : String) : Option Nat :=
  (decimalValue s.data 0).bind fun n => if toString n = s then some n else none

/-- The number `n` for which `name` is `pre` followed by the decimal spelling
of `n`: the way the numbered macros `pre0`, `pre1`, ... are named. -/
def indexed? (pre name : String) : Option Nat :=
  if pre.data.isPrefixOf name.data then decimal? (String.mk (name.data.drop pre.data.length))
  else none

/-- The numbers `i` and `j` for which `name` is `pre` followed by the spelling
of `i`, an underscore and the spelling of `j`. -/
def indexed2? (pre name : String) : Option (Nat × Nat) :=
  if pre.data.isPrefixOf name.data then
    match decimal? (String.mk ((name.data.drop pre.data.length).takeWhile (· ≠ '_'))),
      (name.data.drop pre.data.length).dropWhile (· ≠ '_') with
    | some i, '_' :: js => (decimal? (String.mk js)).map fun j => (i, j)
    | _, _ => none
  else none

/-- The object-like macros of `macro.hpp` that are defined one by one, with
their replacement lists. -/
def objectLikeNamed : List (String × Toks) :=
  [("GMP_MACRO_HPP_", []),
   ("_GMP_IS_EMPTY_CASE_0001", [Tok.comma]),
   ("_GMP_OPT_COMMA_1", []),
   ("_GMP_OPT_COMMA_0", [Tok.comma]),
   ("_GMP_NOT_0", [Tok.nat 1]),
   ("_GMP_NOT_1", [Tok.nat 0]),
   ("_GMP_AND_0_0", [Tok.nat 0]),
   ("_GMP_AND_0_1", [Tok.nat 0]),
   ("_GMP_AND_1_0", [Tok.nat 0]),
   ("_GMP_AND_1_1", [Tok.nat 1]),
   ("_GMP_BOOL_0", [Tok.nat 0]),
   ("GMP_MAX_INDEX", [Tok.nat 254]),
   ("_GMP_CHECK_INDEX_BOOL_R_1", [Tok.nat 1]),
   ("_GMP_CHECK_INDEX_BOOL_R_0", [Tok.nat 0]),
   ("_GMP_EQUAL_INT_RESULT_0", [Tok.nat 0]),
   ("_GMP_EQUAL_INT_RESULT_1", [Tok.nat 1])]

/-- The object-like macros of `macro.hpp`: `_GMP_CHECK_INDEX_n` for `n` from 0
to 254 (lines 1398-1652) and `_GMP_EQUAL_INT_i_i` for `i` from 0 to 254 (lines
1951-2205), each a comma, and the macros of `objectLikeNamed`. -/
def objectLike (name : String) : Option Toks :=
  match indexed? "_GMP_CHECK_INDEX_" name, indexed2? "_GMP_EQUAL_INT_" name with
  | some n, _ => if n ≤ 254 then some [Tok.comma] else none
  | none, some (i, j) => if i = j ∧ i ≤ 254 then some [Tok.comma] else none
  | none, none => objectLikeNamed.lookup name

/-- Rescanning of a replacement list for object-like macros: an identifier
that names one is replaced by its replacement list. -/
def rescan : Toks → Toks
  | [] => []
  | Tok.ident s :: rest =>
    match objectLike s with
    | some repl => repl ++ rescan rest
    | none => Tok.ident s :: rescan rest
  | t :: rest => t :: rescan rest

/-- Macro `#define _TRIGGER_PARENTHESIS(...) ,` applied along a token sequence.
At depth 0 the scan is outside any invocation: the identifier followed by `(`
starts one, every other token is kept.  At depth `d + 1` the scan is inside the
parentheses of an invocation, whose tokens are dropped up to the matching `)`,
where the replacement `,` is produced.  A sequence that ends inside an
invocation is ill-formed. -/
def scan_TRIGGER_PARENTHESIS : Nat → Toks → Option Toks
  | 0, [] => some []
  | 0, Tok.ident s :: Tok.lparen :: rest =>
    if s = "_TRIGGER_PARENTHESIS" then scan_TRIGGER_PARENTHESIS 1 rest
    else (scan_TRIGGER_PARENTHESIS 0 (Tok.lparen :: rest)).map (Tok.ident s :: ·)
  | 0, t :: rest => (scan_TRIGGER_PARENTHESIS 0 rest).map (t :: ·)
  | _ + 1, [] => none
  | d + 1, Tok.lparen :: rest => scan_TRIGGER_PARENTHESIS (d + 2) rest
  | d + 1, Tok.rparen :: rest =>
    if d = 0 then (scan_TRIGGER_PARENTHESIS 0 rest).map (Tok.comma :: ·)
    else scan_TRIGGER_PARENTHESIS d rest
  | d + 1, _ :: rest => scan_TRIGGER_PARENTHESIS (d + 1) rest

/-- Macro `#define GMP_EXPAND(x) x` -/
def GMP_EXPAND (x : Toks) : Toks := x

/-- Macro `#define GMP_CONCAT_HELPER(lhs, rhs) lhs ## rhs`, the result being rescanned. -/
def GMP_CONCAT_HELPER (lhs rhs : Toks) : Option Toks :=
  (paste lhs rhs).map rescan

/-- Macro `#define GMP_CONCAT(lhs, rhs) GMP_CONCAT_HELPER(lhs, rhs)` -/
def GMP_CONCAT (lhs rhs : Toks) : Option Toks :=
  GMP_CONCAT_HELPER lhs rhs

/-- Macro `#define _GMP_GET_VARARGS_IMPL(_0, ..., _254, N, ...) N`: the parameter `N`
is the 256th, so at least 256 arguments are needed. -/
def _GMP_GET_VARARGS_IMPL (args : List Toks) : Option Toks :=
  args[255]?

/-- Macro `#define GMP_GET_VARARGS(...) GMP_EXPAND( _GMP_GET_VARARGS_IMPL(__VA_ARGS__) )` -/
def GMP_GET_VARARGS (va : Toks) : Option Toks :=
  (_GMP_GET_VARARGS_IMPL (splitArgs va)).map GMP_EXPAND

/-- Macro `#define _GMP_COMMA_CHECK(_0, ..., _254, R, ...) R`: the parameter `R` is
the 256th. -/
def _GMP_COMMA_CHECK (args : List Toks) : Option Toks :=
  args[255]?

/-- Macro `#define GMP_HAS_COMMA(...) GMP_EXPAND( _GMP_COMMA_CHECK(__VA_ARGS__, 1, ..., 1, 0) )`
with 254 times `1` before the final `0`. -/
def GMP_HAS_COMMA (va : Toks) : Option Toks :=
  (_GMP_COMMA_CHECK (splitArgs
    (va ++ Tok.comma :: argList (List.replicate 254 [Tok.nat 1] ++ [[Tok.nat 0]])))).map
    GMP_EXPAND

/-- Macro `#define _GMP_IS_EMPTY_CASE(_0, _1, _2, _3) _GMP_IS_EMPTY_CASE_ ## _0 ## _1 ## _2 ## _3`,
the result being rescanned (`_GMP_IS_EMPTY_CASE_0001` is a macro). -/
def _GMP_IS_EMPTY_CASE (_0 _1 _2 _3 : Toks) : Option Toks :=
  ((((paste [Tok.ident "_GMP_IS_EMPTY_CASE_"] _0).bind (paste · _1)).bind
    (paste · _2)).bind (paste · _3)).map rescan

/-- Macro `#define _GMP_IS_EMPTY_IMPL(_0, _1, _2, _3) GMP_HAS_COMMA(_GMP_IS_EMPTY_CASE(_0, _1, _2, _3))` -/
def _GMP_IS_EMPTY_IMPL (_0 _1 _2 _3 : Toks) : Option Toks :=
  (_GMP_IS_EMPTY_CASE _0 _1 _2 _3).bind GMP_HAS_COMMA

/-- Macro `GMP_IS_EMPTY(...)` (lines 158-164): the four arguments of
`_GMP_IS_EMPTY_IMPL` are `GMP_HAS_COMMA` of `__VA_ARGS__`, of
`_TRIGGER_PARENTHESIS __VA_ARGS__`, of `__VA_ARGS__ ()` and of
`_TRIGGER_PARENTHESIS __VA_ARGS__ ()`, each expanded on its own. -/
def GMP_IS_EMPTY (va : Toks) : Option Toks := do
  let _0 ← (GMP_HAS_COMMA va).map GMP_EXPAND
  let _1 ← ((scan_TRIGGER_PARENTHESIS 0
    (Tok.ident "_TRIGGER_PARENTHESIS" :: va)).bind GMP_HAS_COMMA).map GMP_EXPAND
  let _2 ← ((scan_TRIGGER_PARENTHESIS 0
    (va ++ [Tok.lparen, Tok.rparen])).bind GMP_HAS_COMMA).map GMP_EXPAND
  let _3 ← ((scan_TRIGGER_PARENTHESIS 0
    (Tok.ident "_TRIGGER_PARENTHESIS" :: va ++ [Tok.lparen, Tok.rparen])).bind
      GMP_HAS_COMMA).map GMP_EXPAND
  _GMP_IS_EMPTY_IMPL _0 _1 _2 _3

/-- Macro `#define GMP_OPT_COMMA(...) GMP_CONCAT(_GMP_OPT_COMMA_, GMP_IS_EMPTY(__VA_ARGS__))` -/
def GMP_OPT_COMMA (va : Toks) : Option Toks :=
  (GMP_IS_EMPTY va).bind (GMP_CONCAT [Tok.ident "_GMP_OPT_COMMA_"])

/-- Macro `GMP_SIZE_OF_VAARGS(...)` (lines 125-138):
`GMP_EXPAND( GMP_GET_VARARGS(GMP_OPT_COMMA(__VA_ARGS__) __VA_ARGS__, 254, 253, ..., 1, 0) )`. -/
def GMP_SIZE_OF_VAARGS (va : Toks) : Option Toks :=
  (GMP_OPT_COMMA va).bind fun opt_comma =>
    (GMP_GET_VARARGS (opt_comma ++ va ++
      Tok.comma :: argList ((List.range 255).reverse.map fun n => [Tok.nat n]))).map GMP_EXPAND



/-! ## The macros of `macro.hpp`, lines 237-2294

After a pasting has made a macro name, the tokens that follow it in the
replacement list can be its arguments.  Each such place is written with
`invoke`, given the function-like macros that the pasted name can be there.
A parameter handed on to another macro is one argument of it, as it is for
the preprocessor whenever the expanded argument holds no comma outside
parentheses. -/

/-- The tokens `X (args)`, `X` being the outcome of a pasting: when the last
token of `X` names a function-like macro of `family`, the macro is invoked on
the arguments between the parentheses and its expansion takes their place;
otherwise the tokens stay as they are. -/
def invoke (family : String → Option (List Toks → Option Toks)) (X args : Toks) :
    Option Toks :=
  match X.getLast? with
  | some (Tok.ident name) =>
    match family name with
    | some M => (M (splitArgs args)).map (X.dropLast ++ ·)
    | none => some (X ++ Tok.lparen :: args ++ [Tok.rparen])
  | _ => some (X ++ Tok.lparen :: args ++ [Tok.rparen])

/-- Macro `#define _GMP_OVERLOAD_INVOKE_1(call, v1) GMP_CONCAT(GMP_CONCAT(call, _), v1)` -/
def _GMP_OVERLOAD_INVOKE_1 (call v1 : Toks) : Option Toks :=
  (GMP_CONCAT call [Tok.ident "_"]).bind (GMP_CONCAT · v1)

/-- Macro `_GMP_OVERLOAD_INVOKE_2(call, v1, v2)`:
`GMP_CONCAT( GMP_CONCAT(_GMP_OVERLOAD_INVOKE_1(call, v1), _), v2 )`. -/
def _GMP_OVERLOAD_INVOKE_2 (call v1 v2 : Toks) : Option Toks :=
  (_GMP_OVERLOAD_INVOKE_1 call v1).bind fun c =>
    (GMP_CONCAT c [Tok.ident "_"]).bind (GMP_CONCAT · v2)

/-- Macro `_GMP_OVERLOAD_INVOKE_3(call, v1, v2, v3)`:
`GMP_CONCAT( GMP_CONCAT(_GMP_OVERLOAD_INVOKE_2(call, v1, v2), _), v3)`. -/
def _GMP_OVERLOAD_INVOKE_3 (call v1 v2 v3 : Toks) : Option Toks :=
  (_GMP_OVERLOAD_INVOKE_2 call v1 v2).bind fun c =>
    (GMP_CONCAT c [Tok.ident "_"]).bind (GMP_CONCAT · v3)

/-- Macro `_GMP_OVERLOAD_INVOKE_4(call, v1, v2, v3, v4)`:
`GMP_CONCAT( GMP_CONCAT(_GMP_OVERLOAD_INVOKE_3(call, v1, v2, v3), _), v4)`. -/
def _GMP_OVERLOAD_INVOKE_4 (call v1 v2 v3 v4 : Toks) : Option Toks :=
  (_GMP_OVERLOAD_INVOKE_3 call v1 v2 v3).bind fun c =>
    (GMP_CONCAT c [Tok.ident "_"]).bind (GMP_CONCAT · v4)

/-- Macro `_GMP_OVERLOAD_INVOKE_5(call, v1, v2, v3, v4, v5)`:
`GMP_CONCAT( GMP_CONCAT(_GMP_OVERLOAD_INVOKE_4(call, v1, v2, v3, v4), _), v5)`. -/
def _GMP_OVERLOAD_INVOKE_5 (call v1 v2 v3 v4 v5 : Toks) : Option Toks :=
  (_GMP_OVERLOAD_INVOKE_4 call v1 v2 v3 v4).bind fun c =>
    (GMP_CONCAT c [Tok.ident "_"]).bind (GMP_CONCAT · v5)

/-- The function-like macros named `_GMP_OVERLOAD_INVOKE_...` (lines 260-264),
each with its number of parameters. -/
def _GMP_OVERLOAD_INVOKE_ (name : String) : Option (List Toks → Option Toks) :=
  if name = "_GMP_OVERLOAD_INVOKE_1" then some fun args =>
    match args with
    | [call, v1] => _GMP_OVERLOAD_INVOKE_1 call v1
    | _ => none
  else if name = "_GMP_OVERLOAD_INVOKE_2" then some fun args =>
    match args with
    | [call, v1, v2] => _GMP_OVERLOAD_INVOKE_2 call v1 v2
    | _ => none
  else if name = "_GMP_OVERLOAD_INVOKE_3" then some fun args =>
    match args with
    | [call, v1, v2, v3] => _GMP_OVERLOAD_INVOKE_3 call v1 v2 v3
    | _ => none
  else if name = "_GMP_OVERLOAD_INVOKE_4" then some fun args =>
    match args with
    | [call, v1, v2, v3, v4] => _GMP_OVERLOAD_INVOKE_4 call v1 v2 v3 v4
    | _ => none
  else if name = "_GMP_OVERLOAD_INVOKE_5" then some fun args =>
    match args with
    | [call, v1, v2, v3, v4, v5] => _GMP_OVERLOAD_INVOKE_5 call v1 v2 v3 v4 v5
    | _ => none
  else none

/-- Macro `GMP_OVERLOAD_INVOKE(call, ...)` (line 259):
`GMP_CONCAT( _GMP_OVERLOAD_INVOKE_, GMP_SIZE_OF_VAARGS(__VA_ARGS__) )(call, __VA_ARGS__)`. -/
def GMP_OVERLOAD_INVOKE (call va : Toks) : Option Toks :=
  (GMP_SIZE_OF_VAARGS va).bind fun n =>
    (GMP_CONCAT [Tok.ident "_GMP_OVERLOAD_INVOKE_"] n).bind fun X =>
      invoke _GMP_OVERLOAD_INVOKE_ X (call ++ Tok.comma :: va)

/-- The spelling of a token. -/
def Tok.spelling : Tok → String
  | Tok.ident s => s
  | Tok.num s => s
  | Tok.other s => s
  | Tok.comma => ","
  | Tok.lparen => "("
  | Tok.rparen => ")"

/-- A token that `##` can put after an identifier to make an identifier: an
identifier, or a pp-number made of identifier characters. -/
def Tok.pastable : Tok → Bool
  | Tok.ident _ => true
  | Tok.num s => s.data.all fun c => c.isAlphanum || c = '_'
  | _ => false

/-- The name `call_v1_..._vk`: the base name and the versions joined by
underscores in order. -/
def overloadName (call : String) : List Tok → String
  | [] => call
  | v :: vs => overloadName (call ++ "_" ++ v.spelling) vs

/-- The names that `_GMP_OVERLOAD_INVOKE_k` pastes, and the preprocessor
rescans, before it reaches `call_v1_..._vk`: `call_`, `call_v1`, `call_v1_`,
`call_v1_v2`, and so on up to `call_v1_..._` with the last version missing. -/
def overloadSteps (call : String) : List Tok → List String
  | [] => []
  | [_] => [call ++ "_"]
  | v :: w :: vs =>
    (call ++ "_") :: (call ++ "_" ++ v.spelling)
      :: overloadSteps (call ++ "_" ++ v.spelling) (w :: vs)

/-- The macros `_GMP_FOR_EACH_n(...)` (lines 286-541):
`_GMP_FOR_EACH_0(call, ...)` is empty, `_GMP_FOR_EACH_1(call, x)` is `call(x)`, and
`_GMP_FOR_EACH_n(call, x, ...)` is
`call(x) GMP_EXPAND( _GMP_FOR_EACH_m(call, __VA_ARGS__) )` with `m = n - 1`.
The tokens `call(x)` stay as they are: `call` is a macro of the user. -/
def _GMP_FOR_EACH_n : Nat → List Toks → Option Toks
  | 0, [] => none
  | 0, _ :: _ => some []
  | 1, [call, x] => some (call ++ Tok.lparen :: x ++ [Tok.rparen])
  | 1, _ => none
  | n + 2, call :: x :: rest =>
    (_GMP_FOR_EACH_n (n + 1) (splitArgs (call ++ Tok.comma :: argList rest))).map fun r =>
      call ++ Tok.lparen :: x ++ Tok.rparen :: GMP_EXPAND r
  | _ + 2, _ => none

/-- The function-like macros named `_GMP_FOR_EACH_n`, for `n` from 0 to 255. -/
def _GMP_FOR_EACH_ (name : String) : Option (List Toks → Option Toks) :=
  match indexed? "_GMP_FOR_EACH_" name with
  | some n => if n ≤ 255 then some (_GMP_FOR_EACH_n n) else none
  | none => none

/-- Macro `GMP_FOR_EACH(call, ...)` (lines 284-285):
`GMP_EXPAND( GMP_OVERLOAD_INVOKE(_GMP_FOR_EACH, GMP_SIZE_OF_VAARGS(__VA_ARGS__))(call, __VA_ARGS__) )`. -/
def GMP_FOR_EACH (call va : Toks) : Option Toks :=
  (GMP_SIZE_OF_VAARGS va).bind fun n =>
    (GMP_OVERLOAD_INVOKE [Tok.ident "_GMP_FOR_EACH"] n).bind fun X =>
      (invoke _GMP_FOR_EACH_ X (call ++ Tok.comma :: va)).map GMP_EXPAND

/-- The function-like macros `#define _GMP_INC_n() m` with `m = n + 1`, for `n`
from 0 to 255 (lines 554-809); they take no argument. -/
def _GMP_INC_ (name : String) : Option (List Toks → Option Toks) :=
  match indexed? "_GMP_INC_" name with
  | some n =>
    if n ≤ 255 then some fun args => if args = [[]] then some [Tok.nat (n + 1)] else none
    else none
  | none => none

/-- Macro `#define GMP_INC(value) GMP_OVERLOAD_INVOKE(_GMP_INC, value)()` -/
def GMP_INC (value : Toks) : Option Toks :=
  (GMP_OVERLOAD_INVOKE [Tok.ident "_GMP_INC"] value).bind fun X => invoke _GMP_INC_ X []

/-- The function-like macros `#define _GMP_DEC_n() m` with `m = n - 1`, for `n`
from 1 to 255 (lines 823-1077); they take no argument. -/
def _GMP_DEC_ (name : String) : Option (List Toks → Option Toks) :=
  match indexed? "_GMP_DEC_" name with
  | some n =>
    if 1 ≤ n ∧ n ≤ 255 then
      some fun args => if args = [[]] then some [Tok.nat (n - 1)] else none
    else none
  | none => none

/-- Macro `#define GMP_DEC(value) GMP_OVERLOAD_INVOKE(_GMP_DEC, value)()` -/
def GMP_DEC (value : Toks) : Option Toks :=
  (GMP_OVERLOAD_INVOKE [Tok.ident "_GMP_DEC"] value).bind fun X => invoke _GMP_DEC_ X []

/-- Macro `_GMP_CHECK_INDEX_ERROR_MSG_IMPL(index, maximum)` (line 1395):
`Error_Index_##index##_Exceeds_Maximum_Macro_Index_##maximum;`. -/
def _GMP_CHECK_INDEX_ERROR_MSG_IMPL (index maximum : Toks) : Option Toks :=
  (((paste [Tok.ident "Error_Index_"] index).bind
    (paste · [Tok.ident "_Exceeds_Maximum_Macro_Index_"])).bind (paste · maximum)).map
    fun e => rescan (e ++ [Tok.other ";"])

/-- Macro `_GMP_CHECK_INDEX_ERROR_MSG(index, maximum)` (line 1396):
`_GMP_CHECK_INDEX_ERROR_MSG_IMPL(index, maximum)`. -/
def _GMP_CHECK_INDEX_ERROR_MSG (index maximum : Toks) : Option Toks :=
  _GMP_CHECK_INDEX_ERROR_MSG_IMPL index maximum

/-- Macro `#define _GMP_CHECK_INDEX_R_1(index)` with an empty replacement list. -/
def _GMP_CHECK_INDEX_R_1 (_index : Toks) : Option Toks :=
  some []

/-- Macro `_GMP_CHECK_INDEX_R_0(index)` (line 1397):
`_GMP_CHECK_INDEX_ERROR_MSG(index, GMP_MAX_INDEX)`. -/
def _GMP_CHECK_INDEX_R_0 (index : Toks) : Option Toks :=
  _GMP_CHECK_INDEX_ERROR_MSG index (rescan [Tok.ident "GMP_MAX_INDEX"])

/-- The function-like macros named `_GMP_CHECK_INDEX_R_...`, of one parameter. -/
def _GMP_CHECK_INDEX_R_ (name : String) : Option (List Toks → Option Toks) :=
  if name = "_GMP_CHECK_INDEX_R_1" then some fun args =>
    match args with
    | [index] => _GMP_CHECK_INDEX_R_1 index
    | _ => none
  else if name = "_GMP_CHECK_INDEX_R_0" then some fun args =>
    match args with
    | [index] => _GMP_CHECK_INDEX_R_0 index
    | _ => none
  else none

/-- Macro `GMP_CHECK_INDEX(index)` (line 1393):
`GMP_OVERLOAD_INVOKE(_GMP_CHECK_INDEX_R, GMP_HAS_COMMA(GMP_OVERLOAD_INVOKE(_GMP_CHECK_INDEX, index)))(index)`. -/
def GMP_CHECK_INDEX (index : Toks) : Option Toks :=
  (GMP_OVERLOAD_INVOKE [Tok.ident "_GMP_CHECK_INDEX"] index).bind fun c =>
    (GMP_HAS_COMMA c).bind fun h =>
      (GMP_OVERLOAD_INVOKE [Tok.ident "_GMP_CHECK_INDEX_R"] h).bind fun X =>
        invoke _GMP_CHECK_INDEX_R_ X index

/-- Macro `GMP_CHECK_INDEX_BOOL(index)` (line 1663):
`GMP_OVERLOAD_INVOKE(_GMP_CHECK_INDEX_BOOL_R, GMP_HAS_COMMA(GMP_OVERLOAD_INVOKE(_GMP_CHECK_INDEX, index)))`. -/
def GMP_CHECK_INDEX_BOOL (index : Toks) : Option Toks :=
  (GMP_OVERLOAD_INVOKE [Tok.ident "_GMP_CHECK_INDEX"] index).bind fun c =>
    (GMP_HAS_COMMA c).bind fun h =>
      GMP_OVERLOAD_INVOKE [Tok.ident "_GMP_CHECK_INDEX_BOOL_R"] h

/-- Macro `GMP_EQUAL_INT(i, j)` (lines 1947-1948):
`GMP_CHECK_INDEX(i) GMP_CHECK_INDEX(j) GMP_OVERLOAD_INVOKE(_GMP_EQUAL_INT_RESULT,
GMP_HAS_COMMA(GMP_OVERLOAD_INVOKE(_GMP_EQUAL_INT, i, j)))`. -/
def GMP_EQUAL_INT (i j : Toks) : Option Toks :=
  (GMP_CHECK_INDEX i).bind fun ci =>
    (GMP_CHECK_INDEX j).bind fun cj =>
      (GMP_OVERLOAD_INVOKE [Tok.ident "_GMP_EQUAL_INT"] (i ++ Tok.comma :: j)).bind fun e =>
        (GMP_HAS_COMMA e).bind fun h =>
          (GMP_OVERLOAD_INVOKE [Tok.ident "_GMP_EQUAL_INT_RESULT"] h).map fun r =>
            ci ++ cj ++ r

/-- The macros `_GMP_MAKE_INDEX_SEQUENCE_n()` (lines 1680-1933):
`_GMP_MAKE_INDEX_SEQUENCE_0()` is `0` and `_GMP_MAKE_INDEX_SEQUENCE_n()` is
`_GMP_MAKE_INDEX_SEQUENCE_m(), n` with `m = n - 1`. -/
def _GMP_MAKE_INDEX_SEQUENCE_n : Nat → Toks
  | 0 => [Tok.nat 0]
  | n + 1 => _GMP_MAKE_INDEX_SEQUENCE_n n ++ [Tok.comma, Tok.nat (n + 1)]

/-- The function-like macros named `_GMP_MAKE_INDEX_SEQUENCE_n`, for `n` from 0
to 253; they take no argument. -/
def _GMP_MAKE_INDEX_SEQUENCE_ (name : String) : Option (List Toks → Option Toks) :=
  match indexed? "_GMP_MAKE_INDEX_SEQUENCE_" name with
  | some n =>
    if n ≤ 253 then
      some fun args => if args = [[]] then some (_GMP_MAKE_INDEX_SEQUENCE_n n) else none
    else none
  | none => none

/-- Macro `_GMP_MAKE_INDEX_SEQUENCE_PRECHECK_1(index)` (line 1678):
`GMP_OVERLOAD_INVOKE(_GMP_MAKE_INDEX_SEQUENCE, GMP_DEC(index))()`. -/
def _GMP_MAKE_INDEX_SEQUENCE_PRECHECK_1 (index : Toks) : Option Toks :=
  (GMP_DEC index).bind fun d =>
    (GMP_OVERLOAD_INVOKE [Tok.ident "_GMP_MAKE_INDEX_SEQUENCE"] d).bind fun X =>
      invoke _GMP_MAKE_INDEX_SEQUENCE_ X []

/-- Macro `#define _GMP_MAKE_INDEX_SEQUENCE_PRECHECK_0(index) GMP_CHECK_INDEX(index)` -/
def _GMP_MAKE_INDEX_SEQUENCE_PRECHECK_0 (index : Toks) : Option Toks :=
  GMP_CHECK_INDEX index

/-- The function-like macros named `_GMP_MAKE_INDEX_SEQUENCE_PRECHECK_...`, of
one parameter. -/
def _GMP_MAKE_INDEX_SEQUENCE_PRECHECK_ (name : String) :
    Option (List Toks → Option Toks) :=
  if name = "_GMP_MAKE_INDEX_SEQUENCE_PRECHECK_1" then some fun args =>
    match args with
    | [index] => _GMP_MAKE_INDEX_SEQUENCE_PRECHECK_1 index
    | _ => none
  else if name = "_GMP_MAKE_INDEX_SEQUENCE_PRECHECK_0" then some fun args =>
    match args with
    | [index] => _GMP_MAKE_INDEX_SEQUENCE_PRECHECK_0 index
    | _ => none
  else none

/-- Macro `GMP_MAKE_INDEX_SEQUENCE(index)` (line 1677):
`GMP_OVERLOAD_INVOKE(_GMP_MAKE_INDEX_SEQUENCE_PRECHECK, GMP_CHECK_INDEX_BOOL(index))(index)`. -/
def GMP_MAKE_INDEX_SEQUENCE (index : Toks) : Option Toks :=
  (GMP_CHECK_INDEX_BOOL index).bind fun b =>
    (GMP_OVERLOAD_INVOKE [Tok.ident "_GMP_MAKE_INDEX_SEQUENCE_PRECHECK"] b).bind fun X =>
      invoke _GMP_MAKE_INDEX_SEQUENCE_PRECHECK_ X index

/-- Macro `#define GMP_EMPTY()` with an empty replacement list. -/
def GMP_EMPTY : Toks := []

/-- Macro `#define GMP_DEFER(id) id GMP_EMPTY()`: the name `id` is followed by
`GMP_EMPTY` when it is scanned, so it is not invoked in that scan. -/
def GMP_DEFER (id : Toks) : Toks :=
  id ++ GMP_EMPTY

/-- Macro `#define _GMP_LOOP_IMPL_END_1(call, count, ...)` with an empty
replacement list. -/
def _GMP_LOOP_IMPL_END_1 (_call _count _va : Toks) : Option Toks :=
  some []

/-- Macro `_GMP_LOOP_IMPL_END_0(call, count, ...)` (line 2293):
`call(__VA_ARGS__) GMP_DEFER(_GMP_LOOP_INDIRECT)()(call, GMP_DEC(count), __VA_ARGS__)`.
The tokens `call(__VA_ARGS__)` stay as they are: `call` is a macro of the user. -/
def _GMP_LOOP_IMPL_END_0 (call count va : Toks) : Option Toks :=
  (GMP_DEC count).map fun d =>
    call ++ Tok.lparen :: va ++ Tok.rparen :: GMP_DEFER [Tok.ident "_GMP_LOOP_INDIRECT"]
      ++ [Tok.lparen, Tok.rparen, Tok.lparen] ++ call ++ Tok.comma :: d ++ Tok.comma :: va
      ++ [Tok.rparen]

/-- The function-like macros named `_GMP_LOOP_IMPL_END_...`, of parameters
`(call, count, ...)`. -/
def _GMP_LOOP_IMPL_END_ (name : String) : Option (List Toks → Option Toks) :=
  if name = "_GMP_LOOP_IMPL_END_1" then some fun args =>
    match args with
    | call :: count :: rest => _GMP_LOOP_IMPL_END_1 call count (argList rest)
    | _ => none
  else if name = "_GMP_LOOP_IMPL_END_0" then some fun args =>
    match args with
    | call :: count :: rest => _GMP_LOOP_IMPL_END_0 call count (argList rest)
    | _ => none
  else none

/-- Macro `_GMP_LOOP_IMPL(call, count, ...)` (line 2291):
`GMP_OVERLOAD_INVOKE(_GMP_LOOP_IMPL_END, GMP_EQUAL_INT(0, count))(call, count, __VA_ARGS__)`. -/
def _GMP_LOOP_IMPL (call count va : Toks) : Option Toks :=
  (GMP_EQUAL_INT [Tok.nat 0] count).bind fun e =>
    (GMP_OVERLOAD_INVOKE [Tok.ident "_GMP_LOOP_IMPL_END"] e).bind fun X =>
      invoke _GMP_LOOP_IMPL_END_ X (call ++ Tok.comma :: count ++ Tok.comma :: va)

/-- Macro `#define _GMP_RANGE_GEN_WHEN_1(cur, end)` with an empty replacement list. -/
def _GMP_RANGE_GEN_WHEN_1 (_cur _end : Toks) : Option Toks :=
  some []

/-- Macro `_GMP_RANGE_GEN_WHEN_0(cur, end)` (line 2261):
`, GMP_DEFER(_GMP_RANGE_INDIRECT)()(cur, end)`. -/
def _GMP_RANGE_GEN_WHEN_0 (cur end_ : Toks) : Option Toks :=
  some (Tok.comma :: GMP_DEFER [Tok.ident "_GMP_RANGE_INDIRECT"]
    ++ [Tok.lparen, Tok.rparen, Tok.lparen] ++ cur ++ Tok.comma :: end_ ++ [Tok.rparen])

/-- The function-like macros named `_GMP_RANGE_GEN_WHEN_...`, of two parameters. -/
def _GMP_RANGE_GEN_WHEN_ (name : String) : Option (List Toks → Option Toks) :=
  if name = "_GMP_RANGE_GEN_WHEN_1" then some fun args =>
    match args with
    | [cur, end_] => _GMP_RANGE_GEN_WHEN_1 cur end_
    | _ => none
  else if name = "_GMP_RANGE_GEN_WHEN_0" then some fun args =>
    match args with
    | [cur, end_] => _GMP_RANGE_GEN_WHEN_0 cur end_
    | _ => none
  else none

/-- Macro `_GMP_RANGE_IMPL(begin, end)` (line 2259):
`begin GMP_OVERLOAD_INVOKE(_GMP_RANGE_GEN_WHEN, GMP_EQUAL_INT(begin, GMP_DEC(end))) (GMP_INC(begin), end)`. -/
def _GMP_RANGE_IMPL (begin end_ : Toks) : Option Toks :=
  (GMP_DEC end_).bind fun d =>
    (GMP_EQUAL_INT begin d).bind fun e =>
      (GMP_OVERLOAD_INVOKE [Tok.ident "_GMP_RANGE_GEN_WHEN"] e).bind fun X =>
        (GMP_INC begin).bind fun cur =>
          (invoke _GMP_RANGE_GEN_WHEN_ X (cur ++ Tok.comma :: end_)).map fun r => begin ++ r

/-- The deferred macros: `#define _GMP_LOOP_INDIRECT() _GMP_LOOP_IMPL` and
`#define _GMP_RANGE_INDIRECT() _GMP_RANGE_IMPL`, each with the name and the
macro it gives. -/
def indirect? (name : String) : Option (String × (List Toks → Option Toks)) :=
  if name = "_GMP_LOOP_INDIRECT" then
    some ("_GMP_LOOP_IMPL", fun args =>
      match args with
      | call :: count :: rest => _GMP_LOOP_IMPL call count (argList rest)
      | _ => none)
  else if name = "_GMP_RANGE_INDIRECT" then
    some ("_GMP_RANGE_IMPL", fun args =>
      match args with
      | [begin, end_] => _GMP_RANGE_IMPL begin end_
      | _ => none)
  else none

/-- One scan of a token sequence that can hold deferred invocations.

Outside an invocation (state `none`) a deferred name followed by `()` is
replaced by the name of its macro; where `(` follows, that macro is invoked:
the scan collects its arguments up to the matching `)` (state `some (M, d, acc)`
at nesting depth `d`) and puts the expansion of the macro in their place.  The
expansion is not scanned again here: what it defers stays for the next scan.
Every other token is kept.  A sequence that ends inside an argument list is
ill-formed. -/
def scanDeferred :
    Option ((List Toks → Option Toks) × Nat × Toks) → Toks → Option Toks
  | none, [] => some []
  | none, Tok.ident s :: Tok.lparen :: Tok.rparen :: Tok.lparen :: rest =>
    match indirect? s with
    | some (_, M) => scanDeferred (some (M, 0, [])) rest
    | none =>
      (scanDeferred none (Tok.lparen :: Tok.rparen :: Tok.lparen :: rest)).map
        (Tok.ident s :: ·)
  | none, Tok.ident s :: Tok.lparen :: Tok.rparen :: rest =>
    match indirect? s with
    | some (impl, _) => (scanDeferred none rest).map (Tok.ident impl :: ·)
    | none => (scanDeferred none (Tok.lparen :: Tok.rparen :: rest)).map (Tok.ident s :: ·)
  | none, t :: rest => (scanDeferred none rest).map (t :: ·)
  | some _, [] => none
  | some (M, d, acc), Tok.lparen :: rest =>
    scanDeferred (some (M, d + 1, acc ++ [Tok.lparen])) rest
  | some (M, 0, acc), Tok.rparen :: rest =>
    (M (splitArgs acc)).bind fun r => (scanDeferred none rest).map (r ++ ·)
  | some (M, d + 1, acc), Tok.rparen :: rest =>
    scanDeferred (some (M, d, acc ++ [Tok.rparen])) rest
  | some (M, d, acc), t :: rest => scanDeferred (some (M, d, acc ++ [t])) rest

/-- Macro `#define GMP_EVAL_5(...) __VA_ARGS__`: the argument, expanded
already, is scanned once more where it replaces the invocation. -/
def GMP_EVAL_5 (va : Toks) : Option Toks :=
  scanDeferred none va

/-- Macro `#define GMP_EVAL_4(...) GMP_EVAL_5(GMP_EVAL_5(GMP_EVAL_5(__VA_ARGS__)))`:
the innermost argument is scanned when it is expanded as an argument, and
each `GMP_EVAL_5` scans it once more. -/
def GMP_EVAL_4 (va : Toks) : Option Toks :=
  (((scanDeferred none va).bind GMP_EVAL_5).bind GMP_EVAL_5).bind GMP_EVAL_5

/-- Macro `#define GMP_EVAL_3(...) GMP_EVAL_4(GMP_EVAL_4(GMP_EVAL_4(__VA_ARGS__)))` -/
def GMP_EVAL_3 (va : Toks) : Option Toks :=
  (((scanDeferred none va).bind GMP_EVAL_4).bind GMP_EVAL_4).bind GMP_EVAL_4

/-- Macro `#define GMP_EVAL_2(...) GMP_EVAL_3(GMP_EVAL_3(GMP_EVAL_3(__VA_ARGS__)))` -/
def GMP_EVAL_2 (va : Toks) : Option Toks :=
  (((scanDeferred none va).bind GMP_EVAL_3).bind GMP_EVAL_3).bind GMP_EVAL_3

/-- Macro `#define GMP_EVAL_1(...) GMP_EVAL_2(GMP_EVAL_2(GMP_EVAL_2(__VA_ARGS__)))` -/
def GMP_EVAL_1 (va : Toks) : Option Toks :=
  (((scanDeferred none va).bind GMP_EVAL_2).bind GMP_EVAL_2).bind GMP_EVAL_2

/-- Macro `#define GMP_EVAL(...) GMP_EVAL_1(GMP_EVAL_1(GMP_EVAL_1(__VA_ARGS__)))` -/
def GMP_EVAL (va : Toks) : Option Toks :=
  (((scanDeferred none va).bind GMP_EVAL_1).bind GMP_EVAL_1).bind GMP_EVAL_1

/-- Macro `#define _GMP_RANGE_PRECHECK_1(begin, end) GMP_EVAL( _GMP_RANGE_IMPL(begin, end) )` -/
def _GMP_RANGE_PRECHECK_1 (begin end_ : Toks) : Option Toks :=
  (_GMP_RANGE_IMPL begin end_).bind GMP_EVAL

/-- Macro `#define _GMP_RANGE_PRECHECK_0(begin, end) GMP_CHECK_INDEX(end)` -/
def _GMP_RANGE_PRECHECK_0 (_begin end_ : Toks) : Option Toks :=
  GMP_CHECK_INDEX end_

/-- The function-like macros named `_GMP_RANGE_PRECHECK_...`, of two parameters. -/
def _GMP_RANGE_PRECHECK_ (name : String) : Option (List Toks → Option Toks) :=
  if name = "_GMP_RANGE_PRECHECK_1" then some fun args =>
    match args with
    | [begin, end_] => _GMP_RANGE_PRECHECK_1 begin end_
    | _ => none
  else if name = "_GMP_RANGE_PRECHECK_0" then some fun args =>
    match args with
    | [begin, end_] => _GMP_RANGE_PRECHECK_0 begin end_
    | _ => none
  else none

/-- Macro `GMP_RANGE(begin, end)` (line 2256):
`GMP_OVERLOAD_INVOKE(_GMP_RANGE_PRECHECK, GMP_CHECK_INDEX_BOOL(end))(begin, end)`. -/
def GMP_RANGE (begin end_ : Toks) : Option Toks :=
  (GMP_CHECK_INDEX_BOOL end_).bind fun b =>
    (GMP_OVERLOAD_INVOKE [Tok.ident "_GMP_RANGE_PRECHECK"] b).bind fun X =>
      invoke _GMP_RANGE_PRECHECK_ X (begin ++ Tok.comma :: end_)

/-- Macro `_GMP_LOOP_PRECHECK_1(call, count, ...)` (line 2289):
`GMP_EVAL( _GMP_LOOP_IMPL(call, count, __VA_ARGS__) )`. -/
def _GMP_LOOP_PRECHECK_1 (call count va : Toks) : Option Toks :=
  (_GMP_LOOP_IMPL call count va).bind GMP_EVAL

/-- Macro `#define _GMP_LOOP_PRECHECK_0(call, count, ...) GMP_CHECK_INDEX(count)` -/
def _GMP_LOOP_PRECHECK_0 (_call count _va : Toks) : Option Toks :=
  GMP_CHECK_INDEX count

/-- The function-like macros named `_GMP_LOOP_PRECHECK_...`, of parameters
`(call, count, ...)`. -/
def _GMP_LOOP_PRECHECK_ (name : String) : Option (List Toks → Option Toks) :=
  if name = "_GMP_LOOP_PRECHECK_1" then some fun args =>
    match args with
    | call :: count :: rest => _GMP_LOOP_PRECHECK_1 call count (argList rest)
    | _ => none
  else if name = "_GMP_LOOP_PRECHECK_0" then some fun args =>
    match args with
    | call :: count :: rest => _GMP_LOOP_PRECHECK_0 call count (argList rest)
    | _ => none
  else none

/-- Macro `GMP_LOOP(call, count, ...)` (line 2288):
`GMP_OVERLOAD_INVOKE(_GMP_LOOP_PRECHECK, GMP_CHECK_INDEX_BOOL(count))(call, count, __VA_ARGS__)`. -/
def GMP_LOOP (call count va : Toks) : Option Toks :=
  (GMP_CHECK_INDEX_BOOL count).bind fun b =>
    (GMP_OVERLOAD_INVOKE [Tok.ident "_GMP_LOOP_PRECHECK"] b).bind fun X =>
      invoke _GMP_LOOP_PRECHECK_ X (call ++ Tok.comma :: count ++ Tok.comma :: va)

/-! ### `GMP_NOT`, `GMP_AND`, `GMP_BOOL` (macro.hpp 1079-1374)

The object-like macros `_GMP_NOT_0`, `_GMP_NOT_1`, `_GMP_AND_a_b` and
`_GMP_BOOL_0` are entries of `objectLikeNamed`. -/

/-- Macro `#define GMP_NOT(value) GMP_OVERLOAD_INVOKE(_GMP_NOT, value)` -/
def GMP_NOT (value : Toks) : Option Toks :=
  GMP_OVERLOAD_INVOKE [Tok.ident "_GMP_NOT"] value

/-- Macro `#define GMP_AND(a, b) GMP_OVERLOAD_INVOKE(_GMP_AND, a, b)` -/
def GMP_AND (a b : Toks) : Option Toks :=
  GMP_OVERLOAD_INVOKE [Tok.ident "_GMP_AND"] (a ++ Tok.comma :: b)

/-- The function-like macros `#define _GMP_BOOL_n() 1`, for `n` from 1 to 255
(lines 1120-1374); they take no argument.  (`_GMP_BOOL_0` is object-like.) -/
def _GMP_BOOL_ (name : String) : Option (List Toks → Option Toks) :=
  match indexed? "_GMP_BOOL_" name with
  | some n =>
    if 1 ≤ n ∧ n ≤ 255 then some fun args => if args = [[]] then some [Tok.nat 1] else none
    else none
  | none => none

/-- Macro `#define GMP_BOOL(value) GMP_OVERLOAD_INVOKE(_GMP_BOOL, value)`: no
parentheses follow the pasted name in the replacement list, so a
function-like `_GMP_BOOL_n` is not invoked here. -/
def GMP_BOOL (value : Toks) : Option Toks :=
  GMP_OVERLOAD_INVOKE [Tok.ident "_GMP_BOOL"] value

/-! ### First occurrences -/

/-- The subsequence of a list that keeps, for each distinct element, its first
occurrence and drops every later one: the head stays, and is dropped from what
is kept of the rest. -/
def keepFirstOccurrences {α : Type} [DecidableEq α] : List α → List α
  | [] => []
  | T :: rest => T :: (keepFirstOccurrences rest).filter fun U => decide (U ≠ T)

/-! ## Lemmas on the type-list templates -/

section TypeListLemmas

variable {α : Type}

/-- On the values of `std::size_t`, `size_t_dec` is subtraction of one modulo `2 ^ 64`. -/
theorem size_t_dec_eq_mod (N : Nat) (h : N < 2 ^ 64) :
    size_t_dec N = (N + (2 ^ 64 - 1)) % 2 ^ 64 := by
  unfold size_t_dec SIZE_MAX
  split
  · subst_vars; norm_num
  · omega

/-- No wrap-around away from zero. -/
theorem size_t_dec_succ (N : Nat) : size_t_dec (N + 1) = N := by
  simp [size_t_dec]

/-- The template `type_list_element` is list indexing. -/
theorem type_list_element_eq_getElem? (Idx : Nat) (T : List α) :
    type_list_element Idx T = T[Idx]? := by
  induction T generalizing Idx with
  | nil => cases Idx <;> simp [type_list_element]
  | cons Head Types ih =>
    cases Idx with
    | zero => simp [type_list_element]
    | succ Idx =>
      simp only [type_list_element, type_list_size_v, List.length_cons, List.getElem?_cons_succ]
      split
      · exact ih Idx
      · rename_i h
        symm
        apply List.getElem?_eq_none
        omega

/-- Every type list satisfies the concept `type_list_like`. -/
theorem type_list_like_holds (T : List α) : type_list_like T = true := by
  simp only [type_list_like, List.all_eq_true, List.mem_range, type_list_size_v]
  intro Is h
  rw [type_list_element_eq_getElem?]
  simp [h]

/-- Two or more lists are concatenated in their order. -/
theorem type_list_concat_t_eq (L1 L2 : List α) (Rest : List (List α)) :
    type_list_concat_t (L1 :: L2 :: Rest) = some (L1 ++ L2 ++ Rest.flatten) := by
  induction Rest generalizing L1 L2 with
  | nil => simp [type_list_concat_t]
  | cons R Rest ih =>
    rw [type_list_concat_t]
    simp only [type_list_concat_t]
    rw [ih]
    simp

/-- The helper `type_list_remove_impl` drops position `Idx` of `Types` after `Heads`. -/
theorem type_list_remove_impl_eq (Idx : Nat) (Types Heads : List α) :
    type_list_remove_impl Idx Types Heads =
      if Idx < Types.length then some (Heads ++ Types.eraseIdx Idx) else none := by
  induction Types generalizing Idx Heads with
  | nil => cases Idx <;> simp [type_list_remove_impl]
  | cons Head Types ih =>
    cases Idx with
    | zero => simp [type_list_remove_impl, type_list_concat_t]
    | succ Idx =>
      simp only [type_list_remove_impl, ih, List.length_cons, Nat.add_lt_add_iff_right,
        List.eraseIdx_cons_succ]
      split <;> simp

/-- Within bounds `type_list_remove_t` erases one position, out of bounds it is rejected. -/
theorem type_list_remove_t_eq (Idx : Nat) (T : List α) :
    type_list_remove_t Idx T = if Idx < T.length then some (T.eraseIdx Idx) else none := by
  unfold type_list_remove_t type_list_size_v
  split
  · rename_i h
    split
    · simp at h
    · simp
    · rename_i Idx Head Types
      have h2 : Idx < Types.length := by simpa using h
      simp [type_list_remove_impl_eq, h2]
  · rfl

/-- The helper `type_list_insert_impl` puts `NewType` before position `Idx` of `Types`. -/
theorem type_list_insert_impl_eq (Idx : Nat) (NewType : α) (Heads Types : List α) :
    type_list_insert_impl Idx NewType Heads Types =
      if Idx ≤ Types.length then some (Heads ++ Types.take Idx ++ NewType :: Types.drop Idx)
      else none := by
  induction Types generalizing Idx Heads with
  | nil => cases Idx <;> simp [type_list_insert_impl]
  | cons Head Types ih =>
    cases Idx with
    | zero => simp [type_list_insert_impl]
    | succ Idx =>
      simp only [type_list_insert_impl, ih, List.length_cons, Nat.add_le_add_iff_right]
      split <;> simp

/-- Within bounds `type_list_insert_t` inserts before position `Idx`, out of bounds it is rejected. -/
theorem type_list_insert_t_eq (Idx : Nat) (NewType : α) (T : List α) :
    type_list_insert_t Idx NewType T =
      if Idx ≤ T.length then some (T.take Idx ++ NewType :: T.drop Idx) else none := by
  unfold type_list_insert_t type_list_size_v
  split
  · rename_i h
    split
    · simp
    · simp at h
    · rename_i Idx Head Types
      have h2 : Idx ≤ Types.length := by simpa using h
      simp [type_list_insert_impl_eq, h2]
  · rfl

/-- The last type of a list that ends with `Last`. -/
theorem type_list_last_concat (Init : List α) (Last : α) :
    type_list_last (Init ++ [Last]) = some Last := by
  simp [type_list_last, type_list_size_v, size_t_dec_succ, type_list_element_eq_getElem?]

/-- Popping the back of a list that ends with `Last`. -/
theorem type_list_pop_back_concat (Init : List α) (Last : α) :
    type_list_pop_back (Init ++ [Last]) = some Init := by
  simp [type_list_pop_back, type_list_size_v, size_t_dec_succ, type_list_remove_t_eq,
    List.eraseIdx_append_of_length_le]

/-- Started with the size of `Types`, `type_list_reverse_impl` appends the reversal of `Types`. -/
theorem type_list_reverse_impl_eq (Types NewTypes : List α) :
    type_list_reverse_impl Types.length NewTypes Types = some (NewTypes ++ Types.reverse) := by
  induction Types using List.reverseRecOn generalizing NewTypes with
  | nil => simp [type_list_reverse_impl]
  | append_singleton Init Last ih =>
    rw [type_list_reverse_impl]
    · split
      · rename_i L R hl hp
        rw [type_list_last_concat] at hl
        rw [type_list_pop_back_concat] at hp
        cases hl; cases hp
        simp [size_t_dec_succ, ih]
      · rename_i hno
        exact absurd (type_list_pop_back_concat Init Last) (hno Last Init (type_list_last_concat Init Last))
    · simp

/-- The template `type_list_reverse_t` always has a result, the reversed list. -/
theorem type_list_reverse_t_eq (T : List α) : type_list_reverse_t T = some T.reverse := by
  induction T using List.reverseRecOn with
  | nil => simp [type_list_reverse_t]
  | append_singleton Init Last =>
    unfold type_list_reverse_t
    split
    · rename_i h; simp at h
    · simp only [type_list_last_concat, type_list_pop_back_concat, type_list_size_v,
        List.length_append, List.length_singleton, size_t_dec_succ, type_list_reverse_impl_eq]
      simp

/-- The fold of `type_list_contains_v` decides membership. -/
theorem type_list_contains_v_eq [DecidableEq α] (U : α) (T : List α) :
    type_list_contains_v U T = decide (U ∈ T) := by
  induction T with
  | nil => simp [type_list_contains_v]
  | cons Head Types ih =>
    simp only [type_list_contains_v, List.foldr_cons] at ih ⊢
    rw [ih]
    simp [eq_comm]

/-- Invariant of `type_list_unique_impl`: started with the size of `Types`, a duplicate-free
`NewTypes` and the flag telling whether `CompType` is in it, the result exists, is
duplicate-free and holds the types of `NewTypes`, `CompType` and `Types`. -/
theorem type_list_unique_impl_spec [DecidableEq α] (Types NewTypes : List α) (CompType : α)
    (hnd : NewTypes.Nodup) :
    ∃ R, type_list_unique_impl Types.length NewTypes Types CompType
          (type_list_contains_v CompType NewTypes) = some R
      ∧ R.Nodup ∧ ∀ U, U ∈ R ↔ U ∈ NewTypes ∨ U = CompType ∨ U ∈ Types := by
  induction Types generalizing NewTypes CompType with
  | nil =>
    by_cases hc : CompType ∈ NewTypes
    · refine ⟨NewTypes, ?_, hnd, ?_⟩
      · simp [type_list_unique_impl, type_list_contains_v_eq, hc]
      · intro U; constructor
        · intro h; exact Or.inl h
        · rintro (h | h | h)
          · exact h
          · exact h ▸ hc
          · simp at h
    · refine ⟨NewTypes ++ [CompType], ?_, ?_, ?_⟩
      · simp [type_list_unique_impl, type_list_contains_v_eq, hc]
      · exact List.Nodup.append hnd (List.nodup_singleton _) (by simpa using hc)
      · intro U; simp
  | cons Head Types ih =>
    by_cases hc : CompType ∈ NewTypes
    · obtain ⟨R, hR, hRnd, hRmem⟩ := ih NewTypes Head hnd
      refine ⟨R, ?_, hRnd, ?_⟩
      · simpa [type_list_unique_impl, type_list_contains_v_eq, hc] using hR
      · intro U; rw [hRmem]; constructor
        · rintro (h | h | h)
          · exact Or.inl h
          · exact Or.inr (Or.inr (h ▸ List.mem_cons_self _ _))
          · exact Or.inr (Or.inr (List.mem_cons_of_mem _ h))
        · rintro (h | h | h)
          · exact Or.inl h
          · exact Or.inl (h ▸ hc)
          · rcases List.mem_cons.mp h with h | h
            · exact Or.inr (Or.inl h)
            · exact Or.inr (Or.inr h)
    · have hnd2 : (NewTypes ++ [CompType]).Nodup :=
        List.Nodup.append hnd (List.nodup_singleton _) (by simpa using hc)
      obtain ⟨R, hR, hRnd, hRmem⟩ := ih (NewTypes ++ [CompType]) Head hnd2
      refine ⟨R, ?_, hRnd, ?_⟩
      · have hcf : type_list_contains_v CompType NewTypes = false := by
          simp [type_list_contains_v_eq, hc]
        simpa [type_list_unique_impl, hcf] using hR
      · intro U; rw [hRmem]; simp only [List.mem_append, List.mem_singleton, List.mem_cons]
        tauto

/-- Started with the size of `Types` and the flag `Pred CompType`, `type_list_filter_impl`
appends the types of `CompType :: Types` that satisfy `Pred`. -/
theorem type_list_filter_impl_eq (Pred : α → Bool) (Types Heads : List α) (CompType : α) :
    type_list_filter_impl Types.length Heads Types Pred CompType (Pred CompType)
      = some (Heads ++ (CompType :: Types).filter Pred) := by
  induction Types generalizing Heads CompType with
  | nil => cases h : Pred CompType <;> simp [type_list_filter_impl, h]
  | cons Head Types ih =>
    cases h : Pred CompType
    · simp only [List.length_cons, type_list_filter_impl, ih]
      simp [List.filter_cons, h]
    · simp only [List.length_cons, type_list_filter_impl, ih]
      simp [List.filter_cons, h]

end TypeListLemmas

/-! ## Lemmas on the macros -/

/-! ### Argument splitting -/

/-- A token that is neither a parenthesis nor a comma is appended to the
argument being read. -/
theorem splitArgsAux_atom (d : Nat) (cur rest : Toks) (t : Tok)
    (h1 : t ≠ Tok.comma) (h2 : t ≠ Tok.lparen) (h3 : t ≠ Tok.rparen) :
    splitArgsAux d cur (t :: rest) = splitArgsAux d (cur ++ [t]) rest := by
  cases t <;> first | contradiction | (cases d <;> simp [splitArgsAux])

/-- Tokens without parentheses: the commas among them close that many arguments. -/
theorem splitArgsAux_flat (F : Toks) (hF : ∀ t ∈ F, t ≠ Tok.lparen ∧ t ≠ Tok.rparen)
    (cur : Toks) :
    ∃ front last, front.length = F.count Tok.comma ∧
      ∀ rest, splitArgsAux 0 cur (F ++ rest) = front ++ splitArgsAux 0 last rest := by
  induction F generalizing cur with
  | nil => exact ⟨[], cur, by simp, fun rest => by simp⟩
  | cons t F ih =>
    have hF' : ∀ t ∈ F, t ≠ Tok.lparen ∧ t ≠ Tok.rparen :=
      fun u hu => hF u (List.mem_cons_of_mem _ hu)
    have ht := hF t (List.mem_cons_self _ _)
    by_cases hc : t = Tok.comma
    · subst hc
      obtain ⟨front, last, hlen, hsplit⟩ := ih hF' []
      refine ⟨cur :: front, last, by simp [hlen], fun rest => ?_⟩
      simp [splitArgsAux, hsplit]
    · obtain ⟨front, last, hlen, hsplit⟩ := ih hF' (cur ++ [t])
      refine ⟨front, last, ?_, fun rest => ?_⟩
      · rw [hlen, List.count_cons_of_ne (Ne.symm hc)]
      · rw [List.cons_append, splitArgsAux_atom 0 cur _ t hc ht.1 ht.2, hsplit]

/-- Tokens without parentheses, followed or not by `()` and then by a comma:
one argument more than there are commas among the tokens is read before what
follows the comma. -/
theorem splitArgs_flat_comma (F q : Toks) (hF : ∀ t ∈ F, t ≠ Tok.lparen ∧ t ≠ Tok.rparen)
    (hq : q = [] ∨ q = [Tok.lparen, Tok.rparen]) :
    ∃ front, front.length = F.count Tok.comma + 1 ∧
      ∀ rest, splitArgs (F ++ q ++ Tok.comma :: rest) = front ++ splitArgs rest := by
  obtain ⟨front, last, hlen, hsplit⟩ := splitArgsAux_flat F hF []
  rcases hq with rfl | rfl
  · refine ⟨front ++ [last], by simp [hlen], fun rest => ?_⟩
    simp [splitArgs, hsplit, splitArgsAux]
  · refine ⟨front ++ [last ++ [Tok.lparen, Tok.rparen]], by simp [hlen], fun rest => ?_⟩
    simp [splitArgs, hsplit, splitArgsAux]

/-- An argument list of single tokens, none a comma or a parenthesis, splits
into these tokens. -/
theorem splitArgsAux_argList (t : Tok) (ts : List Tok)
    (h : ∀ u ∈ t :: ts, u ≠ Tok.comma ∧ u ≠ Tok.lparen ∧ u ≠ Tok.rparen) (cur : Toks) :
    splitArgsAux 0 cur (argList ((t :: ts).map fun u => [u]))
      = (cur ++ [t]) :: ts.map fun u => [u] := by
  induction ts generalizing t cur with
  | nil =>
    have ht := h t (List.mem_cons_self _ _)
    simp [argList, splitArgsAux_atom 0 cur [] t ht.1 ht.2.1 ht.2.2, splitArgsAux]
  | cons u us ih =>
    have ht := h t (List.mem_cons_self _ _)
    have hus : ∀ v ∈ u :: us, v ≠ Tok.comma ∧ v ≠ Tok.lparen ∧ v ≠ Tok.rparen :=
      fun v hv => h v (List.mem_cons_of_mem _ hv)
    have := ih u hus []
    simp only [List.map_cons, argList, List.singleton_append, List.nil_append] at this ⊢
    rw [splitArgsAux_atom 0 cur _ t ht.1 ht.2.1 ht.2.2]
    simp [splitArgsAux, this]

/-- An argument list of single tokens, none a comma or a parenthesis, has these tokens
as its arguments. -/
theorem splitArgs_argList (t : Tok) (ts : List Tok)
    (h : ∀ u ∈ t :: ts, u ≠ Tok.comma ∧ u ≠ Tok.lparen ∧ u ≠ Tok.rparen) :
    splitArgs (argList ((t :: ts).map fun u => [u])) = (t :: ts).map fun u => [u] := by
  simpa [splitArgs] using splitArgsAux_argList t ts h []



/-! ### Plain tokens -/

/-- A plain token is no comma, no parenthesis and not the name `_TRIGGER_PARENTHESIS`. -/
theorem Tok.plain_ne (t : Tok) (h : t.plain = true) :
    t ≠ Tok.comma ∧ t ≠ Tok.lparen ∧ t ≠ Tok.rparen
      ∧ t ≠ Tok.ident "_TRIGGER_PARENTHESIS" := by
  cases t <;> simp_all [Tok.plain, isMacroName]

/-- A number is no comma and no parenthesis. -/
theorem Tok.nat_ne (n : Nat) :
    Tok.nat n ≠ Tok.comma ∧ Tok.nat n ≠ Tok.lparen ∧ Tok.nat n ≠ Tok.rparen := by
  simp [Tok.nat]

/-- The tokens of an argument list of plain tokens: no parenthesis, no
`_TRIGGER_PARENTHESIS`, and one comma fewer than there are arguments. -/
theorem argList_plain (args : List Tok) (h : ∀ t ∈ args, t.plain = true) :
    (∀ t ∈ argList (args.map fun u => [u]),
        t ≠ Tok.lparen ∧ t ≠ Tok.rparen ∧ t ≠ Tok.ident "_TRIGGER_PARENTHESIS")
      ∧ (argList (args.map fun u => [u])).count Tok.comma = args.length - 1 := by
  induction args with
  | nil => simp [argList]
  | cons a as ih =>
    have ha := Tok.plain_ne a (h a (List.mem_cons_self _ _))
    have has : ∀ t ∈ as, t.plain = true := fun t ht => h t (List.mem_cons_of_mem _ ht)
    cases as with
    | nil =>
      simp only [List.map_cons, List.map_nil, argList, List.mem_singleton, forall_eq,
        List.length_singleton, Nat.sub_self]
      exact ⟨⟨ha.2.1, ha.2.2.1, ha.2.2.2⟩, List.count_eq_zero.mpr (by simpa using Ne.symm ha.1)⟩
    | cons b bs =>
      obtain ⟨ih1, ih2⟩ := ih has
      simp only [List.map_cons, argList, List.singleton_append] at ih1 ih2 ⊢
      constructor
      · intro t ht
        rcases List.mem_cons.mp ht with rfl | ht
        · exact ⟨ha.2.1, ha.2.2.1, ha.2.2.2⟩
        · rcases List.mem_cons.mp ht with rfl | ht
          · simp
          · exact ih1 t ht
      · rw [List.count_cons_of_ne (Ne.symm ha.1), List.count_cons_self, ih2]
        simp


/-! ### `GMP_HAS_COMMA` -/

/-- `GMP_EXPAND` leaves an expanded argument as it is. -/
theorem map_GMP_EXPAND (o : Option Toks) : o.map GMP_EXPAND = o := by
  cases o <;> rfl

/-- An argument list `x, ..., x, y` of pp-numbers splits into its `k + 1` arguments. -/
theorem splitArgs_fill (k x y : Nat) :
    splitArgs (argList (List.replicate k [Tok.nat x] ++ [[Tok.nat y]]))
      = List.replicate k [Tok.nat x] ++ [[Tok.nat y]] := by
  have h : List.replicate k [Tok.nat x] ++ [[Tok.nat y]]
      = (List.replicate k (Tok.nat x) ++ [Tok.nat y]).map fun u => [u] := by
    simp
  rw [h]
  have hmem : ∀ u ∈ List.replicate k (Tok.nat x) ++ [Tok.nat y],
      u ≠ Tok.comma ∧ u ≠ Tok.lparen ∧ u ≠ Tok.rparen := by
    intro u hu
    have : u = Tok.nat x ∨ u = Tok.nat y := by
      simp only [List.mem_append, List.mem_replicate, List.mem_singleton] at hu
      tauto
    rcases this with rfl | rfl <;> exact Tok.nat_ne _
  cases hl : List.replicate k (Tok.nat x) ++ [Tok.nat y] with
  | nil => simp at hl
  | cons t ts =>
    rw [hl] at hmem
    exact splitArgs_argList t ts hmem

/-- Position `k + 1` of between 1 and `k + 1` arguments followed by `k` times
`a` and one `b`: it is `b` after a single argument and `a` after more. -/
theorem getElem?_front_fill {β : Type} (front : List β) (k : Nat) (a b : β)
    (h1 : 1 ≤ front.length) (h2 : front.length ≤ k + 1) :
    (front ++ (List.replicate k a ++ [b]))[k + 1]?
      = some (if front.length = 1 then b else a) := by
  rw [List.getElem?_append_right h2]
  by_cases h : front.length = 1
  · rw [if_pos h, h, List.getElem?_append_right (by simp)]
    simp
  · rw [if_neg h, List.getElem?_append_left (by simp; omega)]
    simp [List.getElem?_replicate]
    omega

/-- `GMP_HAS_COMMA` on tokens without parentheses, followed or not by `()`:
`0` when they hold no comma, `1` when they hold between 1 and 254 commas. -/
theorem GMP_HAS_COMMA_flat (F q : Toks) (hF : ∀ t ∈ F, t ≠ Tok.lparen ∧ t ≠ Tok.rparen)
    (hq : q = [] ∨ q = [Tok.lparen, Tok.rparen]) (hc : F.count Tok.comma ≤ 254) :
    GMP_HAS_COMMA (F ++ q)
      = some [if F.count Tok.comma = 0 then Tok.nat 0 else Tok.nat 1] := by
  obtain ⟨front, hlen, hsplit⟩ := splitArgs_flat_comma F q hF hq
  unfold GMP_HAS_COMMA _GMP_COMMA_CHECK
  rw [hsplit, splitArgs_fill 254 1 0, map_GMP_EXPAND]
  have := getElem?_front_fill front 254 [Tok.nat 1] [Tok.nat 0] (by omega) (by omega)
  rw [this, hlen]
  by_cases h0 : F.count Tok.comma = 0
  · simp only [h0, if_true, zero_add]
  · rw [if_neg h0, if_neg (by omega)]

/-! ### `_TRIGGER_PARENTHESIS` -/

/-- Outside an invocation, a token other than `_TRIGGER_PARENTHESIS` is kept. -/
theorem scan_TRIGGER_PARENTHESIS_cons (t : Tok) (rest : Toks)
    (ht : t ≠ Tok.ident "_TRIGGER_PARENTHESIS") :
    scan_TRIGGER_PARENTHESIS 0 (t :: rest)
      = (scan_TRIGGER_PARENTHESIS 0 rest).map (t :: ·) := by
  cases t with
  | ident s =>
    have hs : s ≠ "_TRIGGER_PARENTHESIS" := fun h => ht (by rw [h])
    cases rest with
    | nil => simp [scan_TRIGGER_PARENTHESIS]
    | cons u us => cases u <;> simp [scan_TRIGGER_PARENTHESIS, hs]
  | _ => simp [scan_TRIGGER_PARENTHESIS]

/-- A token sequence that does not name `_TRIGGER_PARENTHESIS` is left as it is. -/
theorem scan_TRIGGER_PARENTHESIS_id (ts : Toks)
    (h : ∀ t ∈ ts, t ≠ Tok.ident "_TRIGGER_PARENTHESIS") :
    scan_TRIGGER_PARENTHESIS 0 ts = some ts := by
  induction ts with
  | nil => simp [scan_TRIGGER_PARENTHESIS]
  | cons t ts ih =>
    rw [scan_TRIGGER_PARENTHESIS_cons t ts (h t (List.mem_cons_self _ _)),
      ih fun u hu => h u (List.mem_cons_of_mem _ hu)]
    rfl

/-- The name `_TRIGGER_PARENTHESIS` before a token that is not `(` is no
invocation: it is kept, and so is what follows when it does not name the macro. -/
theorem scan_TRIGGER_PARENTHESIS_name (t : Tok) (ts : Toks) (ht : t ≠ Tok.lparen)
    (h : ∀ u ∈ t :: ts, u ≠ Tok.ident "_TRIGGER_PARENTHESIS") :
    scan_TRIGGER_PARENTHESIS 0 (Tok.ident "_TRIGGER_PARENTHESIS" :: t :: ts)
      = some (Tok.ident "_TRIGGER_PARENTHESIS" :: t :: ts) := by
  have key : scan_TRIGGER_PARENTHESIS 0 (Tok.ident "_TRIGGER_PARENTHESIS" :: t :: ts)
      = (scan_TRIGGER_PARENTHESIS 0 (t :: ts)).map (Tok.ident "_TRIGGER_PARENTHESIS" :: ·) := by
    cases t <;> first | contradiction | (rw [scan_TRIGGER_PARENTHESIS]; simp)
  rw [key, scan_TRIGGER_PARENTHESIS_id (t :: ts) h]
  rfl

/-! ### `GMP_IS_EMPTY` and `GMP_OPT_COMMA` -/

/-- The spelling of zero. -/
theorem Tok.nat_zero : Tok.nat 0 = Tok.num "0" := rfl

/-- The spelling of one. -/
theorem Tok.nat_one : Tok.nat 1 = Tok.num "1" := rfl

/-- `GMP_HAS_COMMA` of a single comma is `1`. -/
theorem GMP_HAS_COMMA_comma : GMP_HAS_COMMA [Tok.comma] = some [Tok.nat 1] := by
  have := GMP_HAS_COMMA_flat [Tok.comma] [] (by simp) (Or.inl rfl) (by simp)
  simpa using this

/-- `GMP_HAS_COMMA` of a single identifier is `0`. -/
theorem GMP_HAS_COMMA_ident (s : String) : GMP_HAS_COMMA [Tok.ident s] = some [Tok.nat 0] := by
  have := GMP_HAS_COMMA_flat [Tok.ident s] [] (by simp) (Or.inl rfl) (by simp)
  simpa using this

/-- `GMP_IS_EMPTY()` is `1`. -/
theorem GMP_IS_EMPTY_nil : GMP_IS_EMPTY [] = some [Tok.nat 1] := by
  have h0 : GMP_HAS_COMMA [] = some [Tok.nat 0] := by
    simpa using GMP_HAS_COMMA_flat [] [] (by simp) (Or.inl rfl) (by simp)
  have h1 : GMP_HAS_COMMA [Tok.ident "_TRIGGER_PARENTHESIS"] = some [Tok.nat 0] :=
    GMP_HAS_COMMA_ident _
  have h2 : GMP_HAS_COMMA [Tok.lparen, Tok.rparen] = some [Tok.nat 0] := by
    simpa using GMP_HAS_COMMA_flat [] [Tok.lparen, Tok.rparen] (by simp) (Or.inr rfl) (by simp)
  have hcase : _GMP_IS_EMPTY_CASE [Tok.nat 0] [Tok.nat 0] [Tok.nat 0] [Tok.nat 1]
      = some [Tok.comma] := by
    decide
  simp only [GMP_IS_EMPTY, map_GMP_EXPAND, GMP_EXPAND, List.nil_append, List.cons_append,
    scan_TRIGGER_PARENTHESIS, h0, h1, h2, GMP_HAS_COMMA_comma, Option.bind_eq_bind,
    Option.some_bind, Option.map_some', ite_true, _GMP_IS_EMPTY_IMPL, hcase]

/-- An argument list of at least one plain token starts with its first token. -/
theorem argList_cons (a : Tok) (as : List Tok) :
    ∃ F, argList ((a :: as).map fun u => [u]) = a :: F := by
  cases as with
  | nil => exact ⟨[], rfl⟩
  | cons b bs => exact ⟨_, rfl⟩

/-- `GMP_IS_EMPTY` of between 1 and 255 plain tokens is `0`. -/
theorem GMP_IS_EMPTY_plain (a : Tok) (as : List Tok) (h : ∀ t ∈ a :: as, t.plain = true)
    (hn : (a :: as).length ≤ 255) :
    GMP_IS_EMPTY (argList ((a :: as).map fun u => [u])) = some [Tok.nat 0] := by
  obtain ⟨hflat, hcount⟩ := argList_plain (a :: as) h
  obtain ⟨F, hF⟩ := argList_cons a as
  have ha := Tok.plain_ne a (h a (List.mem_cons_self _ _))
  rw [hF] at hflat hcount ⊢
  have hc : (a :: F).count Tok.comma ≤ 254 := by rw [hcount]; omega
  have hflat1 : ∀ t ∈ a :: F, t ≠ Tok.lparen ∧ t ≠ Tok.rparen :=
    fun t ht => ⟨(hflat t ht).1, (hflat t ht).2.1⟩
  have hflat2 : ∀ t ∈ Tok.ident "_TRIGGER_PARENTHESIS" :: a :: F,
      t ≠ Tok.lparen ∧ t ≠ Tok.rparen := by
    intro t ht
    rcases List.mem_cons.mp ht with rfl | ht
    · simp
    · exact hflat1 t ht
  have hcount2 : (Tok.ident "_TRIGGER_PARENTHESIS" :: a :: F).count Tok.comma
      = (a :: F).count Tok.comma := List.count_cons_of_ne (by simp) _
  have hno : ∀ t ∈ a :: F, t ≠ Tok.ident "_TRIGGER_PARENTHESIS" :=
    fun t ht => (hflat t ht).2.2
  have hno2 : ∀ t ∈ a :: (F ++ [Tok.lparen, Tok.rparen]),
      t ≠ Tok.ident "_TRIGGER_PARENTHESIS" := by
    intro t ht
    rw [← List.cons_append] at ht
    rcases List.mem_append.mp ht with ht | ht
    · exact hno t ht
    · simp only [List.mem_cons, List.mem_singleton, List.not_mem_nil, or_false] at ht
      rcases ht with rfl | rfl <;> simp
  have e0 := GMP_HAS_COMMA_flat (a :: F) [] hflat1 (Or.inl rfl) hc
  have e1 := GMP_HAS_COMMA_flat (Tok.ident "_TRIGGER_PARENTHESIS" :: a :: F) [] hflat2
    (Or.inl rfl) (by rw [hcount2]; exact hc)
  have e2 := GMP_HAS_COMMA_flat (a :: F) [Tok.lparen, Tok.rparen] hflat1 (Or.inr rfl) hc
  have e3 := GMP_HAS_COMMA_flat (Tok.ident "_TRIGGER_PARENTHESIS" :: a :: F)
    [Tok.lparen, Tok.rparen] hflat2 (Or.inr rfl) (by rw [hcount2]; exact hc)
  rw [hcount2] at e1 e3
  rw [List.append_nil] at e0 e1
  have s1 := scan_TRIGGER_PARENTHESIS_name a F ha.2.1 hno
  have s2 := scan_TRIGGER_PARENTHESIS_id (a :: F ++ [Tok.lparen, Tok.rparen]) hno2
  have s3 := scan_TRIGGER_PARENTHESIS_name a (F ++ [Tok.lparen, Tok.rparen]) ha.2.1 hno2
  have hcase0 : _GMP_IS_EMPTY_CASE [Tok.nat 0] [Tok.nat 0] [Tok.nat 0] [Tok.nat 0]
      = some [Tok.ident "_GMP_IS_EMPTY_CASE_0000"] := by decide
  have hcase1 : _GMP_IS_EMPTY_CASE [Tok.nat 1] [Tok.nat 1] [Tok.nat 1] [Tok.nat 1]
      = some [Tok.ident "_GMP_IS_EMPTY_CASE_1111"] := by decide
  rw [List.cons_append] at e2 s2
  rw [List.cons_append, List.cons_append] at e3
  unfold GMP_IS_EMPTY
  simp only [map_GMP_EXPAND, List.cons_append, s1, s2, s3, e0, e1, e2, e3,
    Option.bind_eq_bind, Option.some_bind, _GMP_IS_EMPTY_IMPL]
  split
  · rw [hcase0, Option.some_bind]; exact GMP_HAS_COMMA_ident _
  · rw [hcase1, Option.some_bind]; exact GMP_HAS_COMMA_ident _

/-- `GMP_OPT_COMMA()` is empty. -/
theorem GMP_OPT_COMMA_nil : GMP_OPT_COMMA [] = some [] := by
  have h : GMP_CONCAT [Tok.ident "_GMP_OPT_COMMA_"] [Tok.nat 1] = some [] := by decide
  simp only [GMP_OPT_COMMA, GMP_IS_EMPTY_nil, Option.some_bind, h]

/-- `GMP_OPT_COMMA` of between 1 and 255 plain tokens is a comma. -/
theorem GMP_OPT_COMMA_plain (a : Tok) (as : List Tok) (h : ∀ t ∈ a :: as, t.plain = true)
    (hn : (a :: as).length ≤ 255) :
    GMP_OPT_COMMA (argList ((a :: as).map fun u => [u])) = some [Tok.comma] := by
  have hc : GMP_CONCAT [Tok.ident "_GMP_OPT_COMMA_"] [Tok.nat 0] = some [Tok.comma] := by
    decide
  simp only [GMP_OPT_COMMA, GMP_IS_EMPTY_plain a as h hn, Option.some_bind, hc]

/-! ### `GMP_SIZE_OF_VAARGS` -/

/-- The argument list `k, ..., 1, 0` splits into its `k + 1` numbers. -/
theorem splitArgs_countdown (k : Nat) :
    splitArgs (argList ((List.range (k + 1)).reverse.map fun n => [Tok.nat n]))
      = (List.range (k + 1)).reverse.map fun n => [Tok.nat n] := by
  have h : ((List.range (k + 1)).reverse.map fun n => [Tok.nat n])
      = (Tok.nat k :: (List.range k).reverse.map Tok.nat).map fun u => [u] := by
    simp [List.range_succ]
  rw [h]
  apply splitArgs_argList
  intro u hu
  have : ∃ n, u = Tok.nat n := by
    rcases List.mem_cons.mp hu with rfl | hu
    · exact ⟨k, rfl⟩
    · obtain ⟨n, _, rfl⟩ := List.mem_map.mp hu
      exact ⟨n, rfl⟩
  obtain ⟨n, rfl⟩ := this
  exact Tok.nat_ne n

/-- Position `k + 1` of `n + 1` arguments followed by `k, ..., 1, 0` is the number `n`. -/
theorem getElem?_front_countdown (front : List Toks) (k n : Nat)
    (hlen : front.length = n + 1) (hn : n ≤ k) :
    (front ++ (List.range (k + 1)).reverse.map fun n => [Tok.nat n])[k + 1]?
      = some [Tok.nat n] := by
  rw [List.getElem?_append_right (by omega), hlen, List.getElem?_map,
    List.getElem?_reverse (by simp; omega)]
  simp only [List.length_range]
  rw [List.getElem?_range (by omega)]
  simp only [Option.map_some']
  congr 3
  omega

/-- `GMP_SIZE_OF_VAARGS()` is `0`. -/
theorem GMP_SIZE_OF_VAARGS_nil : GMP_SIZE_OF_VAARGS [] = some [Tok.nat 0] := by
  obtain ⟨front, hlen, hsplit⟩ := splitArgs_flat_comma [] [] (by simp) (Or.inl rfl)
  simp only [List.nil_append, List.count_nil, zero_add] at hlen hsplit
  simp only [GMP_SIZE_OF_VAARGS, GMP_OPT_COMMA_nil, Option.some_bind, List.nil_append,
    GMP_GET_VARARGS, _GMP_GET_VARARGS_IMPL, map_GMP_EXPAND, hsplit]
  rw [splitArgs_countdown 254]
  exact getElem?_front_countdown front 254 0 hlen (by omega)

/-- `GMP_SIZE_OF_VAARGS` of between 1 and 254 plain tokens is their number. -/
theorem GMP_SIZE_OF_VAARGS_plain (a : Tok) (as : List Tok)
    (h : ∀ t ∈ a :: as, t.plain = true) (hn : (a :: as).length ≤ 254) :
    GMP_SIZE_OF_VAARGS (argList ((a :: as).map fun u => [u]))
      = some [Tok.nat (a :: as).length] := by
  obtain ⟨hflat, hcount⟩ := argList_plain (a :: as) h
  have hflat1 : ∀ t ∈ Tok.comma :: argList ((a :: as).map fun u => [u]),
      t ≠ Tok.lparen ∧ t ≠ Tok.rparen := by
    intro t ht
    rcases List.mem_cons.mp ht with rfl | ht
    · simp
    · exact ⟨(hflat t ht).1, (hflat t ht).2.1⟩
  obtain ⟨front, hlen, hsplit⟩ := splitArgs_flat_comma _ [] hflat1 (Or.inl rfl)
  rw [List.count_cons_self, hcount] at hlen
  simp only [List.append_nil] at hsplit
  simp only [GMP_SIZE_OF_VAARGS, GMP_OPT_COMMA_plain a as h (by omega), Option.some_bind,
    List.singleton_append, GMP_GET_VARARGS, _GMP_GET_VARARGS_IMPL, map_GMP_EXPAND]
  rw [hsplit, splitArgs_countdown 254]
  exact getElem?_front_countdown front 254 _ (by rw [hlen]; simp) hn

/-! ### Decimal spellings -/

/-- The value of the character of a digit. -/
theorem digitValue?_digitChar (d : Nat) (h : d < 10) :
    digitValue? (Nat.digitChar d) = some d := by
  interval_cases d <;> decide

/-- Reading the digits that `Nat.toDigitsCore` puts before `ds` adds `n` to the
number read so far, shifted by their count. -/
theorem decimalValue_toDigitsCore (fuel : Nat) :
    ∀ (n : Nat) (ds : List Char), n < fuel →
      ∃ k, ∀ acc, decimalValue (Nat.toDigitsCore 10 fuel n ds) acc
        = decimalValue ds (acc * 10 ^ k + n) := by
  induction fuel with
  | zero => intro n ds h; omega
  | succ fuel ih =>
    intro n ds h
    have hd := digitValue?_digitChar (n % 10) (Nat.mod_lt _ (by omega))
    simp only [Nat.toDigitsCore]
    split
    · rename_i h0
      refine ⟨1, fun acc => ?_⟩
      simp only [decimalValue, hd, pow_one]
      congr 1; omega
    · rename_i h0
      obtain ⟨k, hk⟩ := ih (n / 10) (Nat.digitChar (n % 10) :: ds) (by omega)
      refine ⟨k + 1, fun acc => ?_⟩
      rw [hk]
      simp only [decimalValue, hd]
      congr 1
      rw [pow_succ]
      have := Nat.div_add_mod n 10
      nlinarith

/-- The decimal spelling of `n` reads as `n`. -/
theorem decimalValue_toString (n : Nat) : decimalValue (toString n).data 0 = some n := by
  obtain ⟨k, hk⟩ := decimalValue_toDigitsCore (n + 1) n [] (by omega)
  have : (toString n).data = Nat.toDigitsCore 10 (n + 1) n [] := rfl
  rw [this, hk]
  simp [decimalValue]

/-- The spelling of `n` names `n`. -/
theorem decimal?_toString (n : Nat) : decimal? (toString n) = some n := by
  simp [decimal?, decimalValue_toString]

/-- Only the spelling of `n` names `n`. -/
theorem decimal?_eq_some (s : String) (n : Nat) : decimal? s = some n ↔ s = toString n := by
  constructor
  · intro h
    unfold decimal? at h
    cases hv : decimalValue s.data 0 with
    | none => simp [hv] at h
    | some m =>
      simp only [hv, Option.some_bind] at h
      split at h
      · rename_i hs
        cases h
        exact hs.symm
      · cases h
  · rintro rfl
    exact decimal?_toString n

/-- Different numbers are spelled differently. -/
theorem toString_injective (m n : Nat) (h : toString m = toString n) : m = n := by
  have := decimal?_toString m
  rw [h, decimal?_toString] at this
  exact (Option.some.inj this).symm

/-- Characters that read as a number are digits. -/
theorem digit_of_decimalValue (cs : List Char) :
    ∀ acc v, decimalValue cs acc = some v → ∀ c ∈ cs, ('0' ≤ c ∧ c ≤ '9') := by
  induction cs with
  | nil => intro acc v _ c hc; simp at hc
  | cons d ds ih =>
    intro acc v h c hc
    simp only [decimalValue] at h
    cases hd : digitValue? d with
    | none => simp [hd] at h
    | some x =>
      simp only [hd] at h
      rcases List.mem_cons.mp hc with rfl | hc
      · unfold digitValue? at hd
        split at hd
        · assumption
        · cases hd
      · exact ih _ _ h c hc

/-- The spelling of a number is made of digits. -/
theorem toString_digits (n : Nat) : ∀ c ∈ (toString n).data, ('0' ≤ c ∧ c ≤ '9') :=
  digit_of_decimalValue _ 0 n (decimalValue_toString n)

/-- A digit is an identifier character. -/
theorem digit_isAlphanum (c : Char) (h : '0' ≤ c ∧ c ≤ '9') :
    (c.isAlphanum || c = '_') = true := by
  have h1 : 48 ≤ c.val := h.1
  have h2 : c.val ≤ 57 := h.2
  simp [Char.isAlphanum, Char.isDigit, h1, h2]

/-- A digit is no underscore. -/
theorem digit_ne_underscore (c : Char) (h : '0' ≤ c ∧ c ≤ '9') : c ≠ '_' := by
  rintro rfl
  exact absurd h.2 (by decide)

/-- The spelling of a number is not empty. -/
theorem toString_ne_nil (n : Nat) : (toString n).data ≠ [] := by
  intro h
  have := decimalValue_toString n
  have h2 := decimal?_toString n
  unfold decimal? at h2
  rw [h] at this
  simp only [decimalValue, Option.some.injEq] at this
  subst this
  exact absurd h (by decide)

/-! ### Numbered names -/

/-- The characters of an appended string. -/
theorem data_append (a b : String) : (a ++ b).data = a.data ++ b.data := rfl

/-- The name `pre` followed by the spelling of `n` is the one numbered `n`. -/
theorem indexed?_append (pre : String) (n : Nat) : indexed? pre (pre ++ toString n) = some n := by
  unfold indexed?
  rw [data_append]
  simp only [List.isPrefixOf_iff_prefix, List.prefix_append, if_true, List.drop_left]
  exact decimal?_toString n

/-- A name numbered `n` under `pre` is `pre` followed by the spelling of `n`. -/
theorem indexed?_eq_some (pre name : String) (n : Nat) (h : indexed? pre name = some n) :
    name = pre ++ toString n := by
  unfold indexed? at h
  split at h
  · rename_i hp
    rw [List.isPrefixOf_iff_prefix] at hp
    obtain ⟨t, ht⟩ := hp
    rw [← ht, List.drop_left] at h
    have := (decimal?_eq_some _ _).mp h
    apply String.ext
    rw [data_append, ← ht, ← this]
  · cases h


/-- Two names that part ways are not the start of one another with anything appended. -/
theorem not_prefix_append (P Q s : List Char) (h1 : ¬ P <+: Q) (h2 : ¬ Q <+: P) :
    ¬ P <+: Q ++ s := by
  intro h
  rcases List.prefix_or_prefix_of_prefix h (List.prefix_append Q s) with h | h
  · exact h1 h
  · exact h2 h

/-- A name that starts differently is not numbered under `pre`. -/
theorem indexed?_append_none (pre Q s : String) (h1 : ¬ pre.data <+: Q.data)
    (h2 : ¬ Q.data <+: pre.data) : indexed? pre (Q ++ s) = none := by
  unfold indexed?
  rw [data_append, if_neg]
  rw [List.isPrefixOf_iff_prefix]
  exact not_prefix_append _ _ _ h1 h2

/-- A name that starts differently is not doubly numbered under `pre`. -/
theorem indexed2?_append_none (pre Q s : String) (h1 : ¬ pre.data <+: Q.data)
    (h2 : ¬ Q.data <+: pre.data) : indexed2? pre (Q ++ s) = none := by
  unfold indexed2?
  rw [data_append, if_neg]
  rw [List.isPrefixOf_iff_prefix]
  exact not_prefix_append _ _ _ h1 h2

/-- Digits before an underscore: what `takeWhile` and `dropWhile` find. -/
theorem takeWhile_digits (ds rest : List Char) (h : ∀ c ∈ ds, ('0' ≤ c ∧ c ≤ '9')) :
    (ds ++ '_' :: rest).takeWhile (· ≠ '_') = ds
      ∧ (ds ++ '_' :: rest).dropWhile (· ≠ '_') = '_' :: rest
      ∧ ds.takeWhile (· ≠ '_') = ds ∧ ds.dropWhile (· ≠ '_') = [] := by
  induction ds with
  | nil => simp
  | cons d ds ih =>
    have hd := digit_ne_underscore d (h d (List.mem_cons_self _ _))
    have hp : (fun x : Char => decide (x ≠ '_')) d = true := by simpa using hd
    obtain ⟨i1, i2, i3, i4⟩ := ih fun c hc => h c (List.mem_cons_of_mem _ hc)
    rw [List.cons_append, List.takeWhile_cons_of_pos (p := fun x => decide (x ≠ '_')) hp,
      List.dropWhile_cons_of_pos (p := fun x => decide (x ≠ '_')) hp,
      List.takeWhile_cons_of_pos (p := fun x => decide (x ≠ '_')) hp,
      List.dropWhile_cons_of_pos (p := fun x => decide (x ≠ '_')) hp, i1, i2, i3, i4]
    exact ⟨rfl, rfl, rfl, rfl⟩

/-- The name `pre`, spelling of `i`, underscore, spelling of `j` is the one
numbered `i`, `j`. -/
theorem indexed2?_append (pre : String) (i j : Nat) :
    indexed2? pre (pre ++ toString i ++ "_" ++ toString j) = some (i, j) := by
  unfold indexed2?
  have hd : (pre ++ toString i ++ "_" ++ toString j).data
      = pre.data ++ ((toString i).data ++ '_' :: (toString j).data) := by
    simp only [data_append, List.append_assoc]
    rfl
  obtain ⟨t1, t2, _, _⟩ := takeWhile_digits (toString i).data (toString j).data (toString_digits i)
  rw [hd]
  simp only [List.isPrefixOf_iff_prefix, List.prefix_append, if_true, List.drop_left, t1, t2]
  rw [decimal?_toString]
  show Option.map _ (decimal? (toString j)) = _
  rw [decimal?_toString]
  rfl

/-- The name `pre` with the spelling of one number is not doubly numbered. -/
theorem indexed2?_single (pre : String) (i : Nat) :
    indexed2? pre (pre ++ toString i) = none
      ∧ indexed2? pre (pre ++ toString i ++ "_") = none := by
  obtain ⟨t1, t2, t3, t4⟩ := takeWhile_digits (toString i).data [] (toString_digits i)
  constructor
  · unfold indexed2?
    rw [data_append]
    simp only [List.isPrefixOf_iff_prefix, List.prefix_append, if_true, List.drop_left, t3, t4]
    cases decimal? _ <;> rfl
  · unfold indexed2?
    have hd : (pre ++ toString i ++ "_").data = pre.data ++ ((toString i).data ++ ['_']) := by
      simp only [data_append, List.append_assoc]
    rw [hd]
    simp only [List.isPrefixOf_iff_prefix, List.prefix_append, if_true, List.drop_left, t1, t2]
    rw [decimal?_toString]
    have h0 : decimal? (String.mk []) = none := by decide
    show Option.map _ (decimal? (String.mk [])) = none
    rw [h0]
    rfl

/-! ### The table of object-like macros -/

/-- A name is no macro of `objectLikeNamed` when a test tells it from all of them. -/
theorem lookup_objectLikeNamed_none (f : String → Bool) (name : String) (hf : f name = true)
    (hk : ∀ kv ∈ objectLikeNamed, f kv.1 = false) : objectLikeNamed.lookup name = none := by
  rw [List.lookup_eq_none_iff]
  intro kv hkv
  have := hk kv hkv
  simp only [bne_iff_ne, ne_eq]
  rintro rfl
  rw [hf] at this
  cases this

/-- The names `_GMP_CHECK_INDEX_n`: macros up to 254, names without meaning above. -/
theorem objectLike_CHECK_INDEX (n : Nat) :
    objectLike ("_GMP_CHECK_INDEX_" ++ toString n)
      = if n ≤ 254 then some [Tok.comma] else none := by
  unfold objectLike
  rw [indexed?_append]

/-- A numbered name under a prefix that parts ways with `_GMP_CHECK_INDEX_` and
`_GMP_EQUAL_INT_`, and under which no macro of `objectLikeNamed` is numbered,
is no object-like macro. -/
theorem objectLike_indexed_none (Q : String) (n : Nat)
    (hc1 : ¬ "_GMP_CHECK_INDEX_".data <+: Q.data) (hc2 : ¬ Q.data <+: "_GMP_CHECK_INDEX_".data)
    (he1 : ¬ "_GMP_EQUAL_INT_".data <+: Q.data) (he2 : ¬ Q.data <+: "_GMP_EQUAL_INT_".data)
    (hk : ∀ kv ∈ objectLikeNamed, (indexed? Q kv.1).isSome = false) :
    objectLike (Q ++ toString n) = none := by
  unfold objectLike
  rw [indexed?_append_none _ _ _ hc1 hc2, indexed2?_append_none _ _ _ he1 he2]
  exact lookup_objectLikeNamed_none (fun s => (indexed? Q s).isSome) _
    (by simp [indexed?_append]) hk

/-- No name `_GMP_INC_n` is an object-like macro. -/
theorem objectLike_INC (n : Nat) : objectLike ("_GMP_INC_" ++ toString n) = none :=
  objectLike_indexed_none _ n (by decide) (by decide) (by decide) (by decide) (by decide)

/-- No name `_GMP_DEC_n` is an object-like macro. -/
theorem objectLike_DEC (n : Nat) : objectLike ("_GMP_DEC_" ++ toString n) = none :=
  objectLike_indexed_none _ n (by decide) (by decide) (by decide) (by decide) (by decide)

/-- No name `_GMP_FOR_EACH_n` is an object-like macro. -/
theorem objectLike_FOR_EACH (n : Nat) : objectLike ("_GMP_FOR_EACH_" ++ toString n) = none :=
  objectLike_indexed_none _ n (by decide) (by decide) (by decide) (by decide) (by decide)

/-- No name `_GMP_MAKE_INDEX_SEQUENCE_n` is an object-like macro. -/
theorem objectLike_MAKE_INDEX_SEQUENCE (n : Nat) :
    objectLike ("_GMP_MAKE_INDEX_SEQUENCE_" ++ toString n) = none :=
  objectLike_indexed_none _ n (by decide) (by decide) (by decide) (by decide) (by decide)

/-- The names made on the way to `_GMP_EQUAL_INT_i_j` are no macros, and the
name itself is one exactly on the diagonal up to 254. -/
theorem objectLike_EQUAL_INT (i j : Nat) :
    objectLike ("_GMP_EQUAL_INT_" ++ toString i) = none
      ∧ objectLike ("_GMP_EQUAL_INT_" ++ toString i ++ "_") = none
      ∧ objectLike ("_GMP_EQUAL_INT_" ++ toString i ++ "_" ++ toString j)
          = if i = j ∧ i ≤ 254 then some [Tok.comma] else none := by
  have a1 : ∀ s : String, indexed? "_GMP_CHECK_INDEX_" ("_GMP_EQUAL_INT_" ++ s) = none :=
    fun s => indexed?_append_none _ _ _ (by decide) (by decide)
  refine ⟨?_, ?_, ?_⟩
  · unfold objectLike
    rw [a1, (indexed2?_single _ i).1]
    exact lookup_objectLikeNamed_none (fun s => (indexed? "_GMP_EQUAL_INT_" s).isSome) _
      (by simp [indexed?_append]) (by decide)
  · unfold objectLike
    rw [String.append_assoc, a1, ← String.append_assoc, (indexed2?_single _ i).2]
    refine lookup_objectLikeNamed_none
      (fun s => (indexed? "_GMP_EQUAL_INT_" (String.mk s.data.dropLast)).isSome) _ ?_ (by decide)
    have : String.mk ("_GMP_EQUAL_INT_" ++ toString i ++ "_").data.dropLast
        = "_GMP_EQUAL_INT_" ++ toString i := by
      apply String.ext
      simp only [data_append]
      show (("_GMP_EQUAL_INT_".data ++ (toString i).data) ++ ['_']).dropLast = _
      rw [List.dropLast_concat]
    show (indexed? "_GMP_EQUAL_INT_"
      (String.mk ("_GMP_EQUAL_INT_" ++ toString i ++ "_").data.dropLast)).isSome = true
    rw [this, indexed?_append]
    rfl
  · unfold objectLike
    rw [String.append_assoc, String.append_assoc, a1, ← String.append_assoc,
      ← String.append_assoc, indexed2?_append]

/-! ### Pasting and `GMP_OVERLOAD_INVOKE` -/

/-- The spelling of a number is pastable. -/
theorem Tok.nat_pastable (n : Nat) : (Tok.nat n).pastable = true := by
  simp only [Tok.nat, Tok.pastable, List.all_eq_true]
  intro c hc
  exact digit_isAlphanum c (toString_digits n c hc)

/-- A number is a plain token. -/
theorem Tok.nat_plain (n : Nat) : (Tok.nat n).plain = true := rfl

/-- The spelling of the token of a number. -/
theorem Tok.nat_spelling (n : Nat) : (Tok.nat n).spelling = toString n := rfl

/-- Pasting a pastable token after an identifier appends its spelling. -/
theorem pasteTok_ident (a : String) (v : Tok) (hv : v.pastable = true) :
    pasteTok (Tok.ident a) v = some (Tok.ident (a ++ v.spelling)) := by
  cases v <;> simp_all [Tok.pastable, pasteTok, Tok.spelling]

/-- The macro `GMP_CONCAT` on an identifier and a pastable token: the pasted
identifier, rescanned. -/
theorem GMP_CONCAT_ident (a : String) (v : Tok) (hv : v.pastable = true) :
    GMP_CONCAT [Tok.ident a] [v] = some (rescan [Tok.ident (a ++ v.spelling)]) := by
  simp [GMP_CONCAT, GMP_CONCAT_HELPER, paste, pasteTok_ident a v hv]

/-- Rescanning leaves an identifier that names no object-like macro. -/
theorem rescan_ident (a : String) (h : objectLike a = none) :
    rescan [Tok.ident a] = [Tok.ident a] := by
  simp [rescan, h]

/-- One step of `_GMP_OVERLOAD_INVOKE_k`: an underscore and a version are
pasted to a name. -/
theorem GMP_CONCAT_step (a : String) (v : Tok) (hv : v.pastable = true)
    (h : objectLike (a ++ "_") = none) :
    (GMP_CONCAT [Tok.ident a] [Tok.ident "_"]).bind (GMP_CONCAT · [v])
      = some (rescan [Tok.ident (a ++ "_" ++ v.spelling)]) := by
  rw [GMP_CONCAT_ident a (Tok.ident "_") rfl]
  show (some (rescan [Tok.ident (a ++ "_")])).bind _ = _
  rw [rescan_ident _ h, Option.some_bind, GMP_CONCAT_ident _ v hv]

/-- The tokens `X (args)` when `X` is one name of the family. -/
theorem invoke_ident (family : String → Option (List Toks → Option Toks)) (name : String)
    (M : List Toks → Option Toks) (args : Toks) (h : family name = some M) :
    invoke family [Tok.ident name] args = M (splitArgs args) := by
  simp only [invoke, List.getLast?_singleton, h, List.dropLast_single, List.nil_append]
  cases M (splitArgs args) <;> rfl

/-- The tokens `X (args)` when `X` is a name outside the family. -/
theorem invoke_ident_none (family : String → Option (List Toks → Option Toks))
    (name : String) (args : Toks) (h : family name = none) :
    invoke family [Tok.ident name] args
      = some (Tok.ident name :: Tok.lparen :: args ++ [Tok.rparen]) := by
  simp [invoke, h]

/-- The arguments `(call, v1, ..., vk)` of `_GMP_OVERLOAD_INVOKE_k`. -/
theorem splitArgs_call (c : String) (vs : List Tok) (hvs : ∀ v ∈ vs, v.plain = true)
    (hne : vs ≠ []) :
    splitArgs (Tok.ident c :: Tok.comma :: argList (vs.map fun v => [v]))
      = [Tok.ident c] :: vs.map fun v => [v] := by
  have h := splitArgs_argList (Tok.ident c) vs (by
    intro u hu
    rcases List.mem_cons.mp hu with rfl | hu
    · simp
    · have := Tok.plain_ne u (hvs u hu)
      exact ⟨this.1, this.2.1, this.2.2.1⟩)
  cases vs with
  | nil => exact absurd rfl hne
  | cons v vs => simpa [argList] using h


/-- Macro `_GMP_OVERLOAD_INVOKE_1` on an identifier and a pastable version. -/
theorem _GMP_OVERLOAD_INVOKE_1_ident (c : String) (v1 : Tok) (hv1 : v1.pastable = true)
    (h0 : objectLike (c ++ "_") = none) :
    _GMP_OVERLOAD_INVOKE_1 [Tok.ident c] [v1]
      = some (rescan [Tok.ident (c ++ "_" ++ v1.spelling)]) :=
  GMP_CONCAT_step c v1 hv1 h0

/-- Macro `_GMP_OVERLOAD_INVOKE_2` on an identifier and pastable versions. -/
theorem _GMP_OVERLOAD_INVOKE_2_ident (c : String) (v1 v2 : Tok)
    (hv1 : v1.pastable = true) (hv2 : v2.pastable = true)
    (h0 : objectLike (c ++ "_") = none)
    (h1 : objectLike (c ++ "_" ++ v1.spelling) = none)
    (h1u : objectLike (c ++ "_" ++ v1.spelling ++ "_") = none) :
    _GMP_OVERLOAD_INVOKE_2 [Tok.ident c] [v1] [v2]
      = some (rescan [Tok.ident (c ++ "_" ++ v1.spelling ++ "_" ++ v2.spelling)]) := by
  rw [_GMP_OVERLOAD_INVOKE_2, _GMP_OVERLOAD_INVOKE_1_ident c v1 hv1 h0, rescan_ident _ h1,
    Option.some_bind]
  exact GMP_CONCAT_step _ v2 hv2 h1u

/-- Macro `_GMP_OVERLOAD_INVOKE_3` on an identifier and pastable versions. -/
theorem _GMP_OVERLOAD_INVOKE_3_ident (c : String) (v1 v2 v3 : Tok)
    (hv1 : v1.pastable = true) (hv2 : v2.pastable = true) (hv3 : v3.pastable = true)
    (h0 : objectLike (c ++ "_") = none)
    (h1 : objectLike (c ++ "_" ++ v1.spelling) = none)
    (h1u : objectLike (c ++ "_" ++ v1.spelling ++ "_") = none)
    (h2 : objectLike (c ++ "_" ++ v1.spelling ++ "_" ++ v2.spelling) = none)
    (h2u : objectLike (c ++ "_" ++ v1.spelling ++ "_" ++ v2.spelling ++ "_") = none) :
    _GMP_OVERLOAD_INVOKE_3 [Tok.ident c] [v1] [v2] [v3]
      = some (rescan [Tok.ident
          (c ++ "_" ++ v1.spelling ++ "_" ++ v2.spelling ++ "_" ++ v3.spelling)]) := by
  rw [_GMP_OVERLOAD_INVOKE_3, _GMP_OVERLOAD_INVOKE_2_ident c v1 v2 hv1 hv2 h0 h1 h1u,
    rescan_ident _ h2, Option.some_bind]
  exact GMP_CONCAT_step _ v3 hv3 h2u

/-- Macro `_GMP_OVERLOAD_INVOKE_4` on an identifier and pastable versions. -/
theorem _GMP_OVERLOAD_INVOKE_4_ident (c : String) (v1 v2 v3 v4 : Tok)
    (hv1 : v1.pastable = true) (hv2 : v2.pastable = true) (hv3 : v3.pastable = true)
    (hv4 : v4.pastable = true)
    (h0 : objectLike (c ++ "_") = none)
    (h1 : objectLike (c ++ "_" ++ v1.spelling) = none)
    (h1u : objectLike (c ++ "_" ++ v1.spelling ++ "_") = none)
    (h2 : objectLike (c ++ "_" ++ v1.spelling ++ "_" ++ v2.spelling) = none)
    (h2u : objectLike (c ++ "_" ++ v1.spelling ++ "_" ++ v2.spelling ++ "_") = none)
    (h3 : objectLike
      (c ++ "_" ++ v1.spelling ++ "_" ++ v2.spelling ++ "_" ++ v3.spelling) = none)
    (h3u : objectLike
      (c ++ "_" ++ v1.spelling ++ "_" ++ v2.spelling ++ "_" ++ v3.spelling ++ "_") = none) :
    _GMP_OVERLOAD_INVOKE_4 [Tok.ident c] [v1] [v2] [v3] [v4]
      = some (rescan [Tok.ident (c ++ "_" ++ v1.spelling ++ "_" ++ v2.spelling ++ "_"
          ++ v3.spelling ++ "_" ++ v4.spelling)]) := by
  rw [_GMP_OVERLOAD_INVOKE_4,
    _GMP_OVERLOAD_INVOKE_3_ident c v1 v2 v3 hv1 hv2 hv3 h0 h1 h1u h2 h2u,
    rescan_ident _ h3, Option.some_bind]
  exact GMP_CONCAT_step _ v4 hv4 h3u

/-- Macro `_GMP_OVERLOAD_INVOKE_5` on an identifier and pastable versions. -/
theorem _GMP_OVERLOAD_INVOKE_5_ident (c : String) (v1 v2 v3 v4 v5 : Tok)
    (hv1 : v1.pastable = true) (hv2 : v2.pastable = true) (hv3 : v3.pastable = true)
    (hv4 : v4.pastable = true) (hv5 : v5.pastable = true)
    (h0 : objectLike (c ++ "_") = none)
    (h1 : objectLike (c ++ "_" ++ v1.spelling) = none)
    (h1u : objectLike (c ++ "_" ++ v1.spelling ++ "_") = none)
    (h2 : objectLike (c ++ "_" ++ v1.spelling ++ "_" ++ v2.spelling) = none)
    (h2u : objectLike (c ++ "_" ++ v1.spelling ++ "_" ++ v2.spelling ++ "_") = none)
    (h3 : objectLike
      (c ++ "_" ++ v1.spelling ++ "_" ++ v2.spelling ++ "_" ++ v3.spelling) = none)
    (h3u : objectLike
      (c ++ "_" ++ v1.spelling ++ "_" ++ v2.spelling ++ "_" ++ v3.spelling ++ "_") = none)
    (h4 : objectLike (c ++ "_" ++ v1.spelling ++ "_" ++ v2.spelling ++ "_" ++ v3.spelling
      ++ "_" ++ v4.spelling) = none)
    (h4u : objectLike (c ++ "_" ++ v1.spelling ++ "_" ++ v2.spelling ++ "_" ++ v3.spelling
      ++ "_" ++ v4.spelling ++ "_") = none) :
    _GMP_OVERLOAD_INVOKE_5 [Tok.ident c] [v1] [v2] [v3] [v4] [v5]
      = some (rescan [Tok.ident (c ++ "_" ++ v1.spelling ++ "_" ++ v2.spelling ++ "_"
          ++ v3.spelling ++ "_" ++ v4.spelling ++ "_" ++ v5.spelling)]) := by
  rw [_GMP_OVERLOAD_INVOKE_5,
    _GMP_OVERLOAD_INVOKE_4_ident c v1 v2 v3 v4 hv1 hv2 hv3 hv4 h0 h1 h1u h2 h2u h3 h3u,
    rescan_ident _ h4, Option.some_bind]
  exact GMP_CONCAT_step _ v5 hv5 h4u

/-- The macro `GMP_OVERLOAD_INVOKE` on an identifier and between one and five
plain pastable versions, when no name pasted on the way is an object-like
macro: the joined name, rescanned. -/
theorem GMP_OVERLOAD_INVOKE_ident (c : String) (vs : List Tok)
    (hk1 : 1 ≤ vs.length) (hk5 : vs.length ≤ 5)
    (hplain : ∀ v ∈ vs, v.plain = true) (hpaste : ∀ v ∈ vs, v.pastable = true)
    (hsteps : ∀ s ∈ overloadSteps c vs, objectLike s = none) :
    GMP_OVERLOAD_INVOKE [Tok.ident c] (argList (vs.map fun v => [v]))
      = some (rescan [Tok.ident (overloadName c vs)]) := by
  have hargs := splitArgs_call c vs hplain (by rintro rfl; simp at hk1)
  unfold GMP_OVERLOAD_INVOKE
  simp only [List.singleton_append]
  match vs, hk1, hk5, hplain, hpaste, hsteps, hargs with
  | [v1], _, _, hplain, hpaste, hsteps, hargs =>
    rw [GMP_SIZE_OF_VAARGS_plain v1 [] hplain (by simp)]
    have hX : GMP_CONCAT [Tok.ident "_GMP_OVERLOAD_INVOKE_"] [Tok.nat [v1].length]
        = some [Tok.ident "_GMP_OVERLOAD_INVOKE_1"] :=
      show GMP_CONCAT [Tok.ident "_GMP_OVERLOAD_INVOKE_"] [Tok.nat 1] = _ by decide
    rw [Option.some_bind, hX, Option.some_bind,
      invoke_ident _GMP_OVERLOAD_INVOKE_ "_GMP_OVERLOAD_INVOKE_1" _ _ rfl, hargs]
    simp only [overloadSteps, List.mem_cons, List.mem_singleton, forall_eq_or_imp, forall_eq,
      List.not_mem_nil, false_imp_iff, implies_true, and_true] at hsteps hpaste
    exact _GMP_OVERLOAD_INVOKE_1_ident c v1 hpaste hsteps
  | [v1, v2], _, _, hplain, hpaste, hsteps, hargs =>
    rw [GMP_SIZE_OF_VAARGS_plain v1 [v2] hplain (by simp)]
    have hX : GMP_CONCAT [Tok.ident "_GMP_OVERLOAD_INVOKE_"] [Tok.nat [v1, v2].length]
        = some [Tok.ident "_GMP_OVERLOAD_INVOKE_2"] :=
      show GMP_CONCAT [Tok.ident "_GMP_OVERLOAD_INVOKE_"] [Tok.nat 2] = _ by decide
    rw [Option.some_bind, hX, Option.some_bind,
      invoke_ident _GMP_OVERLOAD_INVOKE_ "_GMP_OVERLOAD_INVOKE_2" _ _ rfl, hargs]
    simp only [overloadSteps, List.mem_cons, List.mem_singleton, forall_eq_or_imp, forall_eq,
      List.not_mem_nil, false_imp_iff, implies_true, and_true] at hsteps hpaste
    obtain ⟨h0, h1, h1u⟩ := hsteps
    exact _GMP_OVERLOAD_INVOKE_2_ident c v1 v2 hpaste.1 hpaste.2 h0 h1 h1u
  | [v1, v2, v3], _, _, hplain, hpaste, hsteps, hargs =>
    rw [GMP_SIZE_OF_VAARGS_plain v1 [v2, v3] hplain (by simp)]
    have hX : GMP_CONCAT [Tok.ident "_GMP_OVERLOAD_INVOKE_"] [Tok.nat [v1, v2, v3].length]
        = some [Tok.ident "_GMP_OVERLOAD_INVOKE_3"] :=
      show GMP_CONCAT [Tok.ident "_GMP_OVERLOAD_INVOKE_"] [Tok.nat 3] = _ by decide
    rw [Option.some_bind, hX, Option.some_bind,
      invoke_ident _GMP_OVERLOAD_INVOKE_ "_GMP_OVERLOAD_INVOKE_3" _ _ rfl, hargs]
    simp only [overloadSteps, List.mem_cons, List.mem_singleton, forall_eq_or_imp, forall_eq,
      List.not_mem_nil, false_imp_iff, implies_true, and_true] at hsteps hpaste
    obtain ⟨h0, h1, h1u, h2, h2u⟩ := hsteps
    exact _GMP_OVERLOAD_INVOKE_3_ident c v1 v2 v3 hpaste.1 hpaste.2.1 hpaste.2.2
      h0 h1 h1u h2 h2u
  | [v1, v2, v3, v4], _, _, hplain, hpaste, hsteps, hargs =>
    rw [GMP_SIZE_OF_VAARGS_plain v1 [v2, v3, v4] hplain (by simp)]
    have hX : GMP_CONCAT [Tok.ident "_GMP_OVERLOAD_INVOKE_"]
        [Tok.nat [v1, v2, v3, v4].length]
        = some [Tok.ident "_GMP_OVERLOAD_INVOKE_4"] :=
      show GMP_CONCAT [Tok.ident "_GMP_OVERLOAD_INVOKE_"] [Tok.nat 4] = _ by decide
    rw [Option.some_bind, hX, Option.some_bind,
      invoke_ident _GMP_OVERLOAD_INVOKE_ "_GMP_OVERLOAD_INVOKE_4" _ _ rfl, hargs]
    simp only [overloadSteps, List.mem_cons, List.mem_singleton, forall_eq_or_imp, forall_eq,
      List.not_mem_nil, false_imp_iff, implies_true, and_true] at hsteps hpaste
    obtain ⟨h0, h1, h1u, h2, h2u, h3, h3u⟩ := hsteps
    exact _GMP_OVERLOAD_INVOKE_4_ident c v1 v2 v3 v4 hpaste.1 hpaste.2.1 hpaste.2.2.1
      hpaste.2.2.2 h0 h1 h1u h2 h2u h3 h3u
  | [v1, v2, v3, v4, v5], _, _, hplain, hpaste, hsteps, hargs =>
    rw [GMP_SIZE_OF_VAARGS_plain v1 [v2, v3, v4, v5] hplain (by simp)]
    have hX : GMP_CONCAT [Tok.ident "_GMP_OVERLOAD_INVOKE_"]
        [Tok.nat [v1, v2, v3, v4, v5].length]
        = some [Tok.ident "_GMP_OVERLOAD_INVOKE_5"] :=
      show GMP_CONCAT [Tok.ident "_GMP_OVERLOAD_INVOKE_"] [Tok.nat 5] = _ by decide
    rw [Option.some_bind, hX, Option.some_bind,
      invoke_ident _GMP_OVERLOAD_INVOKE_ "_GMP_OVERLOAD_INVOKE_5" _ _ rfl, hargs]
    simp only [overloadSteps, List.mem_cons, List.mem_singleton, forall_eq_or_imp, forall_eq,
      List.not_mem_nil, false_imp_iff, implies_true, and_true] at hsteps hpaste
    obtain ⟨h0, h1, h1u, h2, h2u, h3, h3u, h4, h4u⟩ := hsteps
    exact _GMP_OVERLOAD_INVOKE_5_ident c v1 v2 v3 v4 v5 hpaste.1 hpaste.2.1 hpaste.2.2.1
      hpaste.2.2.2.1 hpaste.2.2.2.2 h0 h1 h1u h2 h2u h3 h3u h4 h4u

/-! ### `GMP_INC`, `GMP_DEC`, `GMP_CHECK_INDEX`, `GMP_EQUAL_INT` -/

/-- The macro `GMP_OVERLOAD_INVOKE` on a base name and one number. -/
theorem GMP_OVERLOAD_INVOKE_nat (c : String) (n : Nat) (h0 : objectLike (c ++ "_") = none) :
    GMP_OVERLOAD_INVOKE [Tok.ident c] [Tok.nat n]
      = some (rescan [Tok.ident (c ++ "_" ++ toString n)]) :=
  GMP_OVERLOAD_INVOKE_ident c [Tok.nat n] (by simp) (by simp)
    (by simp [Tok.nat_plain]) (by simp [Tok.nat_pastable]) (by simpa [overloadSteps] using h0)

/-- The macro `GMP_INC` on a number up to 255. -/
theorem GMP_INC_nat (n : Nat) (h : n ≤ 255) : GMP_INC [Tok.nat n] = some [Tok.nat (n + 1)] := by
  have hs : ("_GMP_INC" ++ "_" : String) = "_GMP_INC_" := by decide
  have hf : _GMP_INC_ ("_GMP_INC_" ++ toString n)
      = some fun args => if args = [[]] then some [Tok.nat (n + 1)] else none := by
    simp only [_GMP_INC_, indexed?_append, h, if_true]
  rw [GMP_INC, GMP_OVERLOAD_INVOKE_nat _ n (by decide), hs, rescan_ident _ (objectLike_INC n),
    Option.some_bind, invoke_ident _ _ _ _ hf]
  rfl

/-- The macro `GMP_DEC` on a number from 1 to 255. -/
theorem GMP_DEC_nat (n : Nat) (h1 : 1 ≤ n) (h : n ≤ 255) :
    GMP_DEC [Tok.nat n] = some [Tok.nat (n - 1)] := by
  have hs : ("_GMP_DEC" ++ "_" : String) = "_GMP_DEC_" := by decide
  have hf : _GMP_DEC_ ("_GMP_DEC_" ++ toString n)
      = some fun args => if args = [[]] then some [Tok.nat (n - 1)] else none := by
    simp only [_GMP_DEC_, indexed?_append, h, h1, and_self, if_true]
  rw [GMP_DEC, GMP_OVERLOAD_INVOKE_nat _ n (by decide), hs, rescan_ident _ (objectLike_DEC n),
    Option.some_bind, invoke_ident _ _ _ _ hf]
  rfl

/-- The operator `##` on an identifier and a pastable token. -/
theorem paste_ident (a : String) (v : Tok) (hv : v.pastable = true) :
    paste [Tok.ident a] [v] = some [Tok.ident (a ++ v.spelling)] := by
  simp [paste, pasteTok_ident a v hv]

/-- The error name is no object-like macro. -/
theorem objectLike_errorName (n : Nat) :
    objectLike ("Error_Index_" ++ toString n ++ "_Exceeds_Maximum_Macro_Index_254") = none := by
  rw [String.append_assoc]
  unfold objectLike
  rw [indexed?_append_none _ _ _ (by decide) (by decide),
    indexed2?_append_none _ _ _ (by decide) (by decide)]
  exact lookup_objectLikeNamed_none (fun s => "Error_Index_".data.isPrefixOf s.data) _
    (by simp [data_append]) (by decide)


/-- The macro `_GMP_CHECK_INDEX_R_0` on a number: the error token and `;`. -/
theorem _GMP_CHECK_INDEX_R_0_nat (n : Nat) :
    _GMP_CHECK_INDEX_R_0 [Tok.nat n]
      = some [Tok.ident ("Error_Index_" ++ toString n ++ "_Exceeds_Maximum_Macro_Index_254"),
          Tok.other ";"] := by
  have hm : rescan [Tok.ident "GMP_MAX_INDEX"] = [Tok.nat 254] := by decide
  have hs : ∀ a : String, a ++ "_Exceeds_Maximum_Macro_Index_" ++ (Tok.nat 254).spelling
      = a ++ "_Exceeds_Maximum_Macro_Index_254" := by
    intro a
    rw [String.append_assoc]
    rfl
  rw [_GMP_CHECK_INDEX_R_0, hm, _GMP_CHECK_INDEX_ERROR_MSG, _GMP_CHECK_INDEX_ERROR_MSG_IMPL,
    paste_ident _ _ (Tok.nat_pastable n), Option.some_bind,
    paste_ident _ (Tok.ident "_Exceeds_Maximum_Macro_Index_") rfl, Option.some_bind,
    paste_ident _ _ (Tok.nat_pastable 254), Option.map_some']
  show some (rescan ([Tok.ident ("Error_Index_" ++ toString n
    ++ "_Exceeds_Maximum_Macro_Index_" ++ (Tok.nat 254).spelling)] ++ [Tok.other ";"])) = _
  rw [hs]
  simp [rescan, objectLike_errorName]

/-- What `GMP_OVERLOAD_INVOKE(_GMP_CHECK_INDEX, n)` makes: a comma up to 254, a
name that is no macro beyond. -/
theorem GMP_OVERLOAD_INVOKE_CHECK_INDEX (n : Nat) :
    GMP_OVERLOAD_INVOKE [Tok.ident "_GMP_CHECK_INDEX"] [Tok.nat n]
      = some (if n ≤ 254 then [Tok.comma]
          else [Tok.ident ("_GMP_CHECK_INDEX_" ++ toString n)]) := by
  have hs : ("_GMP_CHECK_INDEX" ++ "_" : String) = "_GMP_CHECK_INDEX_" := by decide
  rw [GMP_OVERLOAD_INVOKE_nat _ n (by decide), hs]
  by_cases h : n ≤ 254
  · simp [rescan, objectLike_CHECK_INDEX, h]
  · simp [rescan, objectLike_CHECK_INDEX, h]

/-- Whether `GMP_OVERLOAD_INVOKE(_GMP_CHECK_INDEX, n)` has a comma. -/
theorem GMP_HAS_COMMA_CHECK_INDEX (n : Nat) :
    (GMP_OVERLOAD_INVOKE [Tok.ident "_GMP_CHECK_INDEX"] [Tok.nat n]).bind GMP_HAS_COMMA
      = some [Tok.nat (if n ≤ 254 then 1 else 0)] := by
  rw [GMP_OVERLOAD_INVOKE_CHECK_INDEX, Option.some_bind]
  by_cases h : n ≤ 254
  · simp only [h, if_true]; exact GMP_HAS_COMMA_comma
  · simp only [h, if_false]; exact GMP_HAS_COMMA_ident _

/-- The macro `GMP_CHECK_INDEX` on a number. -/
theorem GMP_CHECK_INDEX_nat (n : Nat) :
    GMP_CHECK_INDEX [Tok.nat n]
      = some (if n ≤ 254 then []
          else [Tok.ident ("Error_Index_" ++ toString n ++ "_Exceeds_Maximum_Macro_Index_254"),
            Tok.other ";"]) := by
  have h1 : GMP_OVERLOAD_INVOKE [Tok.ident "_GMP_CHECK_INDEX_R"] [Tok.nat 1]
      = some [Tok.ident "_GMP_CHECK_INDEX_R_1"] := by
    rw [GMP_OVERLOAD_INVOKE_nat _ 1 (by decide)]; decide
  have h0 : GMP_OVERLOAD_INVOKE [Tok.ident "_GMP_CHECK_INDEX_R"] [Tok.nat 0]
      = some [Tok.ident "_GMP_CHECK_INDEX_R_0"] := by
    rw [GMP_OVERLOAD_INVOKE_nat _ 0 (by decide)]; decide
  have hc := GMP_HAS_COMMA_CHECK_INDEX n
  rw [GMP_CHECK_INDEX]
  rw [Option.bind_eq_some] at hc
  obtain ⟨c, hc1, hc2⟩ := hc
  rw [hc1, Option.some_bind, hc2, Option.some_bind]
  by_cases h : n ≤ 254
  · simp only [h, if_true]
    rw [h1, Option.some_bind, invoke_ident _ "_GMP_CHECK_INDEX_R_1" _ _ rfl]
    rfl
  · simp only [h, if_false]
    rw [h0, Option.some_bind, invoke_ident _ "_GMP_CHECK_INDEX_R_0" _ _ rfl]
    exact _GMP_CHECK_INDEX_R_0_nat n

/-- The macro `GMP_CHECK_INDEX_BOOL` on a number. -/
theorem GMP_CHECK_INDEX_BOOL_nat (n : Nat) :
    GMP_CHECK_INDEX_BOOL [Tok.nat n] = some [Tok.nat (if n ≤ 254 then 1 else 0)] := by
  have h1 : GMP_OVERLOAD_INVOKE [Tok.ident "_GMP_CHECK_INDEX_BOOL_R"] [Tok.nat 1]
      = some [Tok.nat 1] := by
    rw [GMP_OVERLOAD_INVOKE_nat _ 1 (by decide)]; decide
  have h0 : GMP_OVERLOAD_INVOKE [Tok.ident "_GMP_CHECK_INDEX_BOOL_R"] [Tok.nat 0]
      = some [Tok.nat 0] := by
    rw [GMP_OVERLOAD_INVOKE_nat _ 0 (by decide)]; decide
  have hc := GMP_HAS_COMMA_CHECK_INDEX n
  rw [GMP_CHECK_INDEX_BOOL]
  rw [Option.bind_eq_some] at hc
  obtain ⟨c, hc1, hc2⟩ := hc
  rw [hc1, Option.some_bind, hc2, Option.some_bind]
  by_cases h : n ≤ 254
  · simp only [h, if_true]; exact h1
  · simp only [h, if_false]; exact h0

/-- The macro `GMP_EQUAL_INT` on two numbers up to 254. -/
theorem GMP_EQUAL_INT_nat (i j : Nat) (hi : i ≤ 254) (hj : j ≤ 254) :
    GMP_EQUAL_INT [Tok.nat i] [Tok.nat j] = some [Tok.nat (if i = j then 1 else 0)] := by
  have h1 : GMP_OVERLOAD_INVOKE [Tok.ident "_GMP_EQUAL_INT_RESULT"] [Tok.nat 1]
      = some [Tok.nat 1] := by
    rw [GMP_OVERLOAD_INVOKE_nat _ 1 (by decide)]; decide
  have h0 : GMP_OVERLOAD_INVOKE [Tok.ident "_GMP_EQUAL_INT_RESULT"] [Tok.nat 0]
      = some [Tok.nat 0] := by
    rw [GMP_OVERLOAD_INVOKE_nat _ 0 (by decide)]; decide
  have hs : ("_GMP_EQUAL_INT" ++ "_" : String) = "_GMP_EQUAL_INT_" := by decide
  obtain ⟨e1, e2, e3⟩ := objectLike_EQUAL_INT i j
  have he : GMP_OVERLOAD_INVOKE [Tok.ident "_GMP_EQUAL_INT"]
      ([Tok.nat i] ++ Tok.comma :: [Tok.nat j])
      = some (rescan [Tok.ident ("_GMP_EQUAL_INT_" ++ toString i ++ "_" ++ toString j)]) := by
    have := GMP_OVERLOAD_INVOKE_ident "_GMP_EQUAL_INT" [Tok.nat i, Tok.nat j] (by simp)
      (by simp) (by simp [Tok.nat_plain]) (by simp [Tok.nat_pastable])
      (by
        simp only [overloadSteps, hs, Tok.nat_spelling, List.mem_cons, List.mem_singleton,
          forall_eq_or_imp, forall_eq, List.not_mem_nil, false_imp_iff, implies_true, and_true]
        exact ⟨by decide, e1, e2⟩)
    simpa [overloadName, hs, Tok.nat_spelling, argList] using this
  rw [GMP_EQUAL_INT, GMP_CHECK_INDEX_nat, GMP_CHECK_INDEX_nat, he]
  simp only [hi, hj, if_true, Option.some_bind, List.nil_append]
  by_cases h : i = j
  · have hr : rescan [Tok.ident ("_GMP_EQUAL_INT_" ++ toString i ++ "_" ++ toString j)]
        = [Tok.comma] := by
      simp only [rescan]
      rw [e3]
      simp [h, hj]
    rw [hr, GMP_HAS_COMMA_comma, Option.some_bind]
    simp only [h, if_true]
    rw [h1]; rfl
  · have hr : rescan [Tok.ident ("_GMP_EQUAL_INT_" ++ toString i ++ "_" ++ toString j)]
        = [Tok.ident ("_GMP_EQUAL_INT_" ++ toString i ++ "_" ++ toString j)] := by
      simp only [rescan]
      rw [e3]
      simp [h]
    rw [hr, GMP_HAS_COMMA_ident, Option.some_bind]
    simp only [h, if_false]
    rw [h0]; rfl

/-! ### `GMP_FOR_EACH` and `GMP_MAKE_INDEX_SEQUENCE` -/

/-- A first argument of one token that is no comma and no parenthesis. -/
theorem splitArgs_cons_comma (t : Tok) (rest : Toks)
    (h : t ≠ Tok.comma ∧ t ≠ Tok.lparen ∧ t ≠ Tok.rparen) :
    splitArgs (t :: Tok.comma :: rest) = [t] :: splitArgs rest := by
  simp only [splitArgs]
  rw [splitArgsAux_atom 0 [] _ t h.1 h.2.1 h.2.2]
  rfl

/-- An argument list of single tokens that are no commas and no parentheses
splits into these tokens; the empty list is one empty argument. -/
theorem splitArgs_singles (ts : List Tok)
    (h : ∀ u ∈ ts, u ≠ Tok.comma ∧ u ≠ Tok.lparen ∧ u ≠ Tok.rparen) :
    splitArgs (argList (ts.map fun u => [u])) = if ts = [] then [[]] else ts.map fun u => [u] := by
  cases ts with
  | nil => rfl
  | cons t ts => simpa using splitArgs_argList t ts h


/-- A plain token is no comma and no parenthesis. -/
theorem Tok.plain_ne3 (t : Tok) (h : t.plain = true) :
    t ≠ Tok.comma ∧ t ≠ Tok.lparen ∧ t ≠ Tok.rparen :=
  ⟨(Tok.plain_ne t h).1, (Tok.plain_ne t h).2.1, (Tok.plain_ne t h).2.2.1⟩

/-- The macro `_GMP_FOR_EACH_n` on `call` and `n` arguments of one token, for
`n` at least 1: `call(a)` for each argument in order. -/
theorem _GMP_FOR_EACH_n_singles (call : Tok) (hc : call.plain = true) (a : Tok) (as : List Tok)
    (h : ∀ t ∈ a :: as, t.plain = true) :
    _GMP_FOR_EACH_n (a :: as).length ([call] :: (a :: as).map fun t => [t])
      = some (((a :: as).map fun t => [call, Tok.lparen, t, Tok.rparen]).flatten) := by
  induction as generalizing a with
  | nil => rfl
  | cons b bs ih =>
    have hb : ∀ t ∈ b :: bs, t.plain = true := fun t ht => h t (List.mem_cons_of_mem _ ht)
    have hs : splitArgs ([call] ++ Tok.comma :: argList ((b :: bs).map fun t => [t]))
        = [call] :: (b :: bs).map fun t => [t] := by
      rw [List.singleton_append, splitArgs_cons_comma call _ (Tok.plain_ne3 call hc),
        splitArgs_argList b bs (fun u hu => Tok.plain_ne3 u (hb u hu))]
    show (_GMP_FOR_EACH_n ((b :: bs).length)
      (splitArgs ([call] ++ Tok.comma :: argList ((b :: bs).map fun t => [t])))).map _ = _
    rw [hs, ih b hb]
    simp [GMP_EXPAND]

/-- The macro `GMP_FOR_EACH` on a plain `call` and up to 254 plain arguments. -/
theorem GMP_FOR_EACH_plain (call : Tok) (hc : call.plain = true) (args : List Tok)
    (h : ∀ t ∈ args, t.plain = true) (hn : args.length ≤ 254) :
    GMP_FOR_EACH [call] (argList (args.map fun t => [t]))
      = some ((args.map fun t => [call, Tok.lparen, t, Tok.rparen]).flatten) := by
  have hs : ("_GMP_FOR_EACH" ++ "_" : String) = "_GMP_FOR_EACH_" := by decide
  have hf : ∀ n, n ≤ 254 → _GMP_FOR_EACH_ ("_GMP_FOR_EACH_" ++ toString n)
      = some (_GMP_FOR_EACH_n n) := by
    intro n hn
    simp only [_GMP_FOR_EACH_, indexed?_append, show n ≤ 255 by omega, if_true]
  have hX : ∀ n, GMP_OVERLOAD_INVOKE [Tok.ident "_GMP_FOR_EACH"] [Tok.nat n]
      = some [Tok.ident ("_GMP_FOR_EACH_" ++ toString n)] := by
    intro n
    rw [GMP_OVERLOAD_INVOKE_nat _ n (by decide), hs, rescan_ident _ (objectLike_FOR_EACH n)]
  simp only [GMP_FOR_EACH, map_GMP_EXPAND]
  cases args with
  | nil =>
    show (GMP_SIZE_OF_VAARGS []).bind _ = _
    rw [GMP_SIZE_OF_VAARGS_nil, Option.some_bind, hX 0, Option.some_bind,
      invoke_ident _ _ _ _ (hf 0 (by omega)), List.singleton_append,
      splitArgs_cons_comma call _ (Tok.plain_ne3 call hc)]
    rfl
  | cons a as =>
    rw [GMP_SIZE_OF_VAARGS_plain a as h hn, Option.some_bind, hX, Option.some_bind,
      invoke_ident _ _ _ _ (hf _ hn), List.singleton_append,
      splitArgs_cons_comma call _ (Tok.plain_ne3 call hc),
      splitArgs_argList a as (fun u hu => Tok.plain_ne3 u (h u hu))]
    exact _GMP_FOR_EACH_n_singles call hc a as h

/-- The chain `_GMP_MAKE_INDEX_SEQUENCE_n()`: the numbers from 0 to `n`. -/
theorem _GMP_MAKE_INDEX_SEQUENCE_n_eq (n : Nat) :
    _GMP_MAKE_INDEX_SEQUENCE_n n = argList ((List.range (n + 1)).map fun k => [Tok.nat k]) := by
  have key : ∀ (l : List Nat) (m : Nat), l ≠ [] →
      argList ((l ++ [m]).map fun k => [Tok.nat k])
        = argList (l.map fun k => [Tok.nat k]) ++ [Tok.comma, Tok.nat m] := by
    intro l m
    induction l with
    | nil => intro h; exact absurd rfl h
    | cons a l ih =>
      intro _
      cases l with
      | nil => rfl
      | cons b l =>
        have := ih (by simp)
        simp only [List.map_cons, List.cons_append, argList, List.append_eq] at this ⊢
        rw [this]
        simp
  induction n with
  | zero => rfl
  | succ n ih =>
    rw [_GMP_MAKE_INDEX_SEQUENCE_n, ih, List.range_succ (n := n + 1), key _ _ (by simp)]

/-- The macro `GMP_MAKE_INDEX_SEQUENCE` on a number from 1 to 254: the numbers
from 0 up to the one before it. -/
theorem GMP_MAKE_INDEX_SEQUENCE_nat (n : Nat) (h1 : 1 ≤ n) (h : n ≤ 254) :
    GMP_MAKE_INDEX_SEQUENCE [Tok.nat n]
      = some (argList ((List.range n).map fun k => [Tok.nat k])) := by
  have hs : ("_GMP_MAKE_INDEX_SEQUENCE" ++ "_" : String) = "_GMP_MAKE_INDEX_SEQUENCE_" := by
    decide
  have hP : GMP_OVERLOAD_INVOKE [Tok.ident "_GMP_MAKE_INDEX_SEQUENCE_PRECHECK"] [Tok.nat 1]
      = some [Tok.ident "_GMP_MAKE_INDEX_SEQUENCE_PRECHECK_1"] := by
    rw [GMP_OVERLOAD_INVOKE_nat _ 1 (by decide)]; decide
  have hf : _GMP_MAKE_INDEX_SEQUENCE_ ("_GMP_MAKE_INDEX_SEQUENCE_" ++ toString (n - 1))
      = some fun args =>
          if args = [[]] then some (_GMP_MAKE_INDEX_SEQUENCE_n (n - 1)) else none := by
    simp only [_GMP_MAKE_INDEX_SEQUENCE_, indexed?_append, show n - 1 ≤ 253 by omega, if_true]
  rw [GMP_MAKE_INDEX_SEQUENCE, GMP_CHECK_INDEX_BOOL_nat, Option.some_bind]
  simp only [h, if_true]
  rw [hP, Option.some_bind, invoke_ident _ "_GMP_MAKE_INDEX_SEQUENCE_PRECHECK_1" _ _ rfl]
  show _GMP_MAKE_INDEX_SEQUENCE_PRECHECK_1 [Tok.nat n] = _
  rw [_GMP_MAKE_INDEX_SEQUENCE_PRECHECK_1, GMP_DEC_nat n h1 (by omega), Option.some_bind,
    GMP_OVERLOAD_INVOKE_nat _ _ (by decide), hs,
    rescan_ident _ (objectLike_MAKE_INDEX_SEQUENCE _), Option.some_bind,
    invoke_ident _ _ _ _ hf]
  show some (_GMP_MAKE_INDEX_SEQUENCE_n (n - 1)) = _
  rw [_GMP_MAKE_INDEX_SEQUENCE_n_eq, Nat.sub_add_cancel h1]

/-! ### Deferred invocations and `GMP_EVAL` -/

/-- A token that is kept by a scan wherever it stands: anything but the name
of a deferred macro. -/
theorem scanDeferred_inert (t : Tok) (rest : Toks)
    (h : ∀ s, t = Tok.ident s → indirect? s = none) :
    scanDeferred none (t :: rest) = (scanDeferred none rest).map (t :: ·) := by
  cases t with
  | ident s =>
    have hs := h s rfl
    match rest with
    | [] => simp [scanDeferred]
    | Tok.lparen :: Tok.rparen :: Tok.lparen :: r => simp [scanDeferred, hs]
    | [Tok.lparen, Tok.rparen] => simp [scanDeferred, hs]
    | Tok.lparen :: Tok.rparen :: Tok.ident _ :: r => simp [scanDeferred, hs]
    | Tok.lparen :: Tok.rparen :: Tok.num _ :: r => simp [scanDeferred, hs]
    | Tok.lparen :: Tok.rparen :: Tok.other _ :: r => simp [scanDeferred, hs]
    | Tok.lparen :: Tok.rparen :: Tok.comma :: r => simp [scanDeferred, hs]
    | Tok.lparen :: Tok.rparen :: Tok.rparen :: r => simp [scanDeferred, hs]
    | [Tok.lparen] => simp [scanDeferred]
    | Tok.lparen :: Tok.ident _ :: r => simp [scanDeferred]
    | Tok.lparen :: Tok.num _ :: r => simp [scanDeferred]
    | Tok.lparen :: Tok.other _ :: r => simp [scanDeferred]
    | Tok.lparen :: Tok.comma :: r => simp [scanDeferred]
    | Tok.lparen :: Tok.lparen :: r => simp [scanDeferred]
    | Tok.ident _ :: r => simp [scanDeferred]
    | Tok.num _ :: r => simp [scanDeferred]
    | Tok.other _ :: r => simp [scanDeferred]
    | Tok.comma :: r => simp [scanDeferred]
    | Tok.rparen :: r => simp [scanDeferred]
  | num s => simp [scanDeferred]
  | other s => simp [scanDeferred]
  | comma => simp [scanDeferred]
  | lparen => simp [scanDeferred]
  | rparen => simp [scanDeferred]


/-- A plain identifier names no deferred macro. -/
theorem Tok.plain_inert (t : Tok) (h : t.plain = true) :
    ∀ s, t = Tok.ident s → indirect? s = none := by
  intro s hs
  subst hs
  unfold indirect?
  split_ifs with h1 h2
  · subst h1; exact absurd h (by decide)
  · subst h2; exact absurd h (by decide)
  · rfl

/-- Tokens that are kept by a scan, before any tokens. -/
theorem scanDeferred_inerts (P rest : Toks)
    (hP : ∀ t ∈ P, ∀ s, t = Tok.ident s → indirect? s = none) :
    scanDeferred none (P ++ rest) = (scanDeferred none rest).map (P ++ ·) := by
  induction P with
  | nil => simp
  | cons t P ih =>
    rw [List.cons_append, scanDeferred_inert t _ (hP t (List.mem_cons_self _ _)),
      ih (fun u hu => hP u (List.mem_cons_of_mem _ hu))]
    cases scanDeferred none rest <;> rfl

/-- A scan keeps a sequence without deferred names. -/
theorem scanDeferred_fixed (P : Toks)
    (hP : ∀ t ∈ P, ∀ s, t = Tok.ident s → indirect? s = none) :
    scanDeferred none P = some P := by
  have := scanDeferred_inerts P [] hP
  simpa [scanDeferred] using this

/-- Any number of scans keeps a sequence without deferred names. -/
theorem iterate_scanDeferred_fixed (P : Toks)
    (hP : ∀ t ∈ P, ∀ s, t = Tok.ident s → indirect? s = none) (m : Nat) :
    (fun o : Option Toks => o.bind (scanDeferred none))^[m] (some P) = some P := by
  induction m with
  | zero => rfl
  | succ m ih =>
    rw [Function.iterate_succ_apply]
    show (fun o : Option Toks => o.bind (scanDeferred none))^[m] (scanDeferred none P) = _
    rw [scanDeferred_fixed P hP, ih]

/-- Inside an invocation, tokens without parentheses are collected up to the
closing parenthesis, where the macro is invoked. -/
theorem scanDeferred_collect (M : List Toks → Option Toks) (P : Toks)
    (hP : ∀ t ∈ P, t ≠ Tok.lparen ∧ t ≠ Tok.rparen) (acc rest : Toks) :
    scanDeferred (some (M, 0, acc)) (P ++ Tok.rparen :: rest)
      = (M (splitArgs (acc ++ P))).bind fun r => (scanDeferred none rest).map (r ++ ·) := by
  induction P generalizing acc with
  | nil => simp [scanDeferred]
  | cons t P ih =>
    have ht := hP t (List.mem_cons_self _ _)
    have := ih (fun u hu => hP u (List.mem_cons_of_mem _ hu)) (acc ++ [t])
    rw [List.append_assoc, List.singleton_append] at this
    rw [← this]
    cases t <;> simp_all [scanDeferred]

/-- A deferred invocation `name () (args)` met by a scan: the macro that the
name gives is invoked on the arguments. -/
theorem scanDeferred_invoke (s impl : String) (M : List Toks → Option Toks)
    (h : indirect? s = some (impl, M)) (P : Toks)
    (hP : ∀ t ∈ P, t ≠ Tok.lparen ∧ t ≠ Tok.rparen) :
    scanDeferred none (Tok.ident s :: Tok.lparen :: Tok.rparen :: Tok.lparen :: P ++ [Tok.rparen])
      = M (splitArgs P) := by
  simp only [List.cons_append, scanDeferred, h]
  show scanDeferred (some (M, 0, [])) (P ++ Tok.rparen :: []) = _
  rw [scanDeferred_collect M P hP [] []]
  simp only [List.nil_append, scanDeferred, Option.map_some', List.append_nil]
  cases M (splitArgs P) <;> rfl

/-- The three-fold nesting of one level of `GMP_EVAL`: `3 * a + 1` scans when
the level below makes `a`. -/
theorem GMP_EVAL_level (E : Toks → Option Toks) (a : Nat)
    (hE : ∀ o : Option Toks, o.bind E = (fun o => o.bind (scanDeferred none))^[a] o)
    (o : Option Toks) :
    (o.bind fun va => (((scanDeferred none va).bind E).bind E).bind E)
      = (fun o : Option Toks => o.bind (scanDeferred none))^[3 * a + 1] o := by
  have h3 : 3 * a + 1 = a + (a + (a + 1)) := by omega
  rw [h3, Function.iterate_add_apply, Function.iterate_add_apply, Function.iterate_add_apply]
  cases o with
  | none =>
    simp only [Option.none_bind, Function.iterate_one]
    rw [← hE, ← hE, ← hE]
    rfl
  | some va =>
    simp only [Option.some_bind, Function.iterate_one]
    rw [← hE, ← hE, ← hE]

/-- The macro `GMP_EVAL` scans its argument 364 times. -/
theorem GMP_EVAL_eq (va : Toks) :
    GMP_EVAL va = (fun o : Option Toks => o.bind (scanDeferred none))^[364] (some va) := by
  have h5 : ∀ o : Option Toks, o.bind GMP_EVAL_5
      = (fun o => o.bind (scanDeferred none))^[1] o := fun o => rfl
  have h4 : ∀ o : Option Toks, o.bind GMP_EVAL_4
      = (fun o => o.bind (scanDeferred none))^[4] o := GMP_EVAL_level GMP_EVAL_5 1 h5
  have h3 : ∀ o : Option Toks, o.bind GMP_EVAL_3
      = (fun o => o.bind (scanDeferred none))^[13] o := GMP_EVAL_level GMP_EVAL_4 4 h4
  have h2 : ∀ o : Option Toks, o.bind GMP_EVAL_2
      = (fun o => o.bind (scanDeferred none))^[40] o := GMP_EVAL_level GMP_EVAL_3 13 h3
  have h1 : ∀ o : Option Toks, o.bind GMP_EVAL_1
      = (fun o => o.bind (scanDeferred none))^[121] o := GMP_EVAL_level GMP_EVAL_2 40 h2
  exact GMP_EVAL_level GMP_EVAL_1 121 h1 (some va)

/-! ### `GMP_LOOP` -/

/-- A token of an argument list of single tokens is a comma or one of them. -/
theorem mem_argList_singles (args : List Tok) (t : Tok)
    (ht : t ∈ argList (args.map fun u => [u])) : t = Tok.comma ∨ t ∈ args := by
  induction args with
  | nil => simp [argList] at ht
  | cons a as ih =>
    cases as with
    | nil =>
      simp only [List.map_cons, List.map_nil, argList, List.mem_singleton] at ht
      exact Or.inr (by simp [ht])
    | cons b bs =>
      simp only [List.map_cons, argList, List.singleton_append, List.mem_cons] at ht ih
      rcases ht with rfl | rfl | ht
      · exact Or.inr (List.mem_cons_self _ _)
      · exact Or.inl rfl
      · rcases ih ht with h | h
        · exact Or.inl h
        · exact Or.inr (List.mem_cons_of_mem _ (by simpa using h))

/-- An argument list of plain tokens holds no deferred name. -/
theorem argList_inert (args : List Tok) (h : ∀ t ∈ args, t.plain = true) :
    ∀ t ∈ argList (args.map fun u => [u]), ∀ s, t = Tok.ident s → indirect? s = none := by
  intro t ht s hs
  rcases mem_argList_singles args t ht with rfl | hm
  · cases hs
  · exact Tok.plain_inert t (h t hm) s hs

/-- An argument list of plain tokens, split and joined again, is the same. -/
theorem argList_splitArgs_singles (args : List Tok) (h : ∀ t ∈ args, t.plain = true) :
    argList (splitArgs (argList (args.map fun u => [u]))) = argList (args.map fun u => [u]) := by
  rw [splitArgs_singles args fun u hu => Tok.plain_ne3 u (h u hu)]
  split_ifs with he
  · subst he; rfl
  · rfl

/-- The arguments of `(call, count, args)`. -/
theorem splitArgs_loop (call count : Tok) (hc : call.plain = true) (hn : count.plain = true)
    (va : Toks) :
    splitArgs ([call] ++ Tok.comma :: [count] ++ Tok.comma :: va)
      = [call] :: [count] :: splitArgs va := by
  simp only [List.singleton_append, List.cons_append, List.nil_append]
  rw [splitArgs_cons_comma call _ (Tok.plain_ne3 call hc),
    splitArgs_cons_comma count _ (Tok.plain_ne3 count hn)]

/-- The macro `_GMP_LOOP_IMPL` at count 0 expands to nothing. -/
theorem _GMP_LOOP_IMPL_zero (call : Tok) (hc : call.plain = true) (va : Toks) :
    _GMP_LOOP_IMPL [call] [Tok.nat 0] va = some [] := by
  have hX : GMP_OVERLOAD_INVOKE [Tok.ident "_GMP_LOOP_IMPL_END"] [Tok.nat 1]
      = some [Tok.ident "_GMP_LOOP_IMPL_END_1"] := by
    rw [GMP_OVERLOAD_INVOKE_nat _ 1 (by decide)]; decide
  rw [_GMP_LOOP_IMPL, GMP_EQUAL_INT_nat 0 0 (by omega) (by omega), Option.some_bind]
  simp only [if_true]
  rw [hX, Option.some_bind, invoke_ident _ "_GMP_LOOP_IMPL_END_1" _ _ rfl,
    splitArgs_loop call _ hc (Tok.nat_plain 0)]
  rfl

/-- The macro `_GMP_LOOP_IMPL` at a count from 1 to 254: one `call(args)` and
the deferred invocation for the count before. -/
theorem _GMP_LOOP_IMPL_succ (call : Tok) (hc : call.plain = true) (args : List Tok)
    (h : ∀ t ∈ args, t.plain = true) (c : Nat) (hn : c + 1 ≤ 254) :
    _GMP_LOOP_IMPL [call] [Tok.nat (c + 1)] (argList (args.map fun u => [u]))
      = some ((call :: Tok.lparen :: argList (args.map fun u => [u]) ++ [Tok.rparen])
          ++ (Tok.ident "_GMP_LOOP_INDIRECT" :: Tok.lparen :: Tok.rparen :: Tok.lparen
            :: (call :: Tok.comma :: Tok.nat c :: Tok.comma :: argList (args.map fun u => [u]))
            ++ [Tok.rparen])) := by
  have hX : GMP_OVERLOAD_INVOKE [Tok.ident "_GMP_LOOP_IMPL_END"] [Tok.nat 0]
      = some [Tok.ident "_GMP_LOOP_IMPL_END_0"] := by
    rw [GMP_OVERLOAD_INVOKE_nat _ 0 (by decide)]; decide
  rw [_GMP_LOOP_IMPL, GMP_EQUAL_INT_nat 0 (c + 1) (by omega) hn, Option.some_bind]
  simp only [show ¬ (0 = c + 1) by omega, if_false]
  rw [hX, Option.some_bind, invoke_ident _ "_GMP_LOOP_IMPL_END_0" _ _ rfl,
    splitArgs_loop call _ hc (Tok.nat_plain _)]
  show _GMP_LOOP_IMPL_END_0 [call] [Tok.nat (c + 1)]
    (argList (splitArgs (argList (args.map fun u => [u])))) = _
  rw [argList_splitArgs_singles args h, _GMP_LOOP_IMPL_END_0,
    GMP_DEC_nat (c + 1) (by omega) (by omega)]
  simp [GMP_DEFER, GMP_EMPTY]

/-- After enough scans, the expansion of `_GMP_LOOP_IMPL` at a count up to 254
is that many copies of `call(args)`, whatever kept tokens stand before it. -/
theorem _GMP_LOOP_IMPL_scans (call : Tok) (hc : call.plain = true) (args : List Tok)
    (h : ∀ t ∈ args, t.plain = true) (c : Nat) (hn : c ≤ 254) :
    ∃ X, _GMP_LOOP_IMPL [call] [Tok.nat c] (argList (args.map fun u => [u])) = some X
      ∧ ∀ (P : Toks), (∀ t ∈ P, ∀ s, t = Tok.ident s → indirect? s = none) →
        ∀ m, c ≤ m →
          (fun o : Option Toks => o.bind (scanDeferred none))^[m] (some (P ++ X))
            = some (P ++ (List.replicate c
                (call :: Tok.lparen :: argList (args.map fun u => [u]) ++ [Tok.rparen])).flatten) := by
  induction c with
  | zero =>
    refine ⟨[], _GMP_LOOP_IMPL_zero call hc _, fun P hP m _ => ?_⟩
    simpa using iterate_scanDeferred_fixed P hP m
  | succ c ih =>
    obtain ⟨X, hX, hscan⟩ := ih (by omega)
    refine ⟨_, _GMP_LOOP_IMPL_succ call hc args h c hn, fun P hP m hm => ?_⟩
    obtain ⟨m, rfl⟩ : ∃ k, m = k + 1 := ⟨m - 1, by omega⟩
    have hva := argList_plain args h
    have hU : ∀ t ∈ P ++ (call :: Tok.lparen :: argList (args.map fun u => [u]) ++ [Tok.rparen]),
        ∀ s, t = Tok.ident s → indirect? s = none := by
      intro t ht s hs
      simp only [List.mem_append, List.mem_cons, List.mem_singleton, List.cons_append] at ht
      rcases ht with ht | rfl | rfl | ht | rfl | ht
      · exact hP t ht s hs
      · exact Tok.plain_inert _ hc s hs
      · cases hs
      · exact argList_inert args h t ht s hs
      · cases hs
      · cases ht
    have hD : ∀ t ∈ call :: Tok.comma :: Tok.nat c :: Tok.comma :: argList (args.map fun u => [u]),
        t ≠ Tok.lparen ∧ t ≠ Tok.rparen := by
      intro t ht
      simp only [List.mem_cons] at ht
      rcases ht with rfl | rfl | rfl | rfl | ht
      · exact ⟨(Tok.plain_ne3 _ hc).2.1, (Tok.plain_ne3 _ hc).2.2⟩
      · simp
      · exact ⟨(Tok.nat_ne c).2.1, (Tok.nat_ne c).2.2⟩
      · simp
      · exact ⟨(hva.1 t ht).1, (hva.1 t ht).2.1⟩
    rw [Function.iterate_succ_apply]
    show (fun o : Option Toks => o.bind (scanDeferred none))^[m] (scanDeferred none _) = _
    rw [← List.append_assoc, scanDeferred_inerts _ _ hU,
      scanDeferred_invoke "_GMP_LOOP_INDIRECT" _ _ rfl _ hD]
    have hM : splitArgs (call :: Tok.comma :: Tok.nat c :: Tok.comma
        :: argList (args.map fun u => [u]))
        = [call] :: [Tok.nat c] :: splitArgs (argList (args.map fun u => [u])) := by
      rw [splitArgs_cons_comma call _ (Tok.plain_ne3 call hc),
        splitArgs_cons_comma _ _ (Tok.nat_ne c)]
    rw [hM]
    show (fun o : Option Toks => o.bind (scanDeferred none))^[m]
      ((_GMP_LOOP_IMPL [call] [Tok.nat c]
        (argList (splitArgs (argList (args.map fun u => [u]))))).map _) = _
    rw [argList_splitArgs_singles args h, hX, Option.map_some', hscan _ hU m (by omega)]
    simp [List.replicate_succ]

/-- The macro `GMP_LOOP` on a plain `call`, a count up to 254 and plain
arguments: that many copies of `call(args)`. -/
theorem GMP_LOOP_plain (call : Tok) (hc : call.plain = true) (args : List Tok)
    (h : ∀ t ∈ args, t.plain = true) (c : Nat) (hn : c ≤ 254) :
    GMP_LOOP [call] [Tok.nat c] (argList (args.map fun u => [u]))
      = some ((List.replicate c
          (call :: Tok.lparen :: argList (args.map fun u => [u]) ++ [Tok.rparen])).flatten) := by
  have hX : GMP_OVERLOAD_INVOKE [Tok.ident "_GMP_LOOP_PRECHECK"] [Tok.nat 1]
      = some [Tok.ident "_GMP_LOOP_PRECHECK_1"] := by
    rw [GMP_OVERLOAD_INVOKE_nat _ 1 (by decide)]; decide
  obtain ⟨X, hI, hscan⟩ := _GMP_LOOP_IMPL_scans call hc args h c hn
  rw [GMP_LOOP, GMP_CHECK_INDEX_BOOL_nat, Option.some_bind]
  simp only [hn, if_true]
  rw [hX, Option.some_bind, invoke_ident _ "_GMP_LOOP_PRECHECK_1" _ _ rfl,
    splitArgs_loop call _ hc (Tok.nat_plain _)]
  show _GMP_LOOP_PRECHECK_1 [call] [Tok.nat c]
    (argList (splitArgs (argList (args.map fun u => [u])))) = _
  rw [argList_splitArgs_singles args h, _GMP_LOOP_PRECHECK_1, hI, Option.some_bind, GMP_EVAL_eq]
  have hfin := hscan [] (fun t ht => by cases ht) 364 (by omega)
  rw [List.nil_append, List.nil_append] at hfin
  exact hfin

/-! ### `GMP_RANGE` -/

/-- The arguments of `(cur, end)`. -/
theorem splitArgs_pair (a b : Nat) :
    splitArgs ([Tok.nat a] ++ Tok.comma :: [Tok.nat b]) = [[Tok.nat a], [Tok.nat b]] := by
  have := splitArgs_argList (Tok.nat a) [Tok.nat b] (by
    intro u hu
    simp only [List.mem_cons, List.mem_singleton, List.not_mem_nil, or_false] at hu
    rcases hu with rfl | rfl <;> exact Tok.nat_ne _)
  simpa [argList] using this

/-- The macro `_GMP_RANGE_IMPL` when `begin` is the number before `end`: the
number `begin` alone. -/
theorem _GMP_RANGE_IMPL_last (b e : Nat) (hb : b + 1 = e) (he : e ≤ 255) :
    _GMP_RANGE_IMPL [Tok.nat b] [Tok.nat e] = some [Tok.nat b] := by
  have hX : GMP_OVERLOAD_INVOKE [Tok.ident "_GMP_RANGE_GEN_WHEN"] [Tok.nat 1]
      = some [Tok.ident "_GMP_RANGE_GEN_WHEN_1"] := by
    rw [GMP_OVERLOAD_INVOKE_nat _ 1 (by decide)]; decide
  rw [_GMP_RANGE_IMPL, GMP_DEC_nat e (by omega) he, Option.some_bind,
    GMP_EQUAL_INT_nat b (e - 1) (by omega) (by omega), Option.some_bind]
  simp only [show b = e - 1 by omega, if_true]
  rw [hX, Option.some_bind, GMP_INC_nat _ (by omega), Option.some_bind,
    invoke_ident _ "_GMP_RANGE_GEN_WHEN_1" _ _ rfl, splitArgs_pair]
  rfl

/-- The macro `_GMP_RANGE_IMPL` when `begin` is further below `end`: the
number `begin`, a comma and the deferred invocation for the next number. -/
theorem _GMP_RANGE_IMPL_next (b e : Nat) (hb : b + 1 < e) (he : e ≤ 255) :
    _GMP_RANGE_IMPL [Tok.nat b] [Tok.nat e]
      = some ([Tok.nat b, Tok.comma]
          ++ (Tok.ident "_GMP_RANGE_INDIRECT" :: Tok.lparen :: Tok.rparen :: Tok.lparen
            :: [Tok.nat (b + 1), Tok.comma, Tok.nat e] ++ [Tok.rparen])) := by
  have hX : GMP_OVERLOAD_INVOKE [Tok.ident "_GMP_RANGE_GEN_WHEN"] [Tok.nat 0]
      = some [Tok.ident "_GMP_RANGE_GEN_WHEN_0"] := by
    rw [GMP_OVERLOAD_INVOKE_nat _ 0 (by decide)]; decide
  rw [_GMP_RANGE_IMPL, GMP_DEC_nat e (by omega) he, Option.some_bind,
    GMP_EQUAL_INT_nat b (e - 1) (by omega) (by omega), Option.some_bind]
  simp only [show ¬ (b = e - 1) by omega, if_false]
  rw [hX, Option.some_bind, GMP_INC_nat _ (by omega), Option.some_bind,
    invoke_ident _ "_GMP_RANGE_GEN_WHEN_0" _ _ rfl, splitArgs_pair]
  rfl


/-- After enough scans, the expansion of `_GMP_RANGE_IMPL(b, e)` is the numbers
from `b` to the one before `e`, whatever kept tokens stand before it. -/
theorem _GMP_RANGE_IMPL_scans (e : Nat) (he : e ≤ 255) (k : Nat) :
    ∀ b, b + k + 1 = e →
      ∃ X, _GMP_RANGE_IMPL [Tok.nat b] [Tok.nat e] = some X
        ∧ ∀ (P : Toks), (∀ t ∈ P, ∀ s, t = Tok.ident s → indirect? s = none) →
          ∀ m, k ≤ m →
            (fun o : Option Toks => o.bind (scanDeferred none))^[m] (some (P ++ X))
              = some (P ++ argList ((List.range' b (k + 1)).map fun n => [Tok.nat n])) := by
  induction k with
  | zero =>
    intro b hb
    refine ⟨_, _GMP_RANGE_IMPL_last b e (by omega) he, fun P hP m _ => ?_⟩
    have hi : ∀ t ∈ P ++ [Tok.nat b], ∀ s, t = Tok.ident s → indirect? s = none := by
      intro t ht s hs
      simp only [List.mem_append, List.mem_singleton] at ht
      rcases ht with ht | rfl
      · exact hP t ht s hs
      · cases hs
    exact iterate_scanDeferred_fixed _ hi m
  | succ k ih =>
    intro b hb
    obtain ⟨X, hX, hscan⟩ := ih (b + 1) (by omega)
    refine ⟨_, _GMP_RANGE_IMPL_next b e (by omega) he, fun P hP m hm => ?_⟩
    obtain ⟨m, rfl⟩ : ∃ j, m = j + 1 := ⟨m - 1, by omega⟩
    have hU : ∀ t ∈ P ++ [Tok.nat b, Tok.comma],
        ∀ s, t = Tok.ident s → indirect? s = none := by
      intro t ht s hs
      simp only [List.mem_append, List.mem_cons, List.mem_singleton] at ht
      rcases ht with ht | rfl | rfl | ht
      · exact hP t ht s hs
      · cases hs
      · cases hs
      · cases ht
    have hD : ∀ t ∈ [Tok.nat (b + 1), Tok.comma, Tok.nat e],
        t ≠ Tok.lparen ∧ t ≠ Tok.rparen := by
      intro t ht
      simp only [List.mem_cons, List.mem_singleton] at ht
      rcases ht with rfl | rfl | rfl | ht
      · exact ⟨(Tok.nat_ne _).2.1, (Tok.nat_ne _).2.2⟩
      · simp
      · exact ⟨(Tok.nat_ne _).2.1, (Tok.nat_ne _).2.2⟩
      · cases ht
    rw [Function.iterate_succ_apply]
    show (fun o : Option Toks => o.bind (scanDeferred none))^[m] (scanDeferred none _) = _
    rw [← List.append_assoc, scanDeferred_inerts _ _ hU,
      scanDeferred_invoke "_GMP_RANGE_INDIRECT" _ _ rfl _ hD]
    have hM : splitArgs [Tok.nat (b + 1), Tok.comma, Tok.nat e]
        = [[Tok.nat (b + 1)], [Tok.nat e]] := splitArgs_pair (b + 1) e
    rw [hM]
    show (fun o : Option Toks => o.bind (scanDeferred none))^[m]
      ((_GMP_RANGE_IMPL [Tok.nat (b + 1)] [Tok.nat e]).map _) = _
    rw [hX, Option.map_some', hscan _ hU m (by omega)]
    have hr : List.range' b (k + 1 + 1) = b :: List.range' (b + 1) (k + 1) := rfl
    have hr2 : List.range' (b + 1) (k + 1) = (b + 1) :: List.range' (b + 1 + 1) k := rfl
    rw [hr, hr2]
    simp [argList]

/-- The macro `GMP_RANGE` on numbers `b < e` with `e` up to 254: the numbers
from `b` to the one before `e`. -/
theorem GMP_RANGE_nat (b e : Nat) (hb : b < e) (he : e ≤ 254) :
    GMP_RANGE [Tok.nat b] [Tok.nat e]
      = some (argList ((List.range' b (e - b)).map fun n => [Tok.nat n])) := by
  have hX : GMP_OVERLOAD_INVOKE [Tok.ident "_GMP_RANGE_PRECHECK"] [Tok.nat 1]
      = some [Tok.ident "_GMP_RANGE_PRECHECK_1"] := by
    rw [GMP_OVERLOAD_INVOKE_nat _ 1 (by decide)]; decide
  obtain ⟨X, hI, hscan⟩ := _GMP_RANGE_IMPL_scans e (by omega) (e - b - 1) b (by omega)
  rw [GMP_RANGE, GMP_CHECK_INDEX_BOOL_nat, Option.some_bind]
  simp only [he, if_true]
  rw [hX, Option.some_bind, invoke_ident _ "_GMP_RANGE_PRECHECK_1" _ _ rfl, splitArgs_pair]
  show _GMP_RANGE_PRECHECK_1 [Tok.nat b] [Tok.nat e] = _
  rw [_GMP_RANGE_PRECHECK_1, hI, Option.some_bind, GMP_EVAL_eq]
  have hfin := hscan [] (fun t ht => by cases ht) 364 (by omega)
  rw [List.nil_append, List.nil_append, show e - b - 1 + 1 = e - b by omega] at hfin
  exact hfin

/-! ### `GMP_NOT`, `GMP_AND`, `GMP_BOOL` -/

/-- No name `_GMP_NOT_n` with `n` above 1 is an object-like macro. -/
theorem objectLike_NOT (n : Nat) (h : 2 ≤ n) : objectLike ("_GMP_NOT_" ++ toString n) = none := by
  unfold objectLike
  rw [indexed?_append_none _ _ _ (by decide) (by decide),
    indexed2?_append_none _ _ _ (by decide) (by decide)]
  refine lookup_objectLikeNamed_none
    (fun s => match indexed? "_GMP_NOT_" s with | some k => decide (2 ≤ k) | none => false) _ ?_
    (by decide)
  simp only [indexed?_append]
  exact decide_eq_true h

/-- No name `_GMP_BOOL_n` with `n` above 0 is an object-like macro. -/
theorem objectLike_BOOL (n : Nat) (h : 1 ≤ n) :
    objectLike ("_GMP_BOOL_" ++ toString n) = none := by
  unfold objectLike
  rw [indexed?_append_none _ _ _ (by decide) (by decide),
    indexed2?_append_none _ _ _ (by decide) (by decide)]
  refine lookup_objectLikeNamed_none
    (fun s => match indexed? "_GMP_BOOL_" s with | some k => decide (1 ≤ k) | none => false) _ ?_
    (by decide)
  simp only [indexed?_append]
  exact decide_eq_true h

/-- The macro `GMP_NOT` on the numbers 0 and 1. -/
theorem GMP_NOT_bool : GMP_NOT [Tok.nat 0] = some [Tok.nat 1]
    ∧ GMP_NOT [Tok.nat 1] = some [Tok.nat 0] := by
  constructor
  · rw [GMP_NOT, GMP_OVERLOAD_INVOKE_nat _ 0 (by decide)]; decide
  · rw [GMP_NOT, GMP_OVERLOAD_INVOKE_nat _ 1 (by decide)]; decide

/-- The macro `GMP_NOT` on a number above 1: the pasted name, which is no macro. -/
theorem GMP_NOT_nat (n : Nat) (h : 2 ≤ n) :
    GMP_NOT [Tok.nat n] = some [Tok.ident ("_GMP_NOT_" ++ toString n)] := by
  have hs : ("_GMP_NOT" ++ "_" : String) = "_GMP_NOT_" := by decide
  rw [GMP_NOT, GMP_OVERLOAD_INVOKE_nat _ n (by decide), hs, rescan_ident _ (objectLike_NOT n h)]

/-- The macro `GMP_BOOL` on 0. -/
theorem GMP_BOOL_zero : GMP_BOOL [Tok.nat 0] = some [Tok.nat 0] := by
  rw [GMP_BOOL, GMP_OVERLOAD_INVOKE_nat _ 0 (by decide)]; decide

/-- The macro `GMP_BOOL` on a number above 0: the name of the function-like
macro `_GMP_BOOL_n`, not invoked. -/
theorem GMP_BOOL_nat (n : Nat) (h : 1 ≤ n) :
    GMP_BOOL [Tok.nat n] = some [Tok.ident ("_GMP_BOOL_" ++ toString n)] := by
  have hs : ("_GMP_BOOL" ++ "_" : String) = "_GMP_BOOL_" := by decide
  rw [GMP_BOOL, GMP_OVERLOAD_INVOKE_nat _ n (by decide), hs, rescan_ident _ (objectLike_BOOL n h)]

/-- The name that `GMP_BOOL` leaves for a number from 1 to 255 expands to `1`
once `()` follows it. -/
theorem GMP_BOOL_invoked (n : Nat) (h1 : 1 ≤ n) (h : n ≤ 255) :
    (GMP_BOOL [Tok.nat n]).bind (fun X => invoke _GMP_BOOL_ X []) = some [Tok.nat 1] := by
  have hf : _GMP_BOOL_ ("_GMP_BOOL_" ++ toString n)
      = some fun args => if args = [[]] then some [Tok.nat 1] else none := by
    simp only [_GMP_BOOL_, indexed?_append, h, h1, and_self, if_true]
  rw [GMP_BOOL_nat n h1, Option.some_bind, invoke_ident _ _ _ _ hf]
  rfl

/-- The macro `GMP_AND` on operands 0 and 1. -/
theorem GMP_AND_bool (a b : Nat) (ha : a ≤ 1) (hb : b ≤ 1) :
    GMP_AND [Tok.nat a] [Tok.nat b] = some [Tok.nat (if a = 1 ∧ b = 1 then 1 else 0)] := by
  have key : ∀ x y : Nat, x ≤ 1 → y ≤ 1 →
      (∀ s ∈ overloadSteps "_GMP_AND" [Tok.nat x, Tok.nat y], objectLike s = none)
        ∧ rescan [Tok.ident (overloadName "_GMP_AND" [Tok.nat x, Tok.nat y])]
          = [Tok.nat (if x = 1 ∧ y = 1 then 1 else 0)] := by
    intro x y hx hy
    interval_cases x <;> interval_cases y <;> decide
  obtain ⟨hsteps, hres⟩ := key a b ha hb
  have := GMP_OVERLOAD_INVOKE_ident "_GMP_AND" [Tok.nat a, Tok.nat b] (by simp) (by simp)
    (by simp [Tok.nat_plain]) (by simp [Tok.nat_pastable]) hsteps
  rw [hres] at this
  simpa [GMP_AND, argList] using this

/-! ### `type_list_unique` keeps first occurrences -/

/-- Invariant of `type_list_unique_impl`, in full: started with the size of
`Types` and the flag telling whether `CompType` is in `NewTypes`, the result is
`NewTypes` followed by the first occurrences among `CompType, Types...` of the
types that are not in `NewTypes`. -/
theorem type_list_unique_impl_eq {α : Type} [DecidableEq α] (Types NewTypes : List α)
    (CompType : α) :
    type_list_unique_impl Types.length NewTypes Types CompType
        (type_list_contains_v CompType NewTypes)
      = some (NewTypes
          ++ (keepFirstOccurrences (CompType :: Types)).filter fun U => decide (U ∉ NewTypes)) := by
  induction Types generalizing NewTypes CompType with
  | nil =>
    by_cases hc : CompType ∈ NewTypes
    · simp [type_list_unique_impl, type_list_contains_v_eq, hc, keepFirstOccurrences]
    · simp [type_list_unique_impl, type_list_contains_v_eq, hc, keepFirstOccurrences]
  | cons Head Types ih =>
    by_cases hc : CompType ∈ NewTypes
    · have hcf : type_list_contains_v CompType NewTypes = true := by
        simp [type_list_contains_v_eq, hc]
      rw [hcf]
      show type_list_unique_impl Types.length NewTypes Types Head
        (type_list_contains_v Head NewTypes) = _
      rw [ih NewTypes Head]
      congr 2
      rw [keepFirstOccurrences.eq_2 CompType (Head :: Types), List.filter_cons]
      simp only [hc, not_true_eq_false, decide_False, Bool.false_eq_true, if_false,
        List.filter_filter]
      apply List.filter_congr
      intro U _
      by_cases hU : U ∈ NewTypes
      · simp [hU]
      · have : U ≠ CompType := fun e => hU (e ▸ hc)
        simp [hU, this]
    · have hcf : type_list_contains_v CompType NewTypes = false := by
        simp [type_list_contains_v_eq, hc]
      rw [hcf]
      show type_list_unique_impl Types.length (NewTypes ++ [CompType]) Types Head
        (type_list_contains_v Head (NewTypes ++ [CompType])) = _
      rw [ih (NewTypes ++ [CompType]) Head]
      rw [keepFirstOccurrences.eq_2 CompType (Head :: Types), List.filter_cons]
      simp only [hc, not_false_eq_true, decide_True, if_true, List.filter_filter,
        List.append_assoc, List.singleton_append]
      congr 3
      apply List.filter_congr
      intro U _
      simp only [List.mem_append, List.mem_singleton, not_or, ne_eq, Bool.decide_and,
        Bool.and_comm]

/-- What is kept is a subsequence of the list. -/
theorem keepFirstOccurrences_sublist {α : Type} [DecidableEq α] (L : List α) :
    (keepFirstOccurrences L).Sublist L := by
  induction L with
  | nil => exact List.Sublist.slnil
  | cons T rest ih =>
    rw [keepFirstOccurrences]
    exact ((List.filter_sublist _).trans ih).cons₂ T

/-- What is kept of a list with one more element at the end: the element is
added exactly when it does not occur before. -/
theorem keepFirstOccurrences_concat {α : Type} [DecidableEq α] (L : List α) (T : α) :
    keepFirstOccurrences (L ++ [T])
      = if T ∈ L then keepFirstOccurrences L else keepFirstOccurrences L ++ [T] := by
  induction L with
  | nil => simp [keepFirstOccurrences]
  | cons A rest ih =>
    rw [List.cons_append, keepFirstOccurrences, ih, keepFirstOccurrences]
    by_cases hA : T = A
    · subst hA
      by_cases hr : T ∈ rest
      · simp [hr]
      · simp [hr, List.filter_append]
    · by_cases hr : T ∈ rest
      · simp [hr, hA]
      · simp [hr, hA, List.filter_append]

/-! ### `GMP_SIZE_OF_VAARGS` beyond 254 arguments -/

/-- The argument list of single tokens put one after another. -/
theorem argList_append_singles (front back : List Tok) (hf : front ≠ []) (hb : back ≠ []) :
    argList ((front ++ back).map fun u => [u])
      = argList (front.map fun u => [u]) ++ Tok.comma :: argList (back.map fun u => [u]) := by
  induction front with
  | nil => exact absurd rfl hf
  | cons a front ih =>
    cases front with
    | nil =>
      cases back with
      | nil => exact absurd rfl hb
      | cons b back => rfl
    | cons c front =>
      have := ih (by simp)
      simp only [List.cons_append, List.map_cons, argList, List.singleton_append,
        List.append_eq, List.nil_append] at this ⊢
      rw [this]

/-- The 256th argument, when 254 commas stand before it and a comma follows it. -/
theorem getElem?_splitArgs_255 (F : Toks) (hF : ∀ t ∈ F, t ≠ Tok.lparen ∧ t ≠ Tok.rparen)
    (hc : F.count Tok.comma = 254) (w : Tok)
    (hw : w ≠ Tok.comma ∧ w ≠ Tok.lparen ∧ w ≠ Tok.rparen) (rest : Toks) :
    (splitArgs (F ++ Tok.comma :: w :: Tok.comma :: rest))[255]? = some [w] := by
  obtain ⟨front, hlen, hsplit⟩ := splitArgs_flat_comma F [] hF (Or.inl rfl)
  have := hsplit (w :: Tok.comma :: rest)
  rw [List.append_nil] at this
  rw [this, splitArgs_cons_comma w rest hw, List.getElem?_append_right (by omega)]
  simp [hlen, hc]

/-- The 256th argument, when 254 commas stand before it and `()` and a comma
follow it. -/
theorem getElem?_splitArgs_255_call (F : Toks)
    (hF : ∀ t ∈ F, t ≠ Tok.lparen ∧ t ≠ Tok.rparen)
    (hc : F.count Tok.comma = 254) (w : Tok)
    (hw : w ≠ Tok.comma ∧ w ≠ Tok.lparen ∧ w ≠ Tok.rparen) (rest : Toks) :
    (splitArgs (F ++ Tok.comma :: w :: Tok.lparen :: Tok.rparen :: Tok.comma :: rest))[255]?
      = some [w, Tok.lparen, Tok.rparen] := by
  obtain ⟨front, hlen, hsplit⟩ := splitArgs_flat_comma F [] hF (Or.inl rfl)
  have := hsplit (w :: Tok.lparen :: Tok.rparen :: Tok.comma :: rest)
  rw [List.append_nil] at this
  have h2 : splitArgs (w :: Tok.lparen :: Tok.rparen :: Tok.comma :: rest)
      = [w, Tok.lparen, Tok.rparen] :: splitArgs rest := by
    simp only [splitArgs]
    rw [splitArgsAux_atom 0 [] _ w hw.1 hw.2.1 hw.2.2]
    simp [splitArgsAux]
  rw [this, h2, List.getElem?_append_right (by omega)]
  simp [hlen, hc]


/-- An argument list of plain tokens, cut before its argument `i`. -/
theorem argList_cut (args : List Tok) (i : Nat) (h0 : 0 < i) (hi : i < args.length) :
    argList (args.map fun u => [u])
      = argList ((args.take i).map fun u => [u])
        ++ Tok.comma :: argList ((args[i] :: args.drop (i + 1)).map fun u => [u]) := by
  have h := List.take_append_drop i args
  rw [List.drop_eq_getElem_cons hi] at h
  conv_lhs => rw [← h]
  have hlen : (args.take i).length = i := by rw [List.length_take]; omega
  exact argList_append_singles (args.take i) (args[i] :: args.drop (i + 1))
    (List.ne_nil_of_length_pos (by omega)) (List.cons_ne_nil _ _)

/-- The tokens of the arguments before argument `i`: no parenthesis, and
`i - 1` commas. -/
theorem argList_take_plain (args : List Tok) (h : ∀ t ∈ args, t.plain = true) (i : Nat)
    (hi : i ≤ args.length) :
    (∀ t ∈ argList ((args.take i).map fun u => [u]), t ≠ Tok.lparen ∧ t ≠ Tok.rparen)
      ∧ (argList ((args.take i).map fun u => [u])).count Tok.comma = i - 1 := by
  obtain ⟨h1, h2⟩ := argList_plain (args.take i) fun t ht => h t (List.mem_of_mem_take ht)
  refine ⟨fun t ht => ⟨(h1 t ht).1, (h1 t ht).2.1⟩, ?_⟩
  rw [h2, List.length_take, Nat.min_eq_left hi]

/-- The 256th argument of an invocation whose arguments are 256 or more plain
tokens, possibly after the tokens `pre` and before the tokens `q`, and further
arguments `rest`: the 256th token; when it is the last of them, `q` goes with it. -/
theorem getElem?_splitArgs_many (args : List Tok) (h : ∀ t ∈ args, t.plain = true)
    (hn : 256 ≤ args.length) (pre q rest : Toks)
    (hpre : ∀ t ∈ pre, t ≠ Tok.comma ∧ t ≠ Tok.lparen ∧ t ≠ Tok.rparen)
    (hq : q = [] ∨ q = [Tok.lparen, Tok.rparen]) :
    (splitArgs (pre ++ argList (args.map fun u => [u]) ++ q ++ Tok.comma :: rest))[255]?
      = some (if args.length = 256 then args[255] :: q else [args[255]]) := by
  obtain ⟨hF, hc⟩ := argList_take_plain args h 255 (by omega)
  have hw := Tok.plain_ne3 _ (h args[255] (List.getElem_mem _))
  have hF2 : ∀ t ∈ pre ++ argList ((args.take 255).map fun u => [u]),
      t ≠ Tok.lparen ∧ t ≠ Tok.rparen := by
    intro t ht
    rcases List.mem_append.mp ht with ht | ht
    · exact ⟨(hpre t ht).2.1, (hpre t ht).2.2⟩
    · exact hF t ht
  have hc2 : (pre ++ argList ((args.take 255).map fun u => [u])).count Tok.comma = 254 := by
    rw [List.count_append, hc, List.count_eq_zero.mpr (fun hm => (hpre _ hm).1 rfl)]
  rw [argList_cut args 255 (by omega) (by omega)]
  rcases hb : args.drop (255 + 1) with _ | ⟨b, back⟩
  · have hlen : args.length = 256 := by
      have := congrArg List.length hb
      simp at this
      omega
    simp only [hlen, if_true, List.map_cons, List.map_nil, argList]
    rcases hq with rfl | rfl
    · have := getElem?_splitArgs_255 _ hF2 hc2 args[255] hw rest
      simpa [List.append_assoc] using this
    · have := getElem?_splitArgs_255_call _ hF2 hc2 args[255] hw rest
      simpa [List.append_assoc] using this
  · have hlen : args.length ≠ 256 := by
      have := congrArg List.length hb
      simp at this
      omega
    simp only [hlen, if_false]
    have := getElem?_splitArgs_255 _ hF2 hc2 args[255] hw
      (argList ((b :: back).map fun u => [u]) ++ q ++ Tok.comma :: rest)
    simpa [List.append_assoc, argList] using this


/-- The macro `GMP_HAS_COMMA` on 256 or more plain tokens, possibly after the
tokens `pre` and before the tokens `q`: it selects the 256th token, not `0` or
`1`; when that token is the last argument, `q` goes with it. -/
theorem GMP_HAS_COMMA_many (args : List Tok) (h : ∀ t ∈ args, t.plain = true)
    (hn : 256 ≤ args.length) (pre q : Toks)
    (hpre : ∀ t ∈ pre, t ≠ Tok.comma ∧ t ≠ Tok.lparen ∧ t ≠ Tok.rparen)
    (hq : q = [] ∨ q = [Tok.lparen, Tok.rparen]) :
    GMP_HAS_COMMA (pre ++ argList (args.map fun u => [u]) ++ q)
      = some (if args.length = 256 then args[255] :: q else [args[255]]) := by
  rw [GMP_HAS_COMMA, _GMP_COMMA_CHECK, getElem?_splitArgs_many args h hn pre q _ hpre hq]
  rfl

/-- The scans for `_TRIGGER_PARENTHESIS` in `GMP_IS_EMPTY` change nothing when
the arguments are plain tokens. -/
theorem scan_TRIGGER_PARENTHESIS_plain (args : List Tok) (h : ∀ t ∈ args, t.plain = true)
    (hne : args ≠ []) (q : Toks) (hq : q = [] ∨ q = [Tok.lparen, Tok.rparen]) :
    scan_TRIGGER_PARENTHESIS 0 (argList (args.map fun u => [u]) ++ q)
        = some (argList (args.map fun u => [u]) ++ q)
      ∧ scan_TRIGGER_PARENTHESIS 0
          (Tok.ident "_TRIGGER_PARENTHESIS" :: argList (args.map fun u => [u]) ++ q)
        = some (Tok.ident "_TRIGGER_PARENTHESIS" :: argList (args.map fun u => [u]) ++ q) := by
  cases args with
  | nil => exact absurd rfl hne
  | cons a as =>
    obtain ⟨hflat, _⟩ := argList_plain (a :: as) h
    obtain ⟨F, hF⟩ := argList_cons a as
    have ha := Tok.plain_ne a (h a (List.mem_cons_self _ _))
    rw [hF] at hflat ⊢
    have hno : ∀ t ∈ a :: F ++ q, t ≠ Tok.ident "_TRIGGER_PARENTHESIS" := by
      intro t ht
      rcases List.mem_append.mp ht with ht | ht
      · exact (hflat t ht).2.2
      · rcases hq with rfl | rfl
        · cases ht
        · simp only [List.mem_cons, List.mem_singleton, List.not_mem_nil, or_false] at ht
          rcases ht with rfl | rfl <;> simp
    exact ⟨scan_TRIGGER_PARENTHESIS_id _ hno,
      scan_TRIGGER_PARENTHESIS_name a (F ++ q) ha.2.1 hno⟩

/-- The operator `##` on an identifier and tokens that start with a pastable one. -/
theorem paste_ident_cons (a : String) (v : Tok) (rs : Toks) (hv : v.pastable = true) :
    paste [Tok.ident a] (v :: rs) = some (Tok.ident (a ++ v.spelling) :: rs) := by
  simp [paste, pasteTok_ident a v hv]

/-- A token that is not pastable cannot be pasted to an identifier. -/
theorem pasteTok_ident_none (a : String) (v : Tok) (hv : v.pastable = false) :
    pasteTok (Tok.ident a) v = none := by
  cases v <;> simp_all [Tok.pastable, pasteTok]

/-- The macro `_GMP_IS_EMPTY_CASE` has no expansion when its first argument is
a token that cannot be pasted to an identifier. -/
theorem _GMP_IS_EMPTY_CASE_not_pastable (w : Tok) (hw : w.pastable = false) (x1 x2 x3 : Toks) :
    _GMP_IS_EMPTY_CASE [w] x1 x2 x3 = none := by
  simp [_GMP_IS_EMPTY_CASE, paste, pasteTok_ident_none _ w hw]

/-- The macro `_GMP_IS_EMPTY_CASE` has no expansion when `()` follows its third
argument: the parenthesis cannot be pasted to the fourth. -/
theorem _GMP_IS_EMPTY_CASE_call (w : Tok) (x3 : Toks) :
    _GMP_IS_EMPTY_CASE [w] [w] [w, Tok.lparen, Tok.rparen] (w :: x3) = none := by
  by_cases hw : w.pastable = true
  · rw [_GMP_IS_EMPTY_CASE, paste_ident_cons _ w [] hw, Option.some_bind,
      paste_ident_cons _ w [] hw, Option.some_bind, paste_ident_cons _ w _ hw, Option.some_bind]
    cases w <;> simp [paste, pasteTok]
  · exact _GMP_IS_EMPTY_CASE_not_pastable w (by simpa using hw) _ _ _

/-- Four times the same spelling after `_GMP_IS_EMPTY_CASE_` is not the name of
an object-like macro. -/
theorem objectLike_IS_EMPTY_CASE (s : String) :
    objectLike ("_GMP_IS_EMPTY_CASE_" ++ s ++ s ++ s ++ s) = none := by
  have e : "_GMP_IS_EMPTY_CASE_" ++ s ++ s ++ s ++ s
      = "_GMP_IS_EMPTY_CASE_" ++ (s ++ s ++ s ++ s) := by
    simp only [String.append_assoc]
  rw [e]
  unfold objectLike
  rw [indexed?_append_none _ _ _ (by decide) (by decide),
    indexed2?_append_none _ _ _ (by decide) (by decide)]
  refine lookup_objectLikeNamed_none
    (fun name => "_GMP_IS_EMPTY_CASE_".data.isPrefixOf name.data
      && (name.data.drop 19 != ['0', '0', '0', '1'])) _ ?_ (by decide)
  have hd : (("_GMP_IS_EMPTY_CASE_" ++ (s ++ s ++ s ++ s)).data.drop 19)
      = s.data ++ s.data ++ s.data ++ s.data := by
    simp only [data_append]
    exact List.drop_left' rfl
  simp only [hd, Bool.and_eq_true, bne_iff_ne, ne_eq]
  refine ⟨by simp [data_append], ?_⟩
  intro h4
  have hl := congrArg List.length h4
  simp only [List.length_append, List.length_cons, List.length_nil] at hl
  have h1 : s.data.length = 1 := by omega
  obtain ⟨c, hc⟩ := List.length_eq_one.mp h1
  rw [hc] at h4
  have h5 : [c, c, c, c] = ['0', '0', '0', '1'] := h4
  have h0 : c = '0' := (List.cons.inj h5).1
  have h1 : c = '1' := (List.cons.inj (List.cons.inj (List.cons.inj (List.cons.inj h5).2).2).2).1
  exact absurd (h0.symm.trans h1) (by decide)


/-- The macro `_GMP_IS_EMPTY_CASE` on four times the same pastable token. -/
theorem _GMP_IS_EMPTY_CASE_same (w : Tok) (hw : w.pastable = true) :
    _GMP_IS_EMPTY_CASE [w] [w] [w] [w]
      = some [Tok.ident ("_GMP_IS_EMPTY_CASE_" ++ w.spelling ++ w.spelling ++ w.spelling
          ++ w.spelling)] := by
  rw [_GMP_IS_EMPTY_CASE, paste_ident_cons _ w [] hw, Option.some_bind,
    paste_ident_cons _ w [] hw, Option.some_bind, paste_ident_cons _ w [] hw, Option.some_bind,
    paste_ident_cons _ w [] hw, Option.map_some', rescan_ident _ (objectLike_IS_EMPTY_CASE _)]

/-- The macro `GMP_IS_EMPTY` on 256 or more plain tokens: `0` when there are 257
or more and the 256th can be pasted to an identifier, no expansion otherwise. -/
theorem GMP_IS_EMPTY_many (args : List Tok) (h : ∀ t ∈ args, t.plain = true)
    (hn : 256 ≤ args.length) :
    GMP_IS_EMPTY (argList (args.map fun u => [u]))
      = if 257 ≤ args.length ∧ args[255].pastable = true then some [Tok.nat 0] else none := by
  have hne : args ≠ [] := List.ne_nil_of_length_pos (by omega)
  have hTP : ∀ t ∈ [Tok.ident "_TRIGGER_PARENTHESIS"],
      t ≠ Tok.comma ∧ t ≠ Tok.lparen ∧ t ≠ Tok.rparen := by
    intro t ht
    rw [List.mem_singleton.mp ht]
    simp
  have s1 := (scan_TRIGGER_PARENTHESIS_plain args h hne [] (Or.inl rfl)).2
  obtain ⟨s2, s3⟩ := scan_TRIGGER_PARENTHESIS_plain args h hne [Tok.lparen, Tok.rparen]
    (Or.inr rfl)
  have e0 := GMP_HAS_COMMA_many args h hn [] [] (by simp) (Or.inl rfl)
  have e1 := GMP_HAS_COMMA_many args h hn [Tok.ident "_TRIGGER_PARENTHESIS"] [] hTP
    (Or.inl rfl)
  have e2 := GMP_HAS_COMMA_many args h hn [] [Tok.lparen, Tok.rparen] (by simp) (Or.inr rfl)
  have e3 := GMP_HAS_COMMA_many args h hn [Tok.ident "_TRIGGER_PARENTHESIS"]
    [Tok.lparen, Tok.rparen] hTP (Or.inr rfl)
  simp only [List.nil_append, List.append_nil, ite_self, List.singleton_append,
    List.cons_append] at s1 s2 s3 e0 e1 e2 e3
  unfold GMP_IS_EMPTY
  simp only [map_GMP_EXPAND, List.cons_append, s1, s2, s3, e0, e1, e2, e3,
    Option.bind_eq_bind, Option.some_bind, _GMP_IS_EMPTY_IMPL]
  by_cases h6 : args.length = 256
  · simp only [h6, if_true, _GMP_IS_EMPTY_CASE_call, Option.none_bind]
    simp
  · have h7 : 257 ≤ args.length := by omega
    simp only [h6, if_false, h7, true_and]
    by_cases hw : args[255].pastable = true
    · rw [_GMP_IS_EMPTY_CASE_same _ hw, Option.some_bind, GMP_HAS_COMMA_ident]
      simp [hw]
    · rw [_GMP_IS_EMPTY_CASE_not_pastable _ (by simpa using hw)]
      simp [hw]

/-- The macro `GMP_OPT_COMMA` on 256 or more plain tokens. -/
theorem GMP_OPT_COMMA_many (args : List Tok) (h : ∀ t ∈ args, t.plain = true)
    (hn : 256 ≤ args.length) :
    GMP_OPT_COMMA (argList (args.map fun u => [u]))
      = if 257 ≤ args.length ∧ args[255].pastable = true then some [Tok.comma] else none := by
  have hc : GMP_CONCAT [Tok.ident "_GMP_OPT_COMMA_"] [Tok.nat 0] = some [Tok.comma] := by
    decide
  rw [GMP_OPT_COMMA, GMP_IS_EMPTY_many args h hn]
  split_ifs
  · rw [Option.some_bind, hc]
  · rfl

/-- With an empty first argument before 255 or more plain tokens, the
256th argument of `_GMP_GET_VARARGS_IMPL` is the 255th token. -/
theorem GMP_GET_VARARGS_many (args : List Tok) (h : ∀ t ∈ args, t.plain = true)
    (hn : 255 ≤ args.length) (rest : Toks) :
    GMP_GET_VARARGS ([Tok.comma] ++ argList (args.map fun u => [u]) ++ Tok.comma :: rest)
      = some [args[254]] := by
  obtain ⟨hF, hc⟩ := argList_take_plain args h 254 (by omega)
  have hw := Tok.plain_ne3 _ (h args[254] (List.getElem_mem _))
  have hF2 : ∀ t ∈ Tok.comma :: argList ((args.take 254).map fun u => [u]),
      t ≠ Tok.lparen ∧ t ≠ Tok.rparen := by
    intro t ht
    rcases List.mem_cons.mp ht with rfl | ht
    · simp
    · exact hF t ht
  have hc2 : (Tok.comma :: argList ((args.take 254).map fun u => [u])).count Tok.comma
      = 254 := by
    rw [List.count_cons_self, hc]
  rw [GMP_GET_VARARGS, _GMP_GET_VARARGS_IMPL, map_GMP_EXPAND,
    argList_cut args 254 (by omega) (by omega)]
  rcases hb : args.drop (254 + 1) with _ | ⟨b, back⟩
  · have := getElem?_splitArgs_255 _ hF2 hc2 args[254] hw rest
    simpa [List.append_assoc, argList] using this
  · have := getElem?_splitArgs_255 _ hF2 hc2 args[254] hw
      (argList ((b :: back).map fun u => [u]) ++ Tok.comma :: rest)
    simpa [List.append_assoc, argList] using this

/-- The macro `GMP_SIZE_OF_VAARGS` on 255 or more plain tokens: the count is
not detected.  With 255 tokens the expansion is the last of them; with 256
there is none; with more it is the 255th token when the 256th can be pasted to
an identifier, and there is none otherwise. -/
theorem GMP_SIZE_OF_VAARGS_many (args : List Tok) (h : ∀ t ∈ args, t.plain = true)
    (hn : 255 ≤ args.length) :
    GMP_SIZE_OF_VAARGS (argList (args.map fun u => [u]))
      = if args.length = 255
            ∨ (257 ≤ args.length ∧ (args.getD 255 Tok.comma).pastable = true)
          then some [args[254]] else none := by
  rw [GMP_SIZE_OF_VAARGS]
  by_cases h5 : args.length = 255
  · obtain ⟨a, as, rfl⟩ := List.exists_cons_of_ne_nil
      (List.ne_nil_of_length_pos (by omega : 0 < args.length))
    rw [GMP_OPT_COMMA_plain a as h (by omega), Option.some_bind, map_GMP_EXPAND,
      GMP_GET_VARARGS_many (a :: as) h hn]
    simp [h5]
  · have h6 : 256 ≤ args.length := by omega
    have hD : args.getD 255 Tok.comma = args[255] := by
      rw [List.getD_eq_getElem?_getD, List.getElem?_eq_getElem (by omega)]
      rfl
    rw [GMP_OPT_COMMA_many args h h6, hD]
    simp only [h5, false_or]
    split_ifs
    · rw [Option.some_bind, map_GMP_EXPAND, GMP_GET_VARARGS_many args h hn]
    · rfl

/-! ### No deferred name is left -/

/-- A plain token, a comma or a parenthesis is not the name of a deferred macro. -/
theorem Tok.ne_indirect (t : Tok)
    (h : t.plain = true ∨ t = Tok.comma ∨ t = Tok.lparen ∨ t = Tok.rparen) :
    t ≠ Tok.ident "_GMP_LOOP_INDIRECT" ∧ t ≠ Tok.ident "_GMP_RANGE_INDIRECT" := by
  rcases h with h | rfl | rfl | rfl
  · constructor
    · rintro rfl; exact absurd h (by decide)
    · rintro rfl; exact absurd h (by decide)
  · simp
  · simp
  · simp

/-- The copies of `call(args)` hold no name of a deferred macro. -/
theorem not_mem_indirect_loop (call : Tok) (hc : call.plain = true) (args : List Tok)
    (h : ∀ t ∈ args, t.plain = true) (c : Nat) (t : Tok)
    (ht : t ∈ (List.replicate c
      (call :: Tok.lparen :: argList (args.map fun u => [u]) ++ [Tok.rparen])).flatten) :
    t ≠ Tok.ident "_GMP_LOOP_INDIRECT" ∧ t ≠ Tok.ident "_GMP_RANGE_INDIRECT" := by
  obtain ⟨U, hU, htU⟩ := List.mem_flatten.mp ht
  rw [(List.mem_replicate.mp hU).2] at htU
  simp only [List.cons_append, List.mem_cons, List.mem_append, List.mem_singleton,
    List.not_mem_nil, or_false] at htU
  apply Tok.ne_indirect
  rcases htU with rfl | rfl | htU | rfl
  · exact Or.inl hc
  · exact Or.inr (Or.inr (Or.inl rfl))
  · rcases mem_argList_singles args t htU with rfl | hm
    · exact Or.inr (Or.inl rfl)
    · exact Or.inl (h t hm)
  · exact Or.inr (Or.inr (Or.inr rfl))

/-- A sequence of numbers and commas holds no name of a deferred macro. -/
theorem not_mem_indirect_range (ns : List Nat) (t : Tok)
    (ht : t ∈ argList (ns.map fun n => [Tok.nat n])) :
    t ≠ Tok.ident "_GMP_LOOP_INDIRECT" ∧ t ≠ Tok.ident "_GMP_RANGE_INDIRECT" := by
  have e : (ns.map fun n => [Tok.nat n]) = (ns.map Tok.nat).map fun u => [u] := by
    rw [List.map_map]; rfl
  rw [e] at ht
  apply Tok.ne_indirect
  rcases mem_argList_singles _ t ht with rfl | hm
  · exact Or.inr (Or.inl rfl)
  · obtain ⟨n, _, rfl⟩ := List.mem_map.mp hm
    exact Or.inl (Tok.nat_plain n)

/-! ## The claims -/

section TypeListClaims

variable {α : Type}

/-- C1: for every type list `L` and every index `Idx < type_list_size_v<L>`,
`type_list_element_t<Idx, L>` is the type at 0-based position `Idx` of `L`;
index 0 is the first type. -/
theorem C1_type_list_element (L : List α) (Idx : Nat) (h : Idx < type_list_size_v L) :
    type_list_element Idx L = some (L.get ⟨Idx, h⟩)
      ∧ ∀ (Head : α) (Types : List α), type_list_element 0 (Head :: Types) = some Head := by
  refine ⟨?_, fun Head Types => rfl⟩
  rw [type_list_element_eq_getElem?]
  exact List.getElem?_eq_getElem h

/-- Instance of C1: position 1 of `type_list<int, char, double>` is `char`. -/
theorem C1_type_list_element_witness :
    1 < type_list_size_v ["int", "char", "double"]
      ∧ type_list_element 1 ["int", "char", "double"] = some "char" :=
  ⟨by decide, (C1_type_list_element ["int", "char", "double"] 1 (by decide)).1⟩

/-- C2: for every sequence of two or more type lists, `type_list_concat_t` is
the single list holding the types of the first list in order, then those of the
second, and so on; its size is the sum of the sizes. -/
theorem C2_type_list_concat (TypeLists : List (List α)) (h : 2 ≤ TypeLists.length) :
    type_list_concat_t TypeLists = some TypeLists.flatten
      ∧ type_list_size_v TypeLists.flatten = (TypeLists.map type_list_size_v).sum := by
  constructor
  · match TypeLists, h with
    | L1 :: L2 :: Rest, _ =>
      rw [type_list_concat_t_eq]
      simp
  · simp only [type_list_size_v, List.length_flatten]
    rfl

/-- Instance of C2: four lists, one of them empty. -/
theorem C2_type_list_concat_witness :
    2 ≤ [["int"], ["char", "int"], [], ["double"]].length
      ∧ type_list_concat_t [["int"], ["char", "int"], [], ["double"]]
          = some ["int", "char", "int", "double"] :=
  ⟨by decide, (C2_type_list_concat [["int"], ["char", "int"], [], ["double"]] (by decide)).1⟩

/-- C3: for every type list `L`, type `NewType` and index `Idx <= type_list_size_v<L>`,
`type_list_insert_t<Idx, NewType, L>` has one type more than `L`, has `NewType`
at position `Idx`, keeps the types below `Idx` where they were and moves the
type at every position `p >= Idx` to `p + 1`; `Idx = type_list_size_v<L>` appends. -/
theorem C3_type_list_insert (L : List α) (NewType : α) (Idx : Nat)
    (h : Idx ≤ type_list_size_v L) :
    ∃ R, type_list_insert_t Idx NewType L = some R
      ∧ type_list_size_v R = type_list_size_v L + 1
      ∧ type_list_element Idx R = some NewType
      ∧ (∀ p, p < Idx → type_list_element p R = type_list_element p L)
      ∧ (∀ p, Idx ≤ p → p < type_list_size_v L →
          type_list_element (p + 1) R = type_list_element p L)
      ∧ (Idx = type_list_size_v L → R = L ++ [NewType]) := by
  unfold type_list_size_v at h
  have hlen : (L.take Idx).length = Idx := by simp [h]
  refine ⟨L.take Idx ++ NewType :: L.drop Idx, ?_, ?_, ?_, ?_, ?_, ?_⟩
  · simp [type_list_insert_t_eq, h]
  · simp only [type_list_size_v, List.length_append, List.length_cons, List.length_take,
      List.length_drop]
    omega
  · rw [type_list_element_eq_getElem?, List.getElem?_append_right (by omega), hlen]
    simp
  · intro p hp
    rw [type_list_element_eq_getElem?, type_list_element_eq_getElem?,
      List.getElem?_append_left (by omega), List.getElem?_take_of_lt hp]
  · intro p hp _
    rw [type_list_element_eq_getElem?, type_list_element_eq_getElem?,
      List.getElem?_append_right (by omega), hlen]
    have e : p + 1 - Idx = (p - Idx) + 1 := by omega
    rw [e, List.getElem?_cons_succ, List.getElem?_drop]
    congr 1
    omega
  · intro hI
    unfold type_list_size_v at hI
    subst hI
    simp

/-- Instance of C3: `bool` inserted at position 2 of `type_list<int, char, double>`. -/
theorem C3_type_list_insert_witness :
    2 ≤ type_list_size_v ["int", "char", "double"]
      ∧ ∃ R, type_list_insert_t 2 "bool" ["int", "char", "double"] = some R
          ∧ type_list_size_v R = type_list_size_v ["int", "char", "double"] + 1
          ∧ type_list_element 2 R = some "bool"
          ∧ (∀ p, p < 2 → type_list_element p R = type_list_element p ["int", "char", "double"])
          ∧ (∀ p, 2 ≤ p → p < type_list_size_v ["int", "char", "double"] →
              type_list_element (p + 1) R = type_list_element p ["int", "char", "double"])
          ∧ (2 = type_list_size_v ["int", "char", "double"]
              → R = ["int", "char", "double"] ++ ["bool"]) :=
  ⟨by decide, C3_type_list_insert ["int", "char", "double"] "bool" 2 (by decide)⟩

/-- C4: for every type list `L` and index `Idx < type_list_size_v<L>`,
`type_list_remove_t<Idx, L>` has one type fewer than `L`: the types below `Idx`
stay where they were, the type at every position `p > Idx` moves to `p - 1`,
and only the occurrence at position `Idx` is gone. -/
theorem C4_type_list_remove (L : List α) (Idx : Nat) (h : Idx < type_list_size_v L) :
    ∃ R, type_list_remove_t Idx L = some R
      ∧ type_list_size_v R = type_list_size_v L - 1
      ∧ (∀ p, p < Idx → type_list_element p R = type_list_element p L)
      ∧ (∀ p, Idx < p → p < type_list_size_v L →
          type_list_element (p - 1) R = type_list_element p L)
      ∧ R = L.take Idx ++ L.drop (Idx + 1) := by
  unfold type_list_size_v at h
  refine ⟨L.eraseIdx Idx, ?_, ?_, ?_, ?_, ?_⟩
  · simp [type_list_remove_t_eq, h]
  · simp [type_list_size_v, List.length_eraseIdx, h]
  · intro p hp
    rw [type_list_element_eq_getElem?, type_list_element_eq_getElem?,
      List.getElem?_eraseIdx, if_pos hp]
  · intro p hp _
    rw [type_list_element_eq_getElem?, type_list_element_eq_getElem?,
      List.getElem?_eraseIdx, if_neg (by omega)]
    congr 1
    omega
  · exact List.eraseIdx_eq_take_drop_succ L Idx

/-- Instance of C4: position 1 removed from `type_list<int, char, int, char>`. -/
theorem C4_type_list_remove_witness :
    1 < type_list_size_v ["int", "char", "int", "char"]
      ∧ ∃ R, type_list_remove_t 1 ["int", "char", "int", "char"] = some R
          ∧ type_list_size_v R = type_list_size_v ["int", "char", "int", "char"] - 1
          ∧ (∀ p, p < 1 →
              type_list_element p R = type_list_element p ["int", "char", "int", "char"])
          ∧ (∀ p, 1 < p → p < type_list_size_v ["int", "char", "int", "char"] →
              type_list_element (p - 1) R
                = type_list_element p ["int", "char", "int", "char"])
          ∧ R = ["int", "char", "int", "char"].take 1
                  ++ ["int", "char", "int", "char"].drop (1 + 1) :=
  ⟨by decide, C4_type_list_remove ["int", "char", "int", "char"] 1 (by decide)⟩

/-- C5: for every type list `L` of size `n`, `type_list_reverse_t<L>` has size
`n` and its type at position `i` is the type of `L` at position `n - 1 - i`, for
every `i < n`; the empty list reverses to the empty list. -/
theorem C5_type_list_reverse (L : List α) :
    (∃ R, type_list_reverse_t L = some R
      ∧ type_list_size_v R = type_list_size_v L
      ∧ ∀ i, i < type_list_size_v L →
          type_list_element i R = type_list_element (type_list_size_v L - 1 - i) L)
      ∧ type_list_reverse_t ([] : List α) = some [] := by
  refine ⟨⟨L.reverse, type_list_reverse_t_eq L, by simp [type_list_size_v], ?_⟩,
    type_list_reverse_t_eq []⟩
  intro i hi
  unfold type_list_size_v at hi ⊢
  rw [type_list_element_eq_getElem?, type_list_element_eq_getElem?,
    List.getElem?_reverse hi]

/-- C6: for every type list `L`, `type_list_unique_t<L>` contains no type more
than once, and `type_list_contains_v<U, type_list_unique_t<L>>` equals
`type_list_contains_v<U, L>` for every type `U`. -/
theorem C6_type_list_unique [DecidableEq α] (L : List α) :
    ∃ R, type_list_unique_t L = some R ∧ R.Nodup
      ∧ ∀ U, type_list_contains_v U R = type_list_contains_v U L := by
  cases L with
  | nil => exact ⟨[], rfl, List.nodup_nil, fun U => rfl⟩
  | cons Head Types =>
    obtain ⟨R, hR, hnd, hmem⟩ := type_list_unique_impl_spec Types [] Head List.nodup_nil
    refine ⟨R, ?_, hnd, ?_⟩
    · simpa [type_list_unique_t, type_list_size_v, size_t_dec_succ, type_list_contains_v]
        using hR
    · intro U
      rw [type_list_contains_v_eq, type_list_contains_v_eq]
      simp [hmem]

/-- C7: for every type list `L` and unary predicate `Pred`,
`type_list_filter_t<L, Pred>` is the subsequence of `L` made of the types `T`
with `Pred<T>::value` true, in their order and multiplicity; a type with
`Pred<T>::value` false does not appear in it. -/
theorem C7_type_list_filter (L : List α) (Pred : α → Bool) :
    ∃ R, type_list_filter_t L Pred = some R ∧ R = L.filter Pred
      ∧ R.Sublist L ∧ ∀ T, T ∈ R → Pred T = true := by
  refine ⟨L.filter Pred, ?_, rfl, List.filter_sublist L, fun T hT => (List.mem_filter.mp hT).2⟩
  cases L with
  | nil => rfl
  | cons Head Types =>
    simpa [type_list_filter_t, type_list_size_v, size_t_dec_succ] using
      type_list_filter_impl_eq Pred Types [] Head

/-- C8: for every type list `L`, `type_list_size_v<L>` is the number of types
held by `L`, a repeated type counting once per occurrence; it is 0 for
`type_list<>`. -/
theorem C8_type_list_size (L : List α) :
    type_list_size_v L = L.length
      ∧ type_list_size_v ([] : List α) = 0
      ∧ (∀ T : α, type_list_size_v (T :: L) = type_list_size_v L + 1)
      ∧ ∀ (T : α) (n : Nat), type_list_size_v (List.replicate n T) = n :=
  ⟨rfl, rfl, fun _ => rfl, fun T n => List.length_replicate n T⟩

/-- C9: `type_list_element_t<Idx, L>` and `type_list_remove_t<Idx, L>` have a
result exactly when `Idx < type_list_size_v<L>`, `type_list_insert_t<Idx, New, L>`
exactly when `Idx <= type_list_size_v<L>`; `type_list_head`, `type_list_last`,
`type_list_tail_t`, `type_list_pop_front` and `type_list_pop_back` are rejected
for the empty list. -/
theorem C9_index_bounds (L : List α) (New : α) (Idx : Nat) :
    ((type_list_element Idx L).isSome ↔ Idx < type_list_size_v L)
      ∧ ((type_list_remove_t Idx L).isSome ↔ Idx < type_list_size_v L)
      ∧ ((type_list_insert_t Idx New L).isSome ↔ Idx ≤ type_list_size_v L)
      ∧ type_list_head ([] : List α) = none
      ∧ type_list_last ([] : List α) = none
      ∧ type_list_tail_t ([] : List α) = none
      ∧ type_list_pop_front ([] : List α) = none
      ∧ type_list_pop_back ([] : List α) = none := by
  refine ⟨?_, ?_, ?_, rfl, ?_, rfl, rfl, ?_⟩
  · rw [type_list_element_eq_getElem?]
    unfold type_list_size_v
    by_cases h : Idx < L.length
    · simp [h, List.getElem?_eq_getElem]
    · simp [h, List.getElem?_eq_none (Nat.le_of_not_lt h)]
  · rw [type_list_remove_t_eq]
    unfold type_list_size_v
    split <;> simp [*]
  · rw [type_list_insert_t_eq]
    unfold type_list_size_v
    split <;> simp [*]
  · simp [type_list_last, type_list_element]
  · simp [type_list_pop_back, type_list_remove_t, type_list_size_v]

end TypeListClaims

/-- C10: for every argument list of `n` plain tokens with `0 <= n <= 254`,
`GMP_SIZE_OF_VAARGS` expands to the number `n`. -/
theorem C10_GMP_SIZE_OF_VAARGS (args : List Tok) (hplain : ∀ t ∈ args, t.plain = true)
    (hn : args.length ≤ 254) :
    GMP_SIZE_OF_VAARGS (argList (args.map fun t => [t])) = some [Tok.nat args.length] := by
  cases args with
  | nil => exact GMP_SIZE_OF_VAARGS_nil
  | cons a as => exact GMP_SIZE_OF_VAARGS_plain a as hplain hn

/-- Instance of C10, the documented `GMP_SIZE_OF_VAARGS('a', 'b', 1, 2)`, which is 4. -/
theorem C10_GMP_SIZE_OF_VAARGS_witness :
    (∀ t ∈ [Tok.other "'a'", Tok.other "'b'", Tok.nat 1, Tok.nat 2], t.plain = true)
      ∧ [Tok.other "'a'", Tok.other "'b'", Tok.nat 1, Tok.nat 2].length ≤ 254
      ∧ GMP_SIZE_OF_VAARGS
          (argList ([Tok.other "'a'", Tok.other "'b'", Tok.nat 1, Tok.nat 2].map fun t => [t]))
          = some [Tok.nat 4] :=
  ⟨by decide, by decide,
    C10_GMP_SIZE_OF_VAARGS [Tok.other "'a'", Tok.other "'b'", Tok.nat 1, Tok.nat 2]
      (by decide) (by decide)⟩

/-- C11: for every plain `call` and every argument list of `n` plain tokens with
`0 <= n <= 254`, `GMP_FOR_EACH(call, a1, ..., an)` expands to
`call(a1) call(a2) ... call(an)`, one invocation per argument in argument
order, which is nothing for `n = 0`. -/
theorem C11_GMP_FOR_EACH (call : Tok) (args : List Tok) (hcall : call.plain = true)
    (hplain : ∀ a ∈ args, a.plain = true) (hn : args.length ≤ 254) :
    GMP_FOR_EACH [call] (argList (args.map fun a => [a]))
      = some ((args.map fun a => [call, Tok.lparen, a, Tok.rparen]).flatten) :=
  GMP_FOR_EACH_plain call hcall args hplain hn

/-- Instance of C11, the documented `GMP_FOR_EACH(DECLARE_VARIABLES, 1, 2)`:
`DECLARE_VARIABLES(1) DECLARE_VARIABLES(2)`. -/
theorem C11_GMP_FOR_EACH_witness :
    (Tok.ident "DECLARE_VARIABLES").plain = true
      ∧ (∀ a ∈ [Tok.nat 1, Tok.nat 2], a.plain = true)
      ∧ [Tok.nat 1, Tok.nat 2].length ≤ 254
      ∧ GMP_FOR_EACH [Tok.ident "DECLARE_VARIABLES"] [Tok.nat 1, Tok.comma, Tok.nat 2]
          = some [Tok.ident "DECLARE_VARIABLES", Tok.lparen, Tok.nat 1, Tok.rparen,
              Tok.ident "DECLARE_VARIABLES", Tok.lparen, Tok.nat 2, Tok.rparen] :=
  ⟨by decide, by decide, by decide,
    C11_GMP_FOR_EACH (Tok.ident "DECLARE_VARIABLES") [Tok.nat 1, Tok.nat 2]
      (by decide) (by decide) (by decide)⟩

/-- C12, as the code has it: for every base name `call` and between one and
five plain versions, each an identifier or a number of identifier characters,
when none of the names pasted on the way (`call_`, `call_v1`, `call_v1_`, ...,
`call_v1_..._vk`) is an object-like macro, `GMP_OVERLOAD_INVOKE(call, v1, ..., vk)`
expands to the single identifier `call_v1_..._vk`. -/
theorem C12_GMP_OVERLOAD_INVOKE (call : String) (vs : List Tok)
    (hk1 : 1 ≤ vs.length) (hk5 : vs.length ≤ 5)
    (hplain : ∀ v ∈ vs, v.plain = true) (hpaste : ∀ v ∈ vs, v.pastable = true)
    (hsteps : ∀ s ∈ overloadSteps call vs, objectLike s = none)
    (hname : objectLike (overloadName call vs) = none) :
    GMP_OVERLOAD_INVOKE [Tok.ident call] (argList (vs.map fun v => [v]))
      = some [Tok.ident (overloadName call vs)] := by
  rw [GMP_OVERLOAD_INVOKE_ident call vs hk1 hk5 hplain hpaste hsteps, rescan_ident _ hname]

/-- Instance of C12, the documented `GMP_OVERLOAD_INVOKE(TEST, 1, 1)`, which is
`TEST_1_1`. -/
theorem C12_GMP_OVERLOAD_INVOKE_witness :
    1 ≤ [Tok.nat 1, Tok.nat 1].length ∧ [Tok.nat 1, Tok.nat 1].length ≤ 5
      ∧ (∀ v ∈ [Tok.nat 1, Tok.nat 1], v.plain = true)
      ∧ (∀ v ∈ [Tok.nat 1, Tok.nat 1], v.pastable = true)
      ∧ (∀ s ∈ overloadSteps "TEST" [Tok.nat 1, Tok.nat 1], objectLike s = none)
      ∧ objectLike (overloadName "TEST" [Tok.nat 1, Tok.nat 1]) = none
      ∧ GMP_OVERLOAD_INVOKE [Tok.ident "TEST"] [Tok.nat 1, Tok.comma, Tok.nat 1]
          = some [Tok.ident "TEST_1_1"] :=
  ⟨by decide, by decide, by decide, by decide, by decide, by decide,
    C12_GMP_OVERLOAD_INVOKE "TEST" [Tok.nat 1, Tok.nat 1] (by decide) (by decide) (by decide)
      (by decide) (by decide) (by decide)⟩

/-- C12 as stated fails: with the base name `_GMP_CHECK_INDEX` and the plain
version `0`, the way the library itself uses the macro, the pasted name
`_GMP_CHECK_INDEX_0` is an object-like macro and the expansion is a comma, not
that identifier; and the plain version `'a'` cannot be pasted to `TEST_`, so
`GMP_OVERLOAD_INVOKE(TEST, 'a')` has no expansion. -/
theorem C12_GMP_OVERLOAD_INVOKE_counterexample :
    (Tok.nat 0).plain = true ∧ (Tok.other "'a'").plain = true
      ∧ overloadName "_GMP_CHECK_INDEX" [Tok.nat 0] = "_GMP_CHECK_INDEX_0"
      ∧ GMP_OVERLOAD_INVOKE [Tok.ident "_GMP_CHECK_INDEX"] [Tok.nat 0] = some [Tok.comma]
      ∧ GMP_OVERLOAD_INVOKE [Tok.ident "TEST"] [Tok.other "'a'"] = none := by
  refine ⟨by decide, by decide, by decide, ?_, ?_⟩
  · rw [GMP_OVERLOAD_INVOKE_CHECK_INDEX]
    rfl
  · have hX : GMP_CONCAT [Tok.ident "_GMP_OVERLOAD_INVOKE_"] [Tok.nat 1]
        = some [Tok.ident "_GMP_OVERLOAD_INVOKE_1"] := by decide
    have hs := GMP_SIZE_OF_VAARGS_plain (Tok.other "'a'") [] (by decide) (by decide)
    have ha : splitArgs ([Tok.ident "TEST"] ++ Tok.comma :: [Tok.other "'a'"])
        = [[Tok.ident "TEST"], [Tok.other "'a'"]] := by decide
    rw [GMP_OVERLOAD_INVOKE]
    erw [hs]
    rw [Option.some_bind]
    erw [hX]
    rw [Option.some_bind, invoke_ident _ "_GMP_OVERLOAD_INVOKE_1" _ _ rfl, ha]
    decide

/-- C13: for every plain `call`, every count with `0 <= count <= 254` and every
argument list `args` of plain tokens, `GMP_LOOP(call, count, args)` expands to
exactly `count` consecutive copies of `call(args)` and nothing else. -/
theorem C13_GMP_LOOP (call : Tok) (count : Nat) (args : List Tok) (hcall : call.plain = true)
    (hplain : ∀ a ∈ args, a.plain = true) (hcount : count ≤ 254) :
    GMP_LOOP [call] [Tok.nat count] (argList (args.map fun a => [a]))
      = some ((List.replicate count
          (call :: Tok.lparen :: argList (args.map fun a => [a]) ++ [Tok.rparen])).flatten) :=
  GMP_LOOP_plain call hcall args hplain count hcount

/-- Instance of C13, the documented `GMP_LOOP(Bar, 254, 1, "arg2")`: 254
invocations `Bar(1, "arg2")`. -/
theorem C13_GMP_LOOP_witness :
    (Tok.ident "Bar").plain = true
      ∧ (∀ a ∈ [Tok.nat 1, Tok.other "\"arg2\""], a.plain = true)
      ∧ 254 ≤ 254
      ∧ GMP_LOOP [Tok.ident "Bar"] [Tok.nat 254] [Tok.nat 1, Tok.comma, Tok.other "\"arg2\""]
          = some ((List.replicate 254
              [Tok.ident "Bar", Tok.lparen, Tok.nat 1, Tok.comma, Tok.other "\"arg2\"",
                Tok.rparen]).flatten) :=
  ⟨by decide, by decide, by decide,
    C13_GMP_LOOP (Tok.ident "Bar") 254 [Tok.nat 1, Tok.other "\"arg2\""]
      (by decide) (by decide) (by decide)⟩

/-- C14, the code at `GMP_RANGE(0, 2)`: the expansion is `0, 1`; the last number
emitted is the one before `end`, where the documentation has a sequence
"from begin to end". -/
theorem C14_GMP_RANGE_ends_before_end :
    GMP_RANGE [Tok.nat 0] [Tok.nat 2] = some [Tok.nat 0, Tok.comma, Tok.nat 1] :=
  GMP_RANGE_nat 0 2 (by decide) (by decide)

/-- C15, the code at `GMP_MAKE_INDEX_SEQUENCE(3)`: the expansion is `0, 1, 2`;
the given index is not in the sequence, where the documentation has it as
"the maximum index value to include". -/
theorem C15_GMP_MAKE_INDEX_SEQUENCE_excludes_index :
    GMP_MAKE_INDEX_SEQUENCE [Tok.nat 3]
      = some [Tok.nat 0, Tok.comma, Tok.nat 1, Tok.comma, Tok.nat 2] :=
  GMP_MAKE_INDEX_SEQUENCE_nat 3 (by decide) (by decide)

/-- C16: for all `i` and `j` from 0 to 254, `GMP_EQUAL_INT(i, j)` expands to the
single token `1` if `i = j` and to the single token `0` otherwise. -/
theorem C16_GMP_EQUAL_INT (i j : Nat) (hi : i ≤ 254) (hj : j ≤ 254) :
    GMP_EQUAL_INT [Tok.nat i] [Tok.nat j] = some [Tok.nat (if i = j then 1 else 0)] :=
  GMP_EQUAL_INT_nat i j hi hj

/-- Instance of C16: `GMP_EQUAL_INT(254, 254)` is `1`. -/
theorem C16_GMP_EQUAL_INT_witness :
    254 ≤ 254 ∧ 254 ≤ 254 ∧ GMP_EQUAL_INT [Tok.nat 254] [Tok.nat 254] = some [Tok.nat 1] :=
  ⟨by decide, by decide, C16_GMP_EQUAL_INT 254 254 (by decide) (by decide)⟩

/-- C17: for every number `index`, `GMP_CHECK_INDEX(index)` expands to nothing
when `index <= 254`, and otherwise to the token
`Error_Index_<index>_Exceeds_Maximum_Macro_Index_254` followed by a semicolon. -/
theorem C17_GMP_CHECK_INDEX (index : Nat) :
    GMP_CHECK_INDEX [Tok.nat index]
      = some (if index ≤ 254 then []
          else [Tok.ident
              ("Error_Index_" ++ toString index ++ "_Exceeds_Maximum_Macro_Index_254"),
            Tok.other ";"]) :=
  GMP_CHECK_INDEX_nat index

/-- C18: for every number `index`, `GMP_CHECK_INDEX_BOOL(index)` expands to `1`
if `index <= 254` and to `0` otherwise; it is `1` exactly when
`GMP_CHECK_INDEX(index)` expands to nothing. -/
theorem C18_GMP_CHECK_INDEX_BOOL (index : Nat) :
    GMP_CHECK_INDEX_BOOL [Tok.nat index] = some [Tok.nat (if index ≤ 254 then 1 else 0)]
      ∧ (GMP_CHECK_INDEX_BOOL [Tok.nat index] = some [Tok.nat 1]
          ↔ GMP_CHECK_INDEX [Tok.nat index] = some []) := by
  refine ⟨GMP_CHECK_INDEX_BOOL_nat index, ?_⟩
  rw [GMP_CHECK_INDEX_BOOL_nat, GMP_CHECK_INDEX_nat]
  by_cases h : index ≤ 254
  · simp [h]
  · simp only [h, if_false]
    constructor
    · intro h01
      exact absurd h01 (by decide)
    · intro he
      simp at he

/-- C19: for every value with `0 <= value <= 255`, `GMP_INC(value)` expands to
the number `value + 1`. -/
theorem C19_GMP_INC (value : Nat) (h : value ≤ 255) :
    GMP_INC [Tok.nat value] = some [Tok.nat (value + 1)] :=
  GMP_INC_nat value h

/-- Instance of C19: `GMP_INC(255)` is `256`. -/
theorem C19_GMP_INC_witness :
    255 ≤ 255 ∧ GMP_INC [Tok.nat 255] = some [Tok.nat 256] :=
  ⟨by decide, C19_GMP_INC 255 (by decide)⟩

/-- C20: for every value with `1 <= value <= 255`, `GMP_DEC(value)` expands to
the number `value - 1`. -/
theorem C20_GMP_DEC (value : Nat) (h1 : 1 ≤ value) (h255 : value ≤ 255) :
    GMP_DEC [Tok.nat value] = some [Tok.nat (value - 1)] :=
  GMP_DEC_nat value h1 h255

/-- Instance of C20: `GMP_DEC(1)` is `0`. -/
theorem C20_GMP_DEC_witness :
    1 ≤ 1 ∧ 1 ≤ 255 ∧ GMP_DEC [Tok.nat 1] = some [Tok.nat 0] :=
  ⟨by decide, by decide, C20_GMP_DEC 1 (by decide) (by decide)⟩

/-- C21, the code at `GMP_BOOL(1)`: `GMP_BOOL(0)` expands to `0`, but
`GMP_BOOL(1)` expands to the name `_GMP_BOOL_1`, not to `1`: `_GMP_BOOL_1` is a
function-like macro and no `()` follows it in `GMP_BOOL`. -/
theorem C21_GMP_BOOL_leaves_name :
    GMP_BOOL [Tok.nat 0] = some [Tok.nat 0]
      ∧ GMP_BOOL [Tok.nat 1] = some [Tok.ident "_GMP_BOOL_1"] :=
  ⟨GMP_BOOL_zero, GMP_BOOL_nat 1 (by decide)⟩

/-- C22, the code at `GMP_NOT(2)`: `GMP_NOT(0)` is `1` and `GMP_NOT(1)` is `0`,
but `GMP_NOT(2)` expands to the name `_GMP_NOT_2`, not to `0`: only `_GMP_NOT_0`
and `_GMP_NOT_1` are defined. -/
theorem C22_GMP_NOT_leaves_name :
    GMP_NOT [Tok.nat 0] = some [Tok.nat 1]
      ∧ GMP_NOT [Tok.nat 1] = some [Tok.nat 0]
      ∧ GMP_NOT [Tok.nat 2] = some [Tok.ident "_GMP_NOT_2"] :=
  ⟨GMP_NOT_bool.1, GMP_NOT_bool.2, GMP_NOT_nat 2 (by decide)⟩

/-- C23: for all operands `a` and `b` in `{0, 1}`, `GMP_AND(a, b)` expands to `1`
if both operands are `1` and to `0` otherwise. -/
theorem C23_GMP_AND (a b : Nat) (ha : a ≤ 1) (hb : b ≤ 1) :
    GMP_AND [Tok.nat a] [Tok.nat b] = some [Tok.nat (if a = 1 ∧ b = 1 then 1 else 0)] :=
  GMP_AND_bool a b ha hb

/-- Instance of C23: `GMP_AND(1, 1)` is `1`. -/
theorem C23_GMP_AND_witness :
    1 ≤ 1 ∧ 1 ≤ 1 ∧ GMP_AND [Tok.nat 1] [Tok.nat 1] = some [Tok.nat 1] :=
  ⟨by decide, by decide, C23_GMP_AND 1 1 (by decide) (by decide)⟩

/-- C24: `GMP_IS_EMPTY()` expands to `1`, and for every non-empty argument list
of up to 254 plain tokens `GMP_IS_EMPTY` expands to `0`. -/
theorem C24_GMP_IS_EMPTY (args : List Tok) (hne : args ≠ [])
    (hplain : ∀ t ∈ args, t.plain = true) (hn : args.length ≤ 254) :
    GMP_IS_EMPTY [] = some [Tok.nat 1]
      ∧ GMP_IS_EMPTY (argList (args.map fun t => [t])) = some [Tok.nat 0] := by
  refine ⟨GMP_IS_EMPTY_nil, ?_⟩
  cases args with
  | nil => exact absurd rfl hne
  | cons a as => exact GMP_IS_EMPTY_plain a as hplain (by omega)

/-- Instance of C24, the documented cases: `GMP_IS_EMPTY()` is `1` and
`GMP_IS_EMPTY(1, 2)` is `0`. -/
theorem C24_GMP_IS_EMPTY_witness :
    [Tok.nat 1, Tok.nat 2] ≠ [] ∧ (∀ t ∈ [Tok.nat 1, Tok.nat 2], t.plain = true)
      ∧ [Tok.nat 1, Tok.nat 2].length ≤ 254
      ∧ GMP_IS_EMPTY [] = some [Tok.nat 1]
      ∧ GMP_IS_EMPTY [Tok.nat 1, Tok.comma, Tok.nat 2] = some [Tok.nat 0] :=
  ⟨by decide, by decide, by decide,
    C24_GMP_IS_EMPTY [Tok.nat 1, Tok.nat 2] (by decide) (by decide) (by decide)⟩

/-- C25: for every argument list of `n` plain tokens with `1 <= n <= 255`,
`GMP_HAS_COMMA` expands to `1` if `n >= 2` (the list contains a comma) and to
`0` if `n = 1`. -/
theorem C25_GMP_HAS_COMMA (args : List Tok) (hplain : ∀ t ∈ args, t.plain = true)
    (h1 : 1 ≤ args.length) (h255 : args.length ≤ 255) :
    GMP_HAS_COMMA (argList (args.map fun t => [t]))
      = some [Tok.nat (if 2 ≤ args.length then 1 else 0)] := by
  obtain ⟨hflat, hcount⟩ := argList_plain args hplain
  have := GMP_HAS_COMMA_flat (argList (args.map fun t => [t])) []
    (fun t ht => ⟨(hflat t ht).1, (hflat t ht).2.1⟩) (Or.inl rfl) (by rw [hcount]; omega)
  rw [List.append_nil, hcount] at this
  rw [this]
  by_cases h2 : 2 ≤ args.length
  · rw [if_neg (by omega), if_pos h2]
  · rw [if_pos (by omega), if_neg h2]

/-- Instance of C25: `GMP_HAS_COMMA(1, 2)` is `1`. -/
theorem C25_GMP_HAS_COMMA_witness :
    (∀ t ∈ [Tok.nat 1, Tok.nat 2], t.plain = true)
      ∧ 1 ≤ [Tok.nat 1, Tok.nat 2].length ∧ [Tok.nat 1, Tok.nat 2].length ≤ 255
      ∧ GMP_HAS_COMMA [Tok.nat 1, Tok.comma, Tok.nat 2] = some [Tok.nat 1] :=
  ⟨by decide, by decide, by decide,
    C25_GMP_HAS_COMMA [Tok.nat 1, Tok.nat 2] (by decide) (by decide) (by decide)⟩

/-- C26, the code at `GMP_OPT_COMMA()`: the expansion is empty, and
`GMP_OPT_COMMA(1)` expands to a comma; the documentation has a comma for empty
arguments and nothing otherwise. -/
theorem C26_GMP_OPT_COMMA_reversed :
    GMP_OPT_COMMA [] = some [] ∧ GMP_OPT_COMMA [Tok.nat 1] = some [Tok.comma] :=
  ⟨GMP_OPT_COMMA_nil, GMP_OPT_COMMA_plain (Tok.nat 1) [] (by decide) (by decide)⟩

/-- C27, as the code has it: an argument count over the ceiling is not
detected.  For every argument list of 255 or more plain tokens,
`GMP_SIZE_OF_VAARGS` expands to the 255th token when there are exactly 255 of
them, or 257 or more and the 256th can be pasted to an identifier; otherwise
(256 tokens, or a 256th token that cannot be pasted) it has no expansion. -/
theorem C27_GMP_SIZE_OF_VAARGS_over_ceiling (args : List Tok)
    (hplain : ∀ t ∈ args, t.plain = true) (hn : 255 ≤ args.length) :
    GMP_SIZE_OF_VAARGS (argList (args.map fun t => [t]))
      = if args.length = 255
            ∨ (257 ≤ args.length ∧ (args.getD 255 Tok.comma).pastable = true)
          then some [args[254]] else none :=
  GMP_SIZE_OF_VAARGS_many args hplain hn

/-- Instance of C27: 255 arguments `x` give `x`. -/
theorem C27_GMP_SIZE_OF_VAARGS_over_ceiling_witness :
    (∀ t ∈ List.replicate 255 (Tok.ident "x"), t.plain = true)
      ∧ 255 ≤ (List.replicate 255 (Tok.ident "x")).length
      ∧ GMP_SIZE_OF_VAARGS (argList ((List.replicate 255 (Tok.ident "x")).map fun t => [t]))
          = some [Tok.ident "x"] :=
  ⟨fun t ht => by rw [(List.mem_replicate.mp ht).2]; rfl,
    (List.length_replicate _ _).ge,
    (C27_GMP_SIZE_OF_VAARGS_over_ceiling (List.replicate 255 (Tok.ident "x"))
      (fun t ht => by rw [(List.mem_replicate.mp ht).2]; rfl)
      (List.length_replicate _ _).ge).trans
      (by rw [if_pos (Or.inl (List.length_replicate _ _)), List.getElem_replicate])⟩

/-- C27 as stated fails: 255 arguments `7` are over the ceiling of 254, and
`GMP_SIZE_OF_VAARGS` expands to the number `7`. -/
theorem C27_GMP_SIZE_OF_VAARGS_counterexample :
    (∀ t ∈ List.replicate 255 (Tok.nat 7), t.plain = true)
      ∧ (List.replicate 255 (Tok.nat 7)).length = 255
      ∧ GMP_SIZE_OF_VAARGS (argList ((List.replicate 255 (Tok.nat 7)).map fun t => [t]))
          = some [Tok.nat 7] :=
  ⟨fun t ht => by rw [(List.mem_replicate.mp ht).2]; rfl,
    List.length_replicate _ _,
    (GMP_SIZE_OF_VAARGS_many (List.replicate 255 (Tok.nat 7))
      (fun t ht => by rw [(List.mem_replicate.mp ht).2]; rfl)
      (List.length_replicate _ _).ge).trans
      (by rw [if_pos (Or.inl (List.length_replicate _ _)), List.getElem_replicate])⟩

/-- C28: for every type list `L`, `type_list_unique_t<L>` is the subsequence of
`L` that keeps the first occurrence of each distinct type and drops every later
one, in the original order: a type at the end of a list is kept exactly when it
does not occur before; `type_list<A, B, A, C, B>` becomes `type_list<A, B, C>`. -/
theorem C28_type_list_unique_first_occurrences {α : Type} [DecidableEq α] (L : List α) :
    type_list_unique_t L = some (keepFirstOccurrences L)
      ∧ (keepFirstOccurrences L).Sublist L
      ∧ (∀ (P : List α) (T : α), keepFirstOccurrences (P ++ [T])
          = if T ∈ P then keepFirstOccurrences P else keepFirstOccurrences P ++ [T])
      ∧ type_list_unique_t ([0, 1, 0, 2, 1] : List Nat) = some [0, 1, 2] := by
  refine ⟨?_, keepFirstOccurrences_sublist L, keepFirstOccurrences_concat, by decide⟩
  cases L with
  | nil => rfl
  | cons Head Types =>
    have := type_list_unique_impl_eq Types [] Head
    simpa [type_list_unique_t, type_list_size_v, size_t_dec_succ, type_list_contains_v]
      using this

/-- C29: `GMP_EVAL` scans its argument 364 times, which is at least 255; so for
every count up to 254 and every `begin < end <= 254` the expansions of
`GMP_LOOP(call, count, args)` and of `GMP_RANGE(begin, end)` exist and hold no
token `_GMP_LOOP_INDIRECT` or `_GMP_RANGE_INDIRECT`. -/
theorem C29_GMP_EVAL_depth (call : Tok) (count : Nat) (args : List Tok) (begin end_ : Nat)
    (hcall : call.plain = true) (hplain : ∀ a ∈ args, a.plain = true)
    (hcount : count ≤ 254) (hb : begin < end_) (he : end_ ≤ 254) :
    (∀ va, GMP_EVAL va = (fun o : Option Toks => o.bind (scanDeferred none))^[364] (some va))
      ∧ 255 ≤ 364
      ∧ (∃ r, GMP_LOOP [call] [Tok.nat count] (argList (args.map fun a => [a])) = some r
          ∧ ∀ t ∈ r, t ≠ Tok.ident "_GMP_LOOP_INDIRECT" ∧ t ≠ Tok.ident "_GMP_RANGE_INDIRECT")
      ∧ (∃ r, GMP_RANGE [Tok.nat begin] [Tok.nat end_] = some r
          ∧ ∀ t ∈ r, t ≠ Tok.ident "_GMP_LOOP_INDIRECT"
            ∧ t ≠ Tok.ident "_GMP_RANGE_INDIRECT") :=
  ⟨GMP_EVAL_eq, by decide,
    ⟨_, GMP_LOOP_plain call hcall args hplain count hcount,
      not_mem_indirect_loop call hcall args hplain count⟩,
    ⟨_, GMP_RANGE_nat begin end_ hb he, not_mem_indirect_range _⟩⟩

/-- Instance of C29: `GMP_LOOP(Bar, 254, 1)` and `GMP_RANGE(0, 254)`. -/
theorem C29_GMP_EVAL_depth_witness :
    (Tok.ident "Bar").plain = true ∧ (∀ a ∈ [Tok.nat 1], a.plain = true)
      ∧ 254 ≤ 254 ∧ 0 < 254 ∧ 254 ≤ 254
      ∧ (∃ r, GMP_LOOP [Tok.ident "Bar"] [Tok.nat 254] [Tok.nat 1] = some r
          ∧ ∀ t ∈ r, t ≠ Tok.ident "_GMP_LOOP_INDIRECT" ∧ t ≠ Tok.ident "_GMP_RANGE_INDIRECT")
      ∧ (∃ r, GMP_RANGE [Tok.nat 0] [Tok.nat 254] = some r
          ∧ ∀ t ∈ r, t ≠ Tok.ident "_GMP_LOOP_INDIRECT"
            ∧ t ≠ Tok.ident "_GMP_RANGE_INDIRECT") :=
  ⟨by decide, by decide, by decide, by decide, by decide,
    (C29_GMP_EVAL_depth (Tok.ident "Bar") 254 [Tok.nat 1] 0 254
      (by decide) (by decide) (by decide) (by decide) (by decide)).2.2⟩

end gmp
